import Mathlib

/-!
# Axion: portfolio time-series analytics

A shallow embedding of `backend/controllers/Analytics/portfolio_analytics.js`
(`getExchangeRate`, `fetchStockHistoricalData`, `getHistoricalRecords`, `comparePortfolio`,
`calculateRiskMetrics`) and of `sellHolding` of
`backend/controllers/user_dashboard/get_all_portfolios.js`, together with the properties of
the valuation, comparison and risk pipeline that the design document states.

Conventions of the embedding.

* JavaScript numbers are modelled by rationals (`ℚ`): sums, products and quotients are
  exact. The one place where the source divides by a number that may be zero keeps an
  explicit non-finite result (`JsValue.nonFinite`).
* A JavaScript object with string keys is an association list in insertion order:
  reading a key is `objGet` (`none` is `undefined`), assigning is `objSet`.
* A JavaScript `Set` of strings is a duplicate-free list in insertion order (`setAdd`).
* Date keys are the strings `YYYY-MM-DD` that `fetchStockHistoricalData` produces.
* The `await`ed market-data fetch is a parameter: `fetch symbol` is `some bars` when the
  fetch of that symbol succeeds and `none` when it throws. The answers of the rate provider,
  of the chart provider and of the portfolio store are parameters in the same way.
* The risk metrics are computed in an arbitrary linearly ordered field `K` (the rationals for
  concrete inputs, the reals where a true square root is needed); `Math.sqrt` is the
  parameter `sqrt`. A number held in memory is a `JsNum`: finite, or non-finite (`NaN` and
  the infinities), and `jsonNumber` is what `res.json` writes for it (`null` for a non-finite
  number).
-/

namespace Axion

/-! ## JavaScript objects, sets and numbers -/

/-- Reading a property: `obj[k]`; `none` stands for `undefined`. -/
def objGet {β : Type} (o : List (String × β)) (k : String) : Option β :=
  match o with
  | [] => none
  | (k', v) :: rest => if k' = k then some v else objGet rest k

/-- Assigning a property: `obj[k] = v` replaces the value of an existing key in place and
appends a new key at the end. -/
def objSet {β : Type} (o : List (String × β)) (k : String) (v : β) : List (String × β) :=
  match o with
  | [] => [(k, v)]
  | (k', v') :: rest => if k' = k then (k', v) :: rest else (k', v') :: objSet rest k v

/-- The keys of an object: `Object.keys(obj)`. -/
def objKeys {β : Type} (o : List (String × β)) : List String :=
  o.map Prod.fst

/-- Adding to a set: `set.add(d)` keeps the first insertion of every element. -/
def setAdd (s : List String) (d : String) : List String :=
  if d ∈ s then s else s ++ [d]

/-- Truthiness of a number: every number except zero is truthy. -/
def truthyNum (v : ℚ) : Bool :=
  decide (v ≠ 0)

/-- Truthiness of `obj[k]` for a numeric property: `undefined` and `0` are falsy. -/
def truthy (v : Option ℚ) : Bool :=
  match v with
  | none => false
  | some q => truthyNum q

/-- Two-decimal rounding `parseFloat(x.toFixed(2))`: the nearest hundredth, ties away from
zero. -/
def toFixed2 (x : ℚ) : ℚ :=
  if x < 0 then -((⌊(-x) * 100 + 1 / 2⌋ : ℤ) : ℚ) / 100
  else ((⌊x * 100 + 1 / 2⌋ : ℤ) : ℚ) / 100

/-! ## Data model -/

/-- One element of the array returned by `fetchStockHistoricalData`. -/
structure Bar where
  date : String
  close : ℚ
  adjClose : ℚ
deriving DecidableEq

/-- The fields of a portfolio holding that the analytics read. -/
structure Holding where
  symbol : String
  quantity : ℚ
deriving DecidableEq

/-! ## getHistoricalRecords -/

/-- The object `stockData` built by `historicalData.forEach` for one holding:
`stockData[day.date] = parseFloat((day.close * holding.quantity).toFixed(2))`. -/
def stockData (holding : Holding) (historicalData : List Bar) : List (String × ℚ) :=
  historicalData.foldl
    (fun sd day => objSet sd day.date (toFixed2 (day.close * holding.quantity))) []

/-- The dates that the same `forEach` adds to `allDates`. -/
def addDates (allDates : List String) (historicalData : List Bar) : List String :=
  historicalData.foldl (fun s day => setAdd s day.date) allDates

/-- The state shared by the per-holding callbacks: the `result` object and the `allDates`
set. -/
structure FetchState where
  result : List (String × List (String × ℚ))
  allDates : List String

/-- The body of the callback mapped over `portfolio.holdings`: on a successful fetch the
holding's `stockData` is stored under its symbol and its dates join `allDates`; on a
failed fetch an empty object is stored. -/
def processHolding (fetch : String → Option (List Bar)) (st : FetchState)
    (holding : Holding) : FetchState :=
  match fetch holding.symbol with
  | some historicalData =>
      { result := objSet st.result holding.symbol (stockData holding historicalData)
        allDates := addDates st.allDates historicalData }
  | none =>
      { result := objSet st.result holding.symbol []
        allDates := st.allDates }

/-- The state after `Promise.all`: every holding's callback has run (in the order of the
holdings). -/
def fetchAll (fetch : String → Option (List Bar)) (holdings : List Holding) : FetchState :=
  holdings.foldl (processHolding fetch) { result := [], allDates := [] }

/-- The array `sortedDates = Array.from(allDates).sort()`. -/
def sortedDates (fetch : String → Option (List Bar)) (holdings : List Holding) :
    List String :=
  (fetchAll fetch holdings).allDates.insertionSort (· ≤ ·)

/-- The value read by `result[holding.symbol] && result[holding.symbol][date]`. -/
def positionValue (result : List (String × List (String × ℚ))) (holding : Holding)
    (date : String) : Option ℚ :=
  match objGet result holding.symbol with
  | none => none
  | some series => objGet series date

/-- The inner `portfolio.holdings.forEach` for one date: the pair
`(totalValue, stocksWithData)`. -/
def dateTotals (result : List (String × List (String × ℚ))) (holdings : List Holding)
    (date : String) : ℚ × ℕ :=
  holdings.foldl
    (fun acc holding =>
      match positionValue result holding date with
      | some v => if truthyNum v then (acc.1 + v, acc.2 + 1) else acc
      | none => acc)
    (0, 0)

/-- The threshold `Math.ceil(portfolio.holdings.length / 2)`. -/
def coverageThreshold (holdings : List Holding) : ℕ :=
  (holdings.length + 1) / 2

/-- One step of `sortedDates.forEach`: the date is stored in `portfolioValues` when enough
holdings have data. -/
def addPortfolioValue (result : List (String × List (String × ℚ)))
    (holdings : List Holding) (portfolioValues : List (String × ℚ)) (date : String) :
    List (String × ℚ) :=
  if coverageThreshold holdings ≤ (dateTotals result holdings date).2 then
    objSet portfolioValues date (toFixed2 (dateTotals result holdings date).1)
  else portfolioValues

/-- The object `portfolioValues`, stored under `PORTFOLIO_TOTAL`. -/
def portfolioValues (fetch : String → Option (List Bar)) (holdings : List Holding) :
    List (String × ℚ) :=
  (sortedDates fetch holdings).foldl
    (addPortfolioValue (fetchAll fetch holdings).result holdings) []

/-- The `data` object of the successful response of `getHistoricalRecords`. -/
def getHistoricalRecords (fetch : String → Option (List Bar)) (holdings : List Holding) :
    List (String × List (String × ℚ)) :=
  objSet (fetchAll fetch holdings).result "PORTFOLIO_TOTAL" (portfolioValues fetch holdings)

/-- The series that a holding's callback stores under its symbol: its `stockData` after a
successful fetch, the empty object after a failed one. -/
def seriesOf (fetch : String → Option (List Bar)) (holding : Holding) : List (String × ℚ) :=
  match fetch holding.symbol with
  | some historicalData => stockData holding historicalData
  | none => []

/-! ## comparePortfolio -/

/-- A field of an output entry: `null`, a finite number, or the non-finite result of
dividing a non-zero number by zero. -/
inductive JsValue where
  | null
  | num (q : ℚ)
  | nonFinite
deriving DecidableEq

/-- One element of `normalizedData`. -/
structure Entry where
  date : String
  portfolioValue : JsValue
  comparisonValue : JsValue
deriving DecidableEq

/-- The two answers of the comparison proper: status 400 with
'No overlapping dates found for comparison', or success with `filteredData`. -/
inductive CompareResponse where
  | noOverlap
  | success (data : List Entry)
deriving DecidableEq

/-- The lookup `comparisonHistory.find(item => item.date === date)`. -/
def findBar (comparisonHistory : List Bar) (date : String) : Option Bar :=
  comparisonHistory.find? (fun item => decide (item.date = date))

/-- The value `comparisonItem ? comparisonItem.close : null`. -/
def comparisonValueAt (comparisonHistory : List Bar) (date : String) : Option ℚ :=
  (findBar comparisonHistory date).map Bar.close

/-- The expression `(value / first) * 100`, evaluated only for a truthy `value`: dividing by
zero gives a non-finite number. -/
def rebase (value first : ℚ) : JsValue :=
  if first = 0 then JsValue.nonFinite else JsValue.num (value / first * 100)

/-- The array `sortedDates` of `comparePortfolio`: the set of the portfolio's keys followed
by the benchmark's dates, sorted by `new Date(a) - new Date(b)`; `dateValue s` is the
timestamp of `new Date(s)`. -/
def compareDates (dateValue : String → ℤ) (portfolioHistory : List (String × ℚ))
    (comparisonHistory : List Bar) : List String :=
  ((objKeys portfolioHistory ++ comparisonHistory.map Bar.date).foldl setAdd []).insertionSort
    (fun a b => dateValue a ≤ dateValue b)

/-- The test of the anchor loop:
`portfolioHistory[date] && comparisonHistory.find(item => item.date === date)`. -/
def hasBoth (portfolioHistory : List (String × ℚ)) (comparisonHistory : List Bar)
    (date : String) : Bool :=
  truthy (objGet portfolioHistory date) && (findBar comparisonHistory date).isSome

/-- The anchor loop: the first date of `sortedDates` that passes the test, `none` for
`null`. -/
def firstDateWithBoth (dateValue : String → ℤ) (portfolioHistory : List (String × ℚ))
    (comparisonHistory : List Bar) : Option String :=
  (compareDates dateValue portfolioHistory comparisonHistory).find?
    (hasBoth portfolioHistory comparisonHistory)

/-- The body of `sortedDates.forEach`: the entry pushed for one date, if any. -/
def normalizedEntry (portfolioHistory : List (String × ℚ)) (comparisonHistory : List Bar)
    (portfolioFirstValue comparisonFirstValue : ℚ) (date : String) : Option Entry :=
  let portfolioValue := objGet portfolioHistory date
  let comparisonValue := comparisonValueAt comparisonHistory date
  if truthy portfolioValue && truthy comparisonValue then
    some { date := date
           portfolioValue := rebase (portfolioValue.getD 0) portfolioFirstValue
           comparisonValue := rebase (comparisonValue.getD 0) comparisonFirstValue }
  else if truthy portfolioValue then
    some { date := date
           portfolioValue := rebase (portfolioValue.getD 0) portfolioFirstValue
           comparisonValue := JsValue.null }
  else if truthy comparisonValue then
    some { date := date
           portfolioValue := JsValue.null
           comparisonValue := rebase (comparisonValue.getD 0) comparisonFirstValue }
  else none

/-- The final filter `item.portfolioValue !== null || item.comparisonValue !== null`. -/
def keepEntry (item : Entry) : Bool :=
  decide (item.portfolioValue ≠ JsValue.null) || decide (item.comparisonValue ≠ JsValue.null)

/-- The comparison of `comparePortfolio` from the parsed `PORTFOLIO_TOTAL` object and the
benchmark bars: anchor search, the `!firstDateWithBoth` test (which `null` and the empty
string both pass), rebasing and the final filter. -/
def comparePortfolio (dateValue : String → ℤ) (portfolioHistory : List (String × ℚ))
    (comparisonHistory : List Bar) : CompareResponse :=
  match firstDateWithBoth dateValue portfolioHistory comparisonHistory with
  | none => CompareResponse.noOverlap
  | some anchor =>
      if anchor = "" then CompareResponse.noOverlap
      else
        let portfolioFirstValue := (objGet portfolioHistory anchor).getD 0
        let comparisonFirstValue := (comparisonValueAt comparisonHistory anchor).getD 0
        let normalizedData :=
          (compareDates dateValue portfolioHistory comparisonHistory).filterMap
            (normalizedEntry portfolioHistory comparisonHistory
              portfolioFirstValue comparisonFirstValue)
        CompareResponse.success (normalizedData.filter keepEntry)

/-- An order-preserving reading of a `YYYY-MM-DD` key, used for concrete inputs: the number
`YYYYMMDD`, which grows exactly as the timestamp of `new Date(s)` does. -/
def dateOrdinal (s : String) : ℤ :=
  ((s.toList.filter Char.isDigit).foldl (fun n c => 10 * n + (c.toNat - 48)) 0 : ℕ)


/-! ## Auxiliary notions used in the statements -/

/-- The price of a symbol on a date as `stockData` sees it: the close of the last fetched
bar carrying that date (a later bar of the same date overwrites an earlier one). -/
def lastClose (bars : List Bar) (date : String) : Option ℚ :=
  match bars with
  | [] => none
  | b :: rest =>
      match lastClose rest date with
      | some c => some c
      | none => if b.date = date then some b.close else none

/-- The price of a holding on a date: defined when the fetch succeeded and has a bar of that
date. -/
def priceAt (fetch : String → Option (List Bar)) (holding : Holding) (date : String) :
    Option ℚ :=
  match fetch holding.symbol with
  | some bars => lastClose bars date
  | none => none

/-! ## Concrete inputs -/

/-- Three holdings; `AAA` trades on two days, `BBB` on the second only, the fetch of `CCC`
fails. -/
def sampleHoldings : List Holding :=
  [⟨"AAA", 2⟩, ⟨"BBB", 1⟩, ⟨"CCC", 3⟩]

/-- The fetched bars for `sampleHoldings`. -/
def sampleFetch (symbol : String) : Option (List Bar) :=
  if symbol = "AAA" then some [⟨"2020-01-02", 10, 10⟩, ⟨"2020-01-01", 5, 5⟩]
  else if symbol = "BBB" then some [⟨"2020-01-02", 7, 7⟩]
  else none

/-- Four holdings: two trade on `2020-01-01`, only one on `2020-01-02`. -/
def fourHoldings : List Holding :=
  [⟨"AAA", 1⟩, ⟨"BBB", 1⟩, ⟨"CCC", 1⟩, ⟨"DDD", 1⟩]

/-- The fetched bars for `fourHoldings`. -/
def fourFetch (symbol : String) : Option (List Bar) :=
  if symbol = "AAA" then some [⟨"2020-01-01", 10, 10⟩, ⟨"2020-01-02", 11, 11⟩]
  else if symbol = "BBB" then some [⟨"2020-01-01", 20, 20⟩]
  else some []

/-- A single holding whose only bar has close `0` (a missing close of the provider arrives
as `0` after the currency conversion). -/
def zeroCloseHoldings : List Holding :=
  [⟨"AAA", 1⟩]

/-- The fetched bars for `zeroCloseHoldings`. -/
def zeroCloseFetch (symbol : String) : Option (List Bar) :=
  if symbol = "AAA" then some [⟨"2020-01-01", 0, 0⟩] else none

/-- Two holdings of one share each. -/
def roundingHoldings : List Holding :=
  [⟨"AAA", 1⟩, ⟨"BBB", 1⟩]

/-- Both symbols close at `1.004` on the same day. -/
def roundingFetch (_symbol : String) : Option (List Bar) :=
  some [⟨"2020-01-01", 1004 / 1000, 1004 / 1000⟩]

/-- A series compared against itself: the benchmark bars that carry the dates and values of
the series. -/
def selfBenchmark (series : List (String × ℚ)) : List Bar :=
  series.map (fun p => ⟨p.1, p.2, p.2⟩)

/-- A benchmark with a bar on each of two days. -/
def twoDayBenchmark : List Bar :=
  [⟨"2020-01-01", 50, 50⟩, ⟨"2020-01-02", 50, 50⟩]

/-- A portfolio series over `2020-01-01..2020-01-05`. -/
def portfolio2020 : List (String × ℚ) :=
  [("2020-01-01", 100), ("2020-01-02", 101), ("2020-01-03", 102), ("2020-01-04", 103),
    ("2020-01-05", 104)]

/-- A benchmark over `2021-01-01..2021-01-05`. -/
def benchmark2021 : List Bar :=
  [⟨"2021-01-01", 50, 50⟩, ⟨"2021-01-02", 51, 51⟩, ⟨"2021-01-03", 52, 52⟩,
    ⟨"2021-01-04", 53, 53⟩, ⟨"2021-01-05", 54, 54⟩]

/-- A portfolio series with two non-zero values. -/
def risingPortfolio : List (String × ℚ) :=
  [("2020-01-01", 100), ("2020-01-02", 110)]

/-- A benchmark whose second bar has close `0`. -/
def zeroSecondBenchmark : List Bar :=
  [⟨"2020-01-01", 50, 50⟩, ⟨"2020-01-02", 0, 0⟩]

/-! ## calculateRiskMetrics -/

/-- The result of an arithmetic expression: a finite number, or a non-finite one (`NaN`,
`Infinity` or `-Infinity`). -/
inductive JsNum (K : Type) where
  | num (x : K)
  | nonFinite
deriving DecidableEq

/-- The number that `res.json` writes: `JSON.stringify` turns `NaN` and the infinities into
`null` (`none`). -/
def jsonNumber {K : Type} (x : JsNum K) : Option K :=
  match x with
  | JsNum.num v => some v
  | JsNum.nonFinite => none

/-- The quotient `a / b` of two finite numbers: dividing by zero gives `NaN` or an
infinity. -/
def jsDiv {K : Type} [LinearOrderedField K] (a b : K) : JsNum K :=
  if b = 0 then JsNum.nonFinite else JsNum.num (a / b)

/-- The product `x * c` with a finite constant `c`. -/
def jsScale {K : Type} [LinearOrderedField K] (x : JsNum K) (c : K) : JsNum K :=
  match x with
  | JsNum.num v => JsNum.num (v * c)
  | JsNum.nonFinite => JsNum.nonFinite

/-- The call `Math.sqrt(x)`; `sqrt` is the square root on the non-negative numbers. -/
def jsSqrt {K : Type} [LinearOrderedField K] (sqrt : K → K) (x : JsNum K) : JsNum K :=
  match x with
  | JsNum.num v => if v < 0 then JsNum.nonFinite else JsNum.num (sqrt v)
  | JsNum.nonFinite => JsNum.nonFinite

/-- The array slice `xs.slice(a, b)` for `0 ≤ a`, `0 ≤ b`. -/
def slice {α : Type} (xs : List α) (a b : ℕ) : List α :=
  (xs.drop a).take (b - a)

/-- The array `dates = Object.keys(portfolioHistory).sort()`. -/
def riskDates {K : Type} (portfolioHistory : List (String × K)) : List String :=
  (objKeys portfolioHistory).insertionSort (· ≤ ·)

/-- The array `values = dates.map(date => portfolioHistory[date])`. -/
def riskValues {K : Type} [LinearOrderedField K] (portfolioHistory : List (String × K)) :
    List K :=
  (riskDates portfolioHistory).map (fun date => (objGet portfolioHistory date).getD 0)

/-- The daily returns: for `i = 1 .. values.length - 1` the loop pushes
`(values[i] - values[i - 1]) / values[i - 1]`. -/
def dailyReturns {K : Type} [LinearOrderedField K] : List K → List (JsNum K)
  | v0 :: v1 :: rest => jsDiv (v1 - v0) v0 :: dailyReturns (v1 :: rest)
  | _ => []

/-- The returns as finite numbers, when all of them are finite. -/
def finiteReturns {K : Type} : List (JsNum K) → Option (List K)
  | [] => some []
  | JsNum.num x :: rest => (finiteReturns rest).map (fun xs => x :: xs)
  | JsNum.nonFinite :: _ => none

/-- The mean `returns.reduce((sum, r) => sum + r, 0) / returns.length`; a non-finite return
makes the sum non-finite. -/
def meanReturn {K : Type} [LinearOrderedField K] (returns : List (JsNum K)) : JsNum K :=
  match finiteReturns returns with
  | some rs => jsDiv rs.sum (rs.length : K)
  | none => JsNum.nonFinite

/-- The variance
`returns.reduce((sum, r) => sum + Math.pow(r - meanReturn, 2), 0) / returns.length`. -/
def variance {K : Type} [LinearOrderedField K] (returns : List (JsNum K)) : JsNum K :=
  match finiteReturns returns, meanReturn returns with
  | some rs, JsNum.num m => jsDiv (rs.map (fun r => (r - m) ^ 2)).sum (rs.length : K)
  | _, _ => JsNum.nonFinite

/-- The value `standardDeviation = Math.sqrt(variance)`. -/
def standardDeviation {K : Type} [LinearOrderedField K] (sqrt : K → K)
    (returns : List (JsNum K)) : JsNum K :=
  jsSqrt sqrt (variance returns)

/-- The value `beta = returns.length > 0 ? standardDeviation * 0.8 : null`; `none` is
`null`. -/
def portfolioBeta {K : Type} [LinearOrderedField K] (sqrt : K → K)
    (returns : List (JsNum K)) : Option (JsNum K) :=
  if 0 < returns.length then some (jsScale (standardDeviation sqrt returns) (8 / 10))
  else none

/-- The constant `riskFreeRate = 0.05 / 252`. -/
def riskFreeRate {K : Type} [LinearOrderedField K] : K :=
  5 / 100 / 252

/-- The value `sharpeRatio = (meanReturn - riskFreeRate) / standardDeviation`; the standard
deviation is non-finite only when the mean is. -/
def sharpeRatio {K : Type} [LinearOrderedField K] (sqrt : K → K)
    (returns : List (JsNum K)) : JsNum K :=
  match meanReturn returns, standardDeviation sqrt returns with
  | JsNum.num m, JsNum.num s => jsDiv (m - riskFreeRate) s
  | _, _ => JsNum.nonFinite

/-- The value `valueAtRisk = standardDeviation * 1.645`. -/
def valueAtRisk {K : Type} [LinearOrderedField K] (sqrt : K → K)
    (returns : List (JsNum K)) : JsNum K :=
  jsScale (standardDeviation sqrt returns) (1645 / 1000)

/-- The variables `maxDrawdown` and `peak` of the drawdown loop. -/
structure DrawdownState (K : Type) where
  maxDrawdown : JsNum K
  peak : K
deriving DecidableEq

/-- One turn of the drawdown loop: the peak is raised to `values[i]` when that is larger,
`drawdown = (peak - values[i]) / peak`, and `maxDrawdown` is raised to the drawdown when that
is larger (a `NaN` drawdown is never larger, a positive infinity always is). -/
def drawdownStep {K : Type} [LinearOrderedField K] (st : DrawdownState K) (v : K) :
    DrawdownState K :=
  let peak := if v > st.peak then v else st.peak
  { peak := peak
    maxDrawdown :=
      match st.maxDrawdown with
      | JsNum.nonFinite => JsNum.nonFinite
      | JsNum.num m =>
          match jsDiv (peak - v) peak with
          | JsNum.num d => if d > m then JsNum.num d else JsNum.num m
          | JsNum.nonFinite => if peak - v > 0 then JsNum.nonFinite else JsNum.num m }

/-- The maximum drawdown: `maxDrawdown = 0`, `peak = values[0]`, then one turn of the loop for
`i = 1 .. values.length - 1`. -/
def maxDrawdown {K : Type} [LinearOrderedField K] (values : List K) : JsNum K :=
  match values with
  | [] => JsNum.num 0
  | v0 :: rest => (rest.foldl drawdownStep { maxDrawdown := JsNum.num 0, peak := v0 }).maxDrawdown

/-- The object `metrics` of the response, as held in memory. -/
structure RiskMetrics (K : Type) where
  beta : Option (JsNum K)
  standardDeviation : JsNum K
  sharpeRatio : JsNum K
  valueAtRisk : JsNum K
  maxDrawdown : JsNum K
deriving DecidableEq

/-- The metrics computed from the valuation series `values`. -/
def riskMetrics {K : Type} [LinearOrderedField K] (sqrt : K → K) (values : List K) :
    RiskMetrics K :=
  { beta := portfolioBeta sqrt (dailyReturns values)
    standardDeviation := standardDeviation sqrt (dailyReturns values)
    sharpeRatio := sharpeRatio sqrt (dailyReturns values)
    valueAtRisk := valueAtRisk sqrt (dailyReturns values)
    maxDrawdown := maxDrawdown values }

/-- The object `metrics` as `res.json` sends it; `none` is `null`. -/
structure ReportedMetrics (K : Type) where
  beta : Option K
  standardDeviation : Option K
  sharpeRatio : Option K
  valueAtRisk : Option K
  maxDrawdown : Option K
deriving DecidableEq

/-- The serialisation of `metrics`. -/
def reportMetrics {K : Type} (m : RiskMetrics K) : ReportedMetrics K :=
  { beta := m.beta.bind jsonNumber
    standardDeviation := jsonNumber m.standardDeviation
    sharpeRatio := jsonNumber m.sharpeRatio
    valueAtRisk := jsonNumber m.valueAtRisk
    maxDrawdown := jsonNumber m.maxDrawdown }

/-- The metrics of `calculateRiskMetrics` for the parsed `PORTFOLIO_TOTAL` object. -/
def calculateRiskMetrics {K : Type} [LinearOrderedField K] (sqrt : K → K)
    (portfolioHistory : List (String × K)) : RiskMetrics K :=
  riskMetrics sqrt (riskValues portfolioHistory)

/-- One element of `rollingVolatility`; `none` is the date `undefined`. -/
structure VolatilityPoint (K : Type) where
  date : Option String
  volatility : JsNum K
deriving DecidableEq

/-- The volatility of one window: `windowMean = sum / 30`,
`windowVariance = sum of (r - windowMean)^2 / 30`, `Math.sqrt(windowVariance)`. -/
def windowVolatility {K : Type} [LinearOrderedField K] (sqrt : K → K)
    (windowReturns : List (JsNum K)) : JsNum K :=
  match finiteReturns windowReturns with
  | some ws =>
      jsSqrt sqrt (JsNum.num ((ws.map (fun r => (r - ws.sum / 30) ^ 2)).sum / 30))
  | none => JsNum.nonFinite

/-- The rolling-volatility loop: for `i = 29 .. returns.length - 1` the window is
`returns.slice(i - 29, i)` and the point is keyed to `dates[i + 1]`. -/
def rollingVolatility {K : Type} [LinearOrderedField K] (sqrt : K → K)
    (dates : List String) (returns : List (JsNum K)) : List (VolatilityPoint K) :=
  ((List.range returns.length).drop 29).map
    (fun i =>
      { date := dates[i + 1]?
        volatility := windowVolatility sqrt (slice returns (i - 29) i) })

/-! ## Notions of the design document for the risk metrics -/

/-- The running peak `peak_i = max(v_0 .. v_i)`. -/
def peakAt {K : Type} [LinearOrderedField K] (values : List K) (i : ℕ) : K :=
  (values.take (i + 1)).foldl max (values.headD 0)

/-- The drawdown at `i`: `(peak_i - v_i) / peak_i`. -/
def drawdownAt {K : Type} [LinearOrderedField K] (values : List K) (i : ℕ) : K :=
  (peakAt values i - values.getD i 0) / peakAt values i

/-- The population variance of a list of numbers: the mean of the squared deviations from the
mean of the list, both taken over all the numbers of the list. -/
def populationVariance {K : Type} [LinearOrderedField K] (xs : List K) : K :=
  (xs.map (fun r => (r - xs.sum / (xs.length : K)) ^ 2)).sum / (xs.length : K)

/-! ## Concrete inputs for the risk metrics -/

/-- A valuation series with the returns `0.1` and `-0.1`. -/
def sampleValues : List ℚ :=
  [100, 110, 99]

/-- A valuation series with the constant return `0.1`. -/
def constantReturnValues : List ℚ :=
  [100, 110, 121]

/-- The drawdown example of the design document. -/
def drawdownValues : List ℚ :=
  [100, 120, 90, 110]

/-- The days of January 2020. -/
def januaryDates : List String :=
  ["2020-01-01", "2020-01-02", "2020-01-03", "2020-01-04", "2020-01-05", "2020-01-06",
    "2020-01-07", "2020-01-08", "2020-01-09", "2020-01-10", "2020-01-11", "2020-01-12",
    "2020-01-13", "2020-01-14", "2020-01-15", "2020-01-16", "2020-01-17", "2020-01-18",
    "2020-01-19", "2020-01-20", "2020-01-21", "2020-01-22", "2020-01-23", "2020-01-24",
    "2020-01-25", "2020-01-26", "2020-01-27", "2020-01-28", "2020-01-29", "2020-01-30",
    "2020-01-31"]

/-- Thirty-one valuations: `100` on the first thirty days, `200` on the last. -/
def jumpValues : List ℚ :=
  List.replicate 30 100 ++ [200]

/-- The `PORTFOLIO_TOTAL` object with the valuations `jumpValues` on the days of January. -/
def jumpHistory : List (String × ℚ) :=
  januaryDates.zip jumpValues

/-- A benchmark whose bar on the first common date has close `0`. -/
def zeroAnchorBenchmark : List Bar :=
  [⟨"2020-01-01", 0, 0⟩, ⟨"2020-01-02", 50, 50⟩]

/-- A benchmark whose only bar has close `0`. -/
def zeroCloseBenchmark : List Bar :=
  [⟨"2020-01-01", 0, 0⟩]

/-- A `PORTFOLIO_TOTAL` object with a single valuation. -/
def singlePointHistory : List (String × ℚ) :=
  [("2020-01-01", 100)]

/-- A `PORTFOLIO_TOTAL` object with the valuations `sampleValues`. -/
def sampleHistory : List (String × ℚ) :=
  [("2020-01-01", 100), ("2020-01-02", 110), ("2020-01-03", 99)]

/-! ## calculateRiskMetrics: the charts -/

/-- The array `returnRanges`. -/
def returnRanges {K : Type} [LinearOrderedField K] : List K :=
  [-(20 / 100), -(15 / 100), -(10 / 100), -(5 / 100), 0, 5 / 100, 10 / 100, 15 / 100, 20 / 100]

/-- The test `r >= val && r < nextVal` of the histogram; `nextVal = none` stands for
`Infinity`. A `NaN` passes no comparison and an infinity fails one of the two. -/
def inBucket {K : Type} [LinearOrderedField K] (val : K) (nextVal : Option K)
    (r : JsNum K) : Bool :=
  match r with
  | JsNum.num x =>
      decide (val ≤ x) &&
        (match nextVal with
        | some next => decide (x < next)
        | none => true)
  | JsNum.nonFinite => false

/-- One element of `returnDistribution`: the bounds of the bucket, the number `count` of
returns that pass its test, and the frequency `count / returns.length * 100` before it is
printed with one decimal. -/
structure HistogramBucket (K : Type) where
  lower : K
  upper : Option K
  count : ℕ
  frequency : JsNum K
deriving DecidableEq

/-- The array `returnDistribution = returnRanges.map((val, i) => ...)`. -/
def returnDistribution {K : Type} [LinearOrderedField K] (returns : List (JsNum K)) :
    List (HistogramBucket K) :=
  (returnRanges.enum).map
    (fun p =>
      { lower := p.2
        upper := if p.1 < (returnRanges : List K).length - 1 then
            (returnRanges : List K)[p.1 + 1]? else none
        count :=
          (returns.filter
            (inBucket p.2
              (if p.1 < (returnRanges : List K).length - 1 then
                (returnRanges : List K)[p.1 + 1]? else none))).length
        frequency :=
          jsScale
            (jsDiv
              (((returns.filter
                (inBucket p.2
                  (if p.1 < (returnRanges : List K).length - 1 then
                    (returnRanges : List K)[p.1 + 1]? else none))).length : ℕ) : K)
              (returns.length : K))
            100 })

/-- One element of `drawdownChart`; `none` is the date `undefined`. -/
structure DrawdownPoint (K : Type) where
  date : Option String
  drawdown : JsNum K
deriving DecidableEq

/-- The drawdown-chart loop from index `i` on with the running peak `peak2`: the peak is
raised to `values[i]` when that is larger and the point
`{date: dates[i], drawdown: (peak2 - values[i]) / peak2 * 100}` is pushed. -/
def drawdownChartFrom {K : Type} [LinearOrderedField K] (dates : List String) (peak2 : K)
    (i : ℕ) : List K → List (DrawdownPoint K)
  | [] => []
  | v :: rest =>
      { date := dates[i]?
        drawdown :=
          jsScale
            (jsDiv ((if v > peak2 then v else peak2) - v) (if v > peak2 then v else peak2))
            100 } ::
        drawdownChartFrom dates (if v > peak2 then v else peak2) (i + 1) rest

/-- The array `drawdownChart`: `peak2 = values[0]`, then the loop for
`i = 0 .. values.length - 1`. -/
def drawdownChart {K : Type} [LinearOrderedField K] (dates : List String) (values : List K) :
    List (DrawdownPoint K) :=
  match values with
  | [] => []
  | v0 :: rest => drawdownChartFrom dates v0 0 (v0 :: rest)

/-- One element of `riskReturnPlot`. -/
structure RiskReturnPoint where
  symbol : String
  annualizedReturn : ℚ
  risk : ℚ
  beta : ℚ
deriving DecidableEq

/-- The array `riskReturnPlot` for the `data` object of a valuation response. It stays empty
unless `data.holdings` is truthy; a property of `data` is a series object, which is truthy but
not iterable, so the branch `for (const holding of data.holdings)` ends the request with an
error (`none`). -/
def riskReturnPlot (data : List (String × List (String × ℚ))) :
    Option (List RiskReturnPoint) :=
  match objGet data "holdings" with
  | some _ => none
  | none => some []

/-- A string as the schema option `uppercase: true` stores it: without lower-case
letters. -/
def noLowerCase (s : String) : Bool :=
  s.toList.all (fun c => !c.isLower)

/-- A valuation series with the returns `-0.3` and `0.1`. -/
def crashValues : List ℚ :=
  [100, 70, 77]


/-! ## getExchangeRate and fetchStockHistoricalData -/

/-- The table `fallbackRates` of approximate rates. -/
def fallbackRates : List (String × ℚ) :=
  [("USD", 835 / 10), ("EUR", 902 / 10), ("GBP", 1053 / 10), ("JPY", 56 / 100),
    ("AUD", 558 / 10), ("CAD", 612 / 10), ("CHF", 938 / 10), ("CNY", 115 / 10),
    ("HKD", 107 / 10), ("SGD", 618 / 10)]

/-- The expression `x || 1` for a numeric property `x`: `undefined` and `0` give `1`. -/
def orOne (v : Option ℚ) : ℚ :=
  if truthy v then v.getD 0 else 1

/-- The exchange rate into INR. `provider` is the answer of the rate provider: `none` when
the request throws, `some rates` with `rates = response.data.rates || {}` otherwise. The
result is a bare number. -/
def getExchangeRate (provider : Option (List (String × ℚ))) (fromCurrency : String) : ℚ :=
  if fromCurrency = "INR" then 1
  else
    match provider with
    | some rates => 1 / orOne (objGet rates fromCurrency)
    | none => orOne (objGet fallbackRates fromCurrency)

/-- The part of `response.data.chart.result[0]` that is read: `meta.currency`,
`timestamp`, `indicators.quote[0].close` and `indicators.adjclose?.[0]?.adjclose`; a `none`
inside an array is `null`. -/
structure ChartResult where
  currency : Option String
  timestamp : List ℤ
  close : List (Option ℚ)
  adjclose : Option (List (Option ℚ))

/-- One element of the array that `fetchStockHistoricalData` returns. -/
structure FetchedBar where
  date : String
  close : JsNum ℚ
  adjClose : JsNum ℚ
deriving DecidableEq

/-- The call `convertToINR(array[i])`, `value * exchangeRate`: an index outside the array
reads `undefined` and gives `NaN`, `null` gives `0`. -/
def convertToINR (exchangeRate : ℚ) (value : Option (Option ℚ)) : JsNum ℚ :=
  match value with
  | none => JsNum.nonFinite
  | some none => JsNum.num 0
  | some (some x) => JsNum.num (x * exchangeRate)

/-- The expression `result.meta.currency || 'USD'`. -/
def currencyOrUSD (currency : Option String) : String :=
  match currency with
  | none => "USD"
  | some c => if c = "" then "USD" else c

/-- The bars of one fetch. `chart` is the answer of the market-data provider, `none` when the
request fails or the format test throws; `isoDate ts` is
`new Date(ts * 1000).toISOString().split('T')[0]`. The result `none` stands for the thrown
error. -/
def fetchStockHistoricalData (isoDate : ℤ → String)
    (rateProvider : Option (List (String × ℚ))) (chart : Option ChartResult) :
    Option (List FetchedBar) :=
  match chart with
  | none => none
  | some result =>
      some
        ((result.timestamp.enum).map
          (fun p =>
            { date := isoDate p.2
              close :=
                convertToINR (getExchangeRate rateProvider (currencyOrUSD result.currency))
                  result.close[p.1]?
              adjClose :=
                convertToINR (getExchangeRate rateProvider (currencyOrUSD result.currency))
                  (result.adjclose.getD result.close)[p.1]? }))

/-! ## The response of getHistoricalRecords -/

/-- The answers of `getHistoricalRecords`: status 404 'Portfolio not found', or status 200 with
the `data` object. -/
inductive HistoricalResponse where
  | notFound
  | success (data : List (String × List (String × ℚ)))
deriving DecidableEq

/-- The handler `getHistoricalRecords`; `portfolio` is the result of `Portfolio.findById`,
reduced to its holdings. -/
def getHistoricalRecordsResponse (fetch : String → Option (List Bar))
    (portfolio : Option (List Holding)) : HistoricalResponse :=
  match portfolio with
  | none => HistoricalResponse.notFound
  | some holdings => HistoricalResponse.success (getHistoricalRecords fetch holdings)

/-- A fetch that fails is replaced by a fetch that succeeds with no bars. -/
def emptyOnFailure (fetch : String → Option (List Bar)) (symbol : String) :
    Option (List Bar) :=
  match fetch symbol with
  | some bars => some bars
  | none => some []

/-! ## sellHolding -/

/-- Six-decimal rounding `parseFloat(x.toFixed(6))`: the nearest millionth, ties away from
zero. -/
def toFixed6 (x : ℚ) : ℚ :=
  if x < 0 then -((⌊(-x) * 1000000 + 1 / 2⌋ : ℤ) : ℚ) / 1000000
  else ((⌊x * 1000000 + 1 / 2⌋ : ℤ) : ℚ) / 1000000

/-- The fields of a stored holding that `sellHolding` reads or writes. -/
structure PortfolioHolding where
  symbol : String
  quantity : ℚ
  avgBuyPrice : ℚ
  totalCost : ℚ
deriving DecidableEq

/-- The fields of a stored portfolio that `sellHolding` reads or writes. -/
structure Portfolio where
  holdings : List PortfolioHolding
  totalPortfolioCost : ℚ
deriving DecidableEq

/-- The body of a sell request. -/
structure SellRequest where
  portfolioId : String
  symbol : String
  quantity : ℚ

/-- The answers of `sellHolding`: 400 'Invalid request data', 404 'Portfolio not found',
404 'Holding not found in portfolio', 400 'Not enough shares to sell', or 200 with the saved
portfolio. -/
inductive SellResponse where
  | invalidRequest
  | portfolioNotFound
  | holdingNotFound
  | notEnoughShares
  | success (portfolio : Portfolio)
deriving DecidableEq

/-- The index `holdings.findIndex(h => h.symbol === symbol)` together with
`holdings[holdingIndex]`; `none` is the index `-1`. -/
def findHolding (holdings : List PortfolioHolding) (symbol : String) :
    Option (ℕ × PortfolioHolding) :=
  match holdings with
  | [] => none
  | h :: rest =>
      if h.symbol = symbol then some (0, h)
      else (findHolding rest symbol).map (fun p => (p.1 + 1, p.2))

/-- The holding after the sale: `quantity = parseFloat((quantity - sold).toFixed(6))` and
`totalCost = parseFloat((quantity * avgBuyPrice).toFixed(2))` with the new quantity. -/
def soldHolding (holding : PortfolioHolding) (sold : ℚ) : PortfolioHolding :=
  { holding with
    quantity := toFixed6 (holding.quantity - sold)
    totalCost := toFixed2 (toFixed6 (holding.quantity - sold) * holding.avgBuyPrice) }

/-- The holdings after the sale: the updated holding is spliced out when its quantity is
below `0.000001` and stays in its place otherwise. -/
def holdingsAfterSale (holdings : List PortfolioHolding) (holdingIndex : ℕ)
    (holding : PortfolioHolding) (sold : ℚ) : List PortfolioHolding :=
  if (soldHolding holding sold).quantity < 1 / 1000000 then holdings.eraseIdx holdingIndex
  else holdings.set holdingIndex (soldHolding holding sold)

/-- The handler `sellHolding`; `findById` is the portfolio store. -/
def sellHolding (findById : String → Option Portfolio) (req : SellRequest) : SellResponse :=
  if req.portfolioId = "" ∨ req.symbol = "" ∨ req.quantity ≤ 0 then
    SellResponse.invalidRequest
  else
    match findById req.portfolioId with
    | none => SellResponse.portfolioNotFound
    | some portfolio =>
        match findHolding portfolio.holdings req.symbol with
        | none => SellResponse.holdingNotFound
        | some (holdingIndex, holding) =>
            if holding.quantity < req.quantity then SellResponse.notEnoughShares
            else
              SellResponse.success
                { holdings :=
                    holdingsAfterSale portfolio.holdings holdingIndex holding req.quantity
                  totalPortfolioCost :=
                    toFixed2
                      ((holdingsAfterSale portfolio.holdings holdingIndex holding
                        req.quantity).map (fun h => h.totalCost)).sum }

/-- The stored portfolio after the request: only a successful sale saves. -/
def storedAfterSale (findById : String → Option Portfolio) (req : SellRequest) :
    Option Portfolio :=
  match sellHolding findById req with
  | SellResponse.success portfolio => some portfolio
  | _ => findById req.portfolioId

/-! ## Concrete inputs for the collaborators -/

/-- A provider answer without any rate. -/
def emptyRates : List (String × ℚ) :=
  []

/-- A chart quoted in US dollars with a missing close on the second day. -/
def dollarChart : ChartResult :=
  { currency := some "USD"
    timestamp := [1577923200, 1578009600]
    close := [some 10, none]
    adjclose := none }

/-- A chart quoted in INR. -/
def rupeeChart : ChartResult :=
  { currency := some "INR"
    timestamp := [1577923200, 1578009600]
    close := [some 10, some 11]
    adjclose := some [some 9, some 11] }

/-- A reading of the two sample timestamps as dates. -/
def sampleIsoDate (ts : ℤ) : String :=
  if ts = 1577923200 then "2020-01-02" else if ts = 1578009600 then "2020-01-03" else ""

/-- A stored portfolio: one share of `AAA` bought at `10` and `1.5` shares of `BBB` bought at
`3.333`. -/
def storedPortfolio : Portfolio :=
  { holdings := [⟨"AAA", 1, 10, 10⟩, ⟨"BBB", 3 / 2, 3333 / 1000, 49995 / 10000⟩]
    totalPortfolioCost := 149995 / 10000 }

/-- The store that holds `storedPortfolio` under the identifier `p1`. -/
def sampleStore (portfolioId : String) : Option Portfolio :=
  if portfolioId = "p1" then some storedPortfolio else none

/-! ## Objects and sets: basic facts -/

theorem objGet_objSet {β : Type} (o : List (String × β)) (k : String) (v : β) (k' : String) :
    objGet (objSet o k v) k' = if k = k' then some v else objGet o k' := by
  induction o with
  | nil => simp [objSet, objGet]
  | cons p rest ih =>
    obtain ⟨k0, v0⟩ := p
    by_cases h0 : k0 = k
    · subst h0
      by_cases h1 : k0 = k' <;> simp [objSet, objGet, h1]
    · by_cases h1 : k0 = k'
      · subst h1
        have h2 : ¬ k = k0 := fun e => h0 e.symm
        simp [objSet, objGet, h0, h2]
      · simp [objSet, objGet, h0, h1, ih]

theorem mem_objKeys_objSet {β : Type} (o : List (String × β)) (k : String) (v : β)
    (k' : String) : k' ∈ objKeys (objSet o k v) ↔ k' = k ∨ k' ∈ objKeys o := by
  induction o with
  | nil => simp [objSet, objKeys]
  | cons p rest ih =>
    obtain ⟨k0, v0⟩ := p
    by_cases h0 : k0 = k
    · subst h0
      simp [objSet, objKeys]
    · have ih' : k' ∈ List.map Prod.fst (objSet rest k v) ↔ k' = k ∨ k' ∈ List.map Prod.fst rest := ih
      simp only [objSet, objKeys, h0, if_false, List.map_cons, List.mem_cons, ih']
      tauto

theorem objGet_isSome_iff {β : Type} (o : List (String × β)) (k : String) :
    (objGet o k).isSome = true ↔ k ∈ objKeys o := by
  induction o with
  | nil => simp [objGet, objKeys]
  | cons p rest ih =>
    obtain ⟨k0, v0⟩ := p
    by_cases h0 : k0 = k
    · subst h0
      simp [objGet, objKeys]
    · have h1 : ¬ k = k0 := fun e => h0 e.symm
      have ih' : (objGet rest k).isSome = true ↔ k ∈ List.map Prod.fst rest := ih
      simp only [objGet, objKeys, h0, if_false, List.map_cons, List.mem_cons, h1, false_or, ih']

theorem mem_setAdd (s : List String) (d x : String) : x ∈ setAdd s d ↔ x ∈ s ∨ x = d := by
  unfold setAdd
  by_cases h : d ∈ s
  · simp only [h, if_true]
    constructor
    · exact Or.inl
    · rintro (h1 | h1)
      · exact h1
      · exact h1 ▸ h
  · simp [h]

theorem nodup_setAdd (s : List String) (d : String) (hs : s.Nodup) : (setAdd s d).Nodup := by
  unfold setAdd
  by_cases h : d ∈ s
  · simpa [h] using hs
  · simp only [h, if_false]
    exact List.Nodup.append hs (List.nodup_singleton d) (by simpa using h)

theorem mem_addDates (bars : List Bar) (s : List String) (x : String) :
    x ∈ addDates s bars ↔ x ∈ s ∨ ∃ b ∈ bars, b.date = x := by
  induction bars generalizing s with
  | nil => simp [addDates]
  | cons b rest ih =>
    have h := ih (setAdd s b.date)
    simp only [addDates, List.foldl_cons] at h ⊢
    rw [h, mem_setAdd]
    simp only [List.mem_cons, exists_eq_or_imp]
    constructor
    · rintro ((h1 | h1) | h1)
      · exact Or.inl h1
      · exact Or.inr (Or.inl h1.symm)
      · exact Or.inr (Or.inr h1)
    · rintro (h1 | h1 | h1)
      · exact Or.inl (Or.inl h1)
      · exact Or.inl (Or.inr h1.symm)
      · exact Or.inr h1

theorem nodup_addDates (bars : List Bar) (s : List String) (hs : s.Nodup) :
    (addDates s bars).Nodup := by
  induction bars generalizing s with
  | nil => simpa [addDates] using hs
  | cons b rest ih =>
    have h := ih (setAdd s b.date) (nodup_setAdd s b.date hs)
    simpa [addDates] using h

theorem mem_foldl_setAdd (l s : List String) (x : String) :
    x ∈ l.foldl setAdd s ↔ x ∈ s ∨ x ∈ l := by
  induction l generalizing s with
  | nil => simp
  | cons d rest ih =>
    simp only [List.foldl_cons, ih, mem_setAdd, List.mem_cons]
    constructor
    · rintro ((h1 | h1) | h1)
      · exact Or.inl h1
      · exact Or.inr (Or.inl h1)
      · exact Or.inr (Or.inr h1)
    · rintro (h1 | h1 | h1)
      · exact Or.inl (Or.inl h1)
      · exact Or.inl (Or.inr h1)
      · exact Or.inr h1

theorem nodup_foldl_setAdd (l s : List String) (hs : s.Nodup) : (l.foldl setAdd s).Nodup := by
  induction l generalizing s with
  | nil => simpa using hs
  | cons d rest ih => exact ih (setAdd s d) (nodup_setAdd s d hs)

theorem mem_objKeys_stockData_aux (holding : Holding) (bars : List Bar)
    (sd : List (String × ℚ)) (x : String) :
    x ∈ objKeys (bars.foldl
        (fun sd day => objSet sd day.date (toFixed2 (day.close * holding.quantity))) sd) ↔
      x ∈ objKeys sd ∨ ∃ b ∈ bars, b.date = x := by
  induction bars generalizing sd with
  | nil => simp
  | cons b rest ih =>
    simp only [List.foldl_cons, ih, mem_objKeys_objSet, List.mem_cons, exists_eq_or_imp]
    constructor
    · rintro ((h1 | h1) | h1)
      · exact Or.inr (Or.inl h1.symm)
      · exact Or.inl h1
      · exact Or.inr (Or.inr h1)
    · rintro (h1 | h1 | h1)
      · exact Or.inl (Or.inr h1)
      · exact Or.inl (Or.inl h1.symm)
      · exact Or.inr h1

theorem mem_objKeys_stockData (holding : Holding) (bars : List Bar) (x : String) :
    x ∈ objKeys (stockData holding bars) ↔ ∃ b ∈ bars, b.date = x := by
  unfold stockData
  rw [mem_objKeys_stockData_aux]
  simp [objKeys]

/-! ## The state after all fetches -/

theorem processHolding_result (fetch : String → Option (List Bar)) (st : FetchState)
    (holding : Holding) :
    (processHolding fetch st holding).result =
      objSet st.result holding.symbol (seriesOf fetch holding) := by
  unfold processHolding seriesOf
  cases fetch holding.symbol <;> rfl

theorem mem_allDates_foldl (fetch : String → Option (List Bar)) (holdings : List Holding)
    (st : FetchState) (x : String) :
    x ∈ (holdings.foldl (processHolding fetch) st).allDates ↔
      x ∈ st.allDates ∨
        ∃ h ∈ holdings, ∃ bars, fetch h.symbol = some bars ∧ ∃ b ∈ bars, b.date = x := by
  induction holdings generalizing st with
  | nil => simp
  | cons h rest ih =>
    rw [List.foldl_cons, ih]
    simp only [List.mem_cons, exists_eq_or_imp]
    cases hf : fetch h.symbol with
    | none =>
      simp [processHolding, hf]
    | some bars =>
      simp only [processHolding, hf, mem_addDates, Option.some.injEq, exists_eq_left']
      exact or_assoc

theorem nodup_allDates_foldl (fetch : String → Option (List Bar)) (holdings : List Holding)
    (st : FetchState) (hs : st.allDates.Nodup) :
    (holdings.foldl (processHolding fetch) st).allDates.Nodup := by
  induction holdings generalizing st with
  | nil => simpa using hs
  | cons h rest ih =>
    rw [List.foldl_cons]
    apply ih
    cases hf : fetch h.symbol with
    | none => simpa [processHolding, hf] using hs
    | some bars =>
      simp only [processHolding, hf]
      exact nodup_addDates bars st.allDates hs

theorem objGet_result_foldl (fetch : String → Option (List Bar)) (holdings : List Holding)
    (st : FetchState) (sym : String) :
    (∃ h ∈ holdings, h.symbol = sym ∧
        objGet (holdings.foldl (processHolding fetch) st).result sym =
          some (seriesOf fetch h)) ∨
      ((∀ h ∈ holdings, h.symbol ≠ sym) ∧
        objGet (holdings.foldl (processHolding fetch) st).result sym =
          objGet st.result sym) := by
  induction holdings generalizing st with
  | nil => right; simp
  | cons h rest ih =>
    rw [List.foldl_cons]
    rcases ih (processHolding fetch st h) with ⟨h', hmem, hsym, hget⟩ | ⟨hall, hget⟩
    · left
      exact ⟨h', List.mem_cons_of_mem _ hmem, hsym, hget⟩
    · by_cases hs : h.symbol = sym
      · left
        refine ⟨h, List.mem_cons_self _ _, hs, ?_⟩
        rw [hget, processHolding_result, objGet_objSet, if_pos hs]
      · right
        refine ⟨?_, ?_⟩
        · intro h' hmem
          rcases List.mem_cons.1 hmem with e | e
          · exact e ▸ hs
          · exact hall h' e
        · rw [hget, processHolding_result, objGet_objSet, if_neg hs]

/-- Every holding finds under its symbol the series written by a holding of that symbol. -/
theorem objGet_result_fetchAll (fetch : String → Option (List Bar))
    (holdings : List Holding) (h : Holding) (hh : h ∈ holdings) :
    ∃ h' ∈ holdings, h'.symbol = h.symbol ∧
      objGet (fetchAll fetch holdings).result h.symbol = some (seriesOf fetch h') := by
  unfold fetchAll
  rcases objGet_result_foldl fetch holdings { result := [], allDates := [] } h.symbol with
    hl | ⟨hall, _⟩
  · exact hl
  · exact absurd rfl (hall h hh)

theorem objGet_result_fetchAll_nodup (fetch : String → Option (List Bar))
    (holdings : List Holding) (hnd : (holdings.map Holding.symbol).Nodup)
    (h : Holding) (hh : h ∈ holdings) :
    objGet (fetchAll fetch holdings).result h.symbol = some (seriesOf fetch h) := by
  obtain ⟨h', hmem, hsym, hget⟩ := objGet_result_fetchAll fetch holdings h hh
  have : h' = h := List.inj_on_of_nodup_map hnd hmem hh hsym
  rw [hget, this]

theorem mem_objKeys_seriesOf (fetch : String → Option (List Bar)) (h : Holding)
    (x : String) :
    x ∈ objKeys (seriesOf fetch h) ↔
      ∃ bars, fetch h.symbol = some bars ∧ ∃ b ∈ bars, b.date = x := by
  unfold seriesOf
  cases hf : fetch h.symbol with
  | none => simp [objKeys]
  | some bars => simp [mem_objKeys_stockData]

theorem positionValue_isSome_iff (fetch : String → Option (List Bar))
    (holdings : List Holding) (h : Holding) (hh : h ∈ holdings) (date : String) :
    (positionValue (fetchAll fetch holdings).result h date).isSome = true ↔
      ∃ bars, fetch h.symbol = some bars ∧ ∃ b ∈ bars, b.date = date := by
  obtain ⟨h', _, hsym, hget⟩ := objGet_result_fetchAll fetch holdings h hh
  unfold positionValue
  rw [hget]
  simp only []
  rw [objGet_isSome_iff, mem_objKeys_seriesOf, hsym]

theorem mem_sortedDates (fetch : String → Option (List Bar)) (holdings : List Holding)
    (x : String) :
    x ∈ sortedDates fetch holdings ↔
      ∃ h ∈ holdings, ∃ bars, fetch h.symbol = some bars ∧ ∃ b ∈ bars, b.date = x := by
  unfold sortedDates fetchAll
  rw [(List.perm_insertionSort _ _).mem_iff, mem_allDates_foldl]
  simp

theorem nodup_sortedDates (fetch : String → Option (List Bar)) (holdings : List Holding) :
    (sortedDates fetch holdings).Nodup := by
  unfold sortedDates fetchAll
  rw [(List.perm_insertionSort _ _).nodup_iff]
  exact nodup_allDates_foldl fetch holdings _ List.nodup_nil

/-! ## The per-date totals and the portfolio-total object -/

theorem dateTotals_foldl (result : List (String × List (String × ℚ)))
    (holdings : List Holding) (date : String) (acc : ℚ × ℕ) :
    holdings.foldl
        (fun acc holding =>
          match positionValue result holding date with
          | some v => if truthyNum v then (acc.1 + v, acc.2 + 1) else acc
          | none => acc)
        acc =
      (acc.1 + (holdings.filterMap (fun h => positionValue result h date)).sum,
        acc.2 + (holdings.filter (fun h => truthy (positionValue result h date))).length) := by
  induction holdings generalizing acc with
  | nil => simp
  | cons h rest ih =>
    rw [List.foldl_cons, ih]
    cases hv : positionValue result h date with
    | none => simp [hv, truthy]
    | some v =>
      by_cases hz : v = 0
      · simp [hv, truthy, truthyNum, hz]
      · simp [hv, truthy, truthyNum, hz, add_assoc]
        omega

theorem dateTotals_fst (result : List (String × List (String × ℚ)))
    (holdings : List Holding) (date : String) :
    (dateTotals result holdings date).1 =
      (holdings.filterMap (fun h => positionValue result h date)).sum := by
  unfold dateTotals
  rw [dateTotals_foldl]
  simp

theorem dateTotals_snd (result : List (String × List (String × ℚ)))
    (holdings : List Holding) (date : String) :
    (dateTotals result holdings date).2 =
      (holdings.filter (fun h => truthy (positionValue result h date))).length := by
  unfold dateTotals
  rw [dateTotals_foldl]
  simp

theorem objGet_foldl_addPortfolioValue (result : List (String × List (String × ℚ)))
    (holdings : List Holding) (dates : List String) (pv : List (String × ℚ)) (d : String) :
    objGet (dates.foldl (addPortfolioValue result holdings) pv) d =
      if d ∈ dates ∧ coverageThreshold holdings ≤ (dateTotals result holdings d).2 then
        some (toFixed2 (dateTotals result holdings d).1)
      else objGet pv d := by
  induction dates generalizing pv with
  | nil => simp
  | cons d0 rest ih =>
    rw [List.foldl_cons, ih]
    by_cases hc : coverageThreshold holdings ≤ (dateTotals result holdings d).2
    · by_cases hm : d ∈ rest
      · simp [hm, hc]
      · by_cases he : d0 = d
        · subst he
          simp [hm, hc, addPortfolioValue, objGet_objSet]
        · have he' : ¬ d = d0 := fun e => he e.symm
          by_cases hc0 : coverageThreshold holdings ≤ (dateTotals result holdings d0).2
          · simp [hm, hc, he, he', addPortfolioValue, objGet_objSet, hc0]
          · simp [hm, hc, he', addPortfolioValue, hc0]
    · by_cases hc0 : coverageThreshold holdings ≤ (dateTotals result holdings d0).2
      · by_cases he : d0 = d
        · subst he
          exact absurd hc0 hc
        · simp [hc, he, addPortfolioValue, objGet_objSet, hc0]
      · simp [hc, addPortfolioValue, hc0]

theorem objGet_portfolioValues (fetch : String → Option (List Bar))
    (holdings : List Holding) (d : String) :
    objGet (portfolioValues fetch holdings) d =
      if d ∈ sortedDates fetch holdings ∧
          coverageThreshold holdings ≤
            (dateTotals (fetchAll fetch holdings).result holdings d).2 then
        some (toFixed2 (dateTotals (fetchAll fetch holdings).result holdings d).1)
      else none := by
  unfold portfolioValues
  rw [objGet_foldl_addPortfolioValue]
  rfl

theorem mem_objKeys_portfolioValues (fetch : String → Option (List Bar))
    (holdings : List Holding) (d : String) :
    d ∈ objKeys (portfolioValues fetch holdings) ↔
      d ∈ sortedDates fetch holdings ∧
        coverageThreshold holdings ≤
          (dateTotals (fetchAll fetch holdings).result holdings d).2 := by
  rw [← objGet_isSome_iff, objGet_portfolioValues]
  split <;> simp_all

/-- The object stored under `PORTFOLIO_TOTAL` in the response is `portfolioValues`. -/
theorem objGet_getHistoricalRecords_total (fetch : String → Option (List Bar))
    (holdings : List Holding) :
    objGet (getHistoricalRecords fetch holdings) "PORTFOLIO_TOTAL" =
      some (portfolioValues fetch holdings) := by
  unfold getHistoricalRecords
  rw [objGet_objSet, if_pos rfl]

theorem coverageThreshold_eq_ceil (holdings : List Holding) :
    ((coverageThreshold holdings : ℕ) : ℤ) = ⌈(holdings.length : ℚ) / 2⌉ := by
  unfold coverageThreshold
  symm
  rw [Int.ceil_eq_iff]
  rcases Nat.even_or_odd' holdings.length with ⟨k, hk | hk⟩
  · have h1 : (holdings.length + 1) / 2 = k := by omega
    rw [h1, hk]
    push_cast
    constructor <;> linarith
  · have h1 : (holdings.length + 1) / 2 = k + 1 := by omega
    rw [h1, hk]
    push_cast
    constructor <;> linarith

theorem truthy_le_isSome (result : List (String × List (String × ℚ)))
    (holdings : List Holding) (date : String) :
    (holdings.filter (fun h => truthy (positionValue result h date))).length ≤
      (holdings.filter (fun h => (positionValue result h date).isSome)).length := by
  apply List.Sublist.length_le
  apply List.monotone_filter_right
  intro h hv
  cases hp : positionValue result h date with
  | none => simp [hp, truthy] at hv
  | some v => simp

/-! ## Coverage threshold (C1, C2) -/

/-- C1. A date appears in the portfolio-total series only if at least
`ceil(holdingCount / 2)` holdings have a value for that date in their output series. -/
theorem portfolioTotal_date_covered (fetch : String → Option (List Bar))
    (holdings : List Holding) (date : String)
    (hdate : date ∈ objKeys (portfolioValues fetch holdings)) :
    ⌈(holdings.length : ℚ) / 2⌉ ≤
      (((holdings.filter
        (fun h => (positionValue (fetchAll fetch holdings).result h date).isSome)).length : ℕ) :
        ℤ) := by
  rw [mem_objKeys_portfolioValues, dateTotals_snd] at hdate
  rw [← coverageThreshold_eq_ceil]
  exact_mod_cast le_trans hdate.2 (truthy_le_isSome _ holdings date)

theorem portfolioTotal_date_covered_witness :
    "2020-01-02" ∈ objKeys (portfolioValues sampleFetch sampleHoldings) ∧
      ⌈(sampleHoldings.length : ℚ) / 2⌉ ≤
        (((sampleHoldings.filter
          (fun h => (positionValue (fetchAll sampleFetch sampleHoldings).result h
            "2020-01-02").isSome)).length : ℕ) : ℤ) :=
  ⟨by decide!, portfolioTotal_date_covered sampleFetch sampleHoldings "2020-01-02" (by decide!)⟩

/-- C2, as stated, fails: with one holding whose bar of `2020-01-01` has value `0`, the
date is in the aligned union and `1 ≥ ceil(1 / 2)` holdings have a position value on it, yet
the portfolio total omits the date. -/
theorem portfolioTotal_omits_zero_valued_date :
    "2020-01-01" ∈ sortedDates zeroCloseFetch zeroCloseHoldings ∧
      positionValue (fetchAll zeroCloseFetch zeroCloseHoldings).result ⟨"AAA", 1⟩
        "2020-01-01" = some 0 ∧
      ⌈(zeroCloseHoldings.length : ℚ) / 2⌉ ≤
        (((zeroCloseHoldings.filter
          (fun h => (positionValue (fetchAll zeroCloseFetch zeroCloseHoldings).result h
            "2020-01-01").isSome)).length : ℕ) : ℤ) ∧
      "2020-01-01" ∉ objKeys (portfolioValues zeroCloseFetch zeroCloseHoldings) := by
  refine ⟨by decide!, by decide!, ?_, by decide!⟩
  rw [← coverageThreshold_eq_ceil]
  decide!

/-- C2, amended. Every date of the aligned union on which at least
`ceil(holdingCount / 2)` holdings have a non-zero position value is in the portfolio total;
with 4 holdings a date on which 2 of them have non-zero data is included and a date on which
only 1 has a value is omitted. -/
theorem portfolioTotal_date_of_nonzero_coverage (fetch : String → Option (List Bar))
    (holdings : List Holding) (date : String)
    (hdate : date ∈ sortedDates fetch holdings) :
    (⌈(holdings.length : ℚ) / 2⌉ ≤
        (((holdings.filter
          (fun h => truthy (positionValue (fetchAll fetch holdings).result h date))).length :
            ℕ) : ℤ) →
      date ∈ objKeys (portfolioValues fetch holdings)) ∧
    (holdings.length = 4 →
      (holdings.filter
        (fun h => truthy (positionValue (fetchAll fetch holdings).result h date))).length = 2 →
      date ∈ objKeys (portfolioValues fetch holdings)) ∧
    (holdings.length = 4 →
      (holdings.filter
        (fun h => (positionValue (fetchAll fetch holdings).result h date).isSome)).length = 1 →
      date ∉ objKeys (portfolioValues fetch holdings)) := by
  refine ⟨?_, ?_, ?_⟩
  · intro hc
    rw [← coverageThreshold_eq_ceil] at hc
    rw [mem_objKeys_portfolioValues, dateTotals_snd]
    exact ⟨hdate, by exact_mod_cast hc⟩
  · intro h4 h2
    rw [mem_objKeys_portfolioValues, dateTotals_snd, h2]
    refine ⟨hdate, ?_⟩
    simp [coverageThreshold, h4]
  · intro h4 h1 hmem
    rw [mem_objKeys_portfolioValues, dateTotals_snd] at hmem
    have hle := truthy_le_isSome (fetchAll fetch holdings).result holdings date
    have hthr : coverageThreshold holdings = 2 := by simp [coverageThreshold, h4]
    omega

theorem portfolioTotal_date_of_nonzero_coverage_witness :
    "2020-01-01" ∈ sortedDates fourFetch fourHoldings ∧
      "2020-01-02" ∈ sortedDates fourFetch fourHoldings ∧
      "2020-01-01" ∈ objKeys (portfolioValues fourFetch fourHoldings) ∧
      "2020-01-02" ∉ objKeys (portfolioValues fourFetch fourHoldings) :=
  ⟨by decide!, by decide!,
    (portfolioTotal_date_of_nonzero_coverage fourFetch fourHoldings "2020-01-01"
      (by decide!)).2.1 (by decide!) (by decide!),
    (portfolioTotal_date_of_nonzero_coverage fourFetch fourHoldings "2020-01-02"
      (by decide!)).2.2 (by decide!) (by decide!)⟩

/-! ## The value of the portfolio total (C3, C4) -/

theorem objGet_portfolioValues_eq_some (fetch : String → Option (List Bar))
    (holdings : List Holding) (date : String) (total : ℚ)
    (htotal : objGet (portfolioValues fetch holdings) date = some total) :
    total =
      toFixed2
        (holdings.filterMap
          (fun h => positionValue (fetchAll fetch holdings).result h date)).sum := by
  rw [objGet_portfolioValues] at htotal
  split at htotal
  · rw [dateTotals_fst] at htotal
    exact (Option.some.inj htotal).symm
  · exact absurd htotal (by simp)

/-- C3. For every date emitted in the portfolio total, the total is the two-decimal rounding
of the sum of the position values of the holdings that have one on that date; holdings without
a value on the date are not part of the sum. -/
theorem portfolioTotal_eq_sum (fetch : String → Option (List Bar))
    (holdings : List Holding) (date : String) (total : ℚ)
    (htotal : objGet (portfolioValues fetch holdings) date = some total) :
    total =
      toFixed2
        (holdings.filterMap
          (fun h => positionValue (fetchAll fetch holdings).result h date)).sum := by
  rw [objGet_portfolioValues] at htotal
  split at htotal
  · rw [dateTotals_fst] at htotal
    exact (Option.some.inj htotal).symm
  · exact absurd htotal (by simp)

theorem portfolioTotal_eq_sum_witness :
    objGet (portfolioValues sampleFetch sampleHoldings) "2020-01-02" = some 27 ∧
      (27 : ℚ) =
        toFixed2
          (sampleHoldings.filterMap
            (fun h => positionValue (fetchAll sampleFetch sampleHoldings).result h
              "2020-01-02")).sum :=
  ⟨by decide!,
    portfolioTotal_eq_sum sampleFetch sampleHoldings "2020-01-02" 27 (by decide!)⟩

theorem objGet_stockData_aux (holding : Holding) (bars : List Bar)
    (sd : List (String × ℚ)) (d : String) :
    objGet (bars.foldl
        (fun sd day => objSet sd day.date (toFixed2 (day.close * holding.quantity))) sd) d =
      match lastClose bars d with
      | some c => some (toFixed2 (c * holding.quantity))
      | none => objGet sd d := by
  induction bars generalizing sd with
  | nil => simp [lastClose]
  | cons b rest ih =>
    rw [List.foldl_cons, ih]
    cases hl : lastClose rest d with
    | some c => simp [lastClose, hl]
    | none =>
      by_cases hb : b.date = d
      · simp [lastClose, hl, hb, objGet_objSet]
      · simp [lastClose, hl, hb, objGet_objSet]

theorem objGet_seriesOf (fetch : String → Option (List Bar)) (h : Holding) (d : String) :
    objGet (seriesOf fetch h) d =
      (priceAt fetch h d).map (fun p => toFixed2 (p * h.quantity)) := by
  unfold seriesOf priceAt
  cases hf : fetch h.symbol with
  | none => simp [objGet]
  | some bars =>
    simp only [stockData]
    rw [objGet_stockData_aux]
    cases lastClose bars d <;> simp [objGet]

theorem positionValue_eq_rounded (fetch : String → Option (List Bar))
    (holdings : List Holding) (hnd : (holdings.map Holding.symbol).Nodup)
    (h : Holding) (hh : h ∈ holdings) (d : String) :
    positionValue (fetchAll fetch holdings).result h d =
      (priceAt fetch h d).map (fun p => toFixed2 (p * h.quantity)) := by
  unfold positionValue
  rw [objGet_result_fetchAll_nodup fetch holdings hnd h hh]
  exact objGet_seriesOf fetch h d

/-- C4, as stated, fails: two holdings of one share each close at `1.004` on the same day;
the emitted total is `2.00`, the rounding of the sum of the two rounded position values
`1.00`, whereas the rounding of the sum of the unrounded products is `2.01`. -/
theorem portfolioTotal_ne_round_of_unrounded :
    objGet (portfolioValues roundingFetch roundingHoldings) "2020-01-01" = some 2 ∧
      toFixed2
        (roundingHoldings.filterMap
          (fun h => (priceAt roundingFetch h "2020-01-01").map
            (fun p => p * h.quantity))).sum = 201 / 100 := by
  constructor <;> decide!

/-- C4, amended. Each per-symbol value is rounded to two decimals when it is stored, and
for every date the emitted portfolio total is the two-decimal rounding of the sum of those
rounded values `toFixed2 (price × quantity)` (holdings with distinct symbols). -/
theorem portfolioTotal_eq_round_of_rounded (fetch : String → Option (List Bar))
    (holdings : List Holding) (hnd : (holdings.map Holding.symbol).Nodup)
    (date : String) (total : ℚ)
    (htotal : objGet (portfolioValues fetch holdings) date = some total) :
    total =
      toFixed2
        (holdings.filterMap
          (fun h => (priceAt fetch h date).map (fun p => toFixed2 (p * h.quantity)))).sum := by
  rw [objGet_portfolioValues_eq_some fetch holdings date total htotal]
  congr 2
  apply List.filterMap_congr
  intro h hh
  exact positionValue_eq_rounded fetch holdings hnd h hh date

theorem portfolioTotal_eq_round_of_rounded_witness :
    (roundingHoldings.map Holding.symbol).Nodup ∧
      objGet (portfolioValues roundingFetch roundingHoldings) "2020-01-01" = some 2 ∧
      (2 : ℚ) =
        toFixed2
          (roundingHoldings.filterMap
            (fun h => (priceAt roundingFetch h "2020-01-01").map
              (fun p => toFixed2 (p * h.quantity)))).sum :=
  ⟨by decide!, by decide!,
    portfolioTotal_eq_round_of_rounded roundingFetch roundingHoldings (by decide!)
      "2020-01-01" 2 (by decide!)⟩

/-! ## Alignment (C5, C6) -/

/-- C5. The date sequence on which `getHistoricalRecords` aligns is strictly ascending, has
no duplicates, and contains exactly the dates of the bars of the successfully fetched series,
which are exactly the date keys of the per-symbol output series; without holdings it is
empty. -/
theorem sortedDates_strict_union (fetch : String → Option (List Bar))
    (holdings : List Holding) :
    (sortedDates fetch holdings).Sorted (· < ·) ∧
      (sortedDates fetch holdings).Nodup ∧
      (∀ d, d ∈ sortedDates fetch holdings ↔
        ∃ h ∈ holdings, ∃ bars, fetch h.symbol = some bars ∧ ∃ b ∈ bars, b.date = d) ∧
      (∀ d, d ∈ sortedDates fetch holdings ↔
        ∃ h ∈ holdings, ∃ series,
          objGet (fetchAll fetch holdings).result h.symbol = some series ∧
            d ∈ objKeys series) ∧
      sortedDates fetch [] = [] := by
  refine ⟨?_, nodup_sortedDates fetch holdings, mem_sortedDates fetch holdings, ?_, rfl⟩
  · have hs : (sortedDates fetch holdings).Sorted (· ≤ ·) := by
      unfold sortedDates
      exact List.sorted_insertionSort (· ≤ ·) _
    exact hs.lt_of_le (nodup_sortedDates fetch holdings)
  · intro d
    rw [mem_sortedDates]
    constructor
    · rintro ⟨h, hh, hbars⟩
      obtain ⟨h', _, hsym, hget⟩ := objGet_result_fetchAll fetch holdings h hh
      refine ⟨h, hh, seriesOf fetch h', hget, ?_⟩
      rw [mem_objKeys_seriesOf, hsym]
      exact hbars
    · rintro ⟨h, hh, series, hget, hd⟩
      obtain ⟨h', _, hsym, hget'⟩ := objGet_result_fetchAll fetch holdings h hh
      rw [hget'] at hget
      rw [← Option.some.inj hget, mem_objKeys_seriesOf, hsym] at hd
      exact ⟨h, hh, hd⟩

/-- C6. Alignment fills nothing in: the output series of a holding has a value at a date if
and only if the bars fetched for its symbol contain a bar with exactly that date. -/
theorem positionSeries_exact_dates (fetch : String → Option (List Bar))
    (holdings : List Holding) (h : Holding) (hh : h ∈ holdings) (date : String) :
    (∃ series, objGet (fetchAll fetch holdings).result h.symbol = some series ∧
        (∃ v, objGet series date = some v)) ↔
      ∃ bars, fetch h.symbol = some bars ∧ ∃ b ∈ bars, b.date = date := by
  rw [← positionValue_isSome_iff fetch holdings h hh date]
  unfold positionValue
  cases hg : objGet (fetchAll fetch holdings).result h.symbol with
  | none => simp
  | some series => simp [Option.isSome_iff_exists]

theorem positionSeries_exact_dates_witness :
    (⟨"AAA", 2⟩ : Holding) ∈ sampleHoldings ∧
      ((∃ series, objGet (fetchAll sampleFetch sampleHoldings).result "AAA" = some series ∧
          (∃ v, objGet series "2020-01-01" = some v)) ↔
        ∃ bars, sampleFetch "AAA" = some bars ∧ ∃ b ∈ bars, b.date = "2020-01-01") :=
  ⟨by decide!, positionSeries_exact_dates sampleFetch sampleHoldings ⟨"AAA", 2⟩ (by decide!)
    "2020-01-01"⟩

/-! ## The comparison: dates, anchor and entries -/

theorem mem_compareDates (dateValue : String → ℤ) (portfolioHistory : List (String × ℚ))
    (comparisonHistory : List Bar) (d : String) :
    d ∈ compareDates dateValue portfolioHistory comparisonHistory ↔
      d ∈ objKeys portfolioHistory ∨ d ∈ comparisonHistory.map Bar.date := by
  unfold compareDates
  rw [(List.perm_insertionSort _ _).mem_iff, mem_foldl_setAdd]
  simp

theorem nodup_compareDates (dateValue : String → ℤ) (portfolioHistory : List (String × ℚ))
    (comparisonHistory : List Bar) :
    (compareDates dateValue portfolioHistory comparisonHistory).Nodup := by
  unfold compareDates
  rw [(List.perm_insertionSort _ _).nodup_iff]
  exact nodup_foldl_setAdd _ _ List.nodup_nil

theorem sorted_compareDates (dateValue : String → ℤ) (portfolioHistory : List (String × ℚ))
    (comparisonHistory : List Bar) :
    (compareDates dateValue portfolioHistory comparisonHistory).Sorted
      (fun a b => dateValue a ≤ dateValue b) := by
  unfold compareDates
  haveI : IsTotal String (fun a b => dateValue a ≤ dateValue b) :=
    ⟨fun a b => le_total (dateValue a) (dateValue b)⟩
  haveI : IsTrans String (fun a b => dateValue a ≤ dateValue b) :=
    ⟨fun _ _ _ hab hbc => le_trans hab hbc⟩
  exact List.sorted_insertionSort _ _

/-- In a sorted list the element returned by `find?` precedes every element that passes the
test. -/
theorem find_sorted_le {α : Type} (r : α → α → Prop) (hrefl : ∀ a, r a a)
    (p : α → Bool) (l : List α) (hl : l.Sorted r) (a : α) (ha : l.find? p = some a)
    (d : α) (hd : d ∈ l) (hp : p d = true) : r a d := by
  induction l with
  | nil => simp at hd
  | cons x rest ih =>
    rw [List.sorted_cons] at hl
    by_cases hx : p x = true
    · rw [List.find?_cons_of_pos _ hx] at ha
      have hxa : x = a := Option.some.inj ha
      subst hxa
      rcases List.mem_cons.1 hd with e | e
      · rw [e]; exact hrefl _
      · exact hl.1 d e
    · rw [List.find?_cons_of_neg _ hx] at ha
      rcases List.mem_cons.1 hd with e | e
      · rw [e] at hp; exact absurd hp hx
      · exact ih hl.2 ha e

theorem truthy_iff (v : Option ℚ) : truthy v = true ↔ ∃ p, v = some p ∧ p ≠ 0 := by
  cases v with
  | none => simp [truthy]
  | some q => simp [truthy, truthyNum]

theorem truthy_eq_false_of_zero : truthy (some 0) = false := by
  simp [truthy, truthyNum]

theorem mem_of_objGet {β : Type} (o : List (String × β)) (k : String) (v : β)
    (h : objGet o k = some v) : (k, v) ∈ o := by
  induction o with
  | nil => simp [objGet] at h
  | cons p rest ih =>
    obtain ⟨k0, v0⟩ := p
    by_cases h0 : k0 = k
    · simp [objGet, h0] at h
      simp [h0, h]
    · simp [objGet, h0] at h
      exact List.mem_cons_of_mem _ (ih h)

theorem mem_objKeys_of_objGet {β : Type} (o : List (String × β)) (k : String) (v : β)
    (h : objGet o k = some v) : k ∈ objKeys o := by
  rw [← objGet_isSome_iff, h]
  rfl

theorem findBar_date (comparisonHistory : List Bar) (date : String) (b : Bar)
    (h : findBar comparisonHistory date = some b) : b.date = date := by
  unfold findBar at h
  have := List.find?_some h
  simpa using this

theorem findBar_mem (comparisonHistory : List Bar) (date : String) (b : Bar)
    (h : findBar comparisonHistory date = some b) : b ∈ comparisonHistory := by
  unfold findBar at h
  exact List.mem_of_find?_eq_some h

theorem findBar_isSome_iff (comparisonHistory : List Bar) (date : String) :
    (findBar comparisonHistory date).isSome = true ↔
      date ∈ comparisonHistory.map Bar.date := by
  unfold findBar
  rw [List.find?_isSome]
  simp

theorem hasBoth_iff (portfolioHistory : List (String × ℚ)) (comparisonHistory : List Bar)
    (d : String) :
    hasBoth portfolioHistory comparisonHistory d = true ↔
      (∃ p, objGet portfolioHistory d = some p ∧ p ≠ 0) ∧
        ∃ b, findBar comparisonHistory d = some b := by
  unfold hasBoth
  rw [Bool.and_eq_true, truthy_iff, Option.isSome_iff_exists]

theorem mem_compareDates_of_hasBoth (dateValue : String → ℤ)
    (portfolioHistory : List (String × ℚ)) (comparisonHistory : List Bar) (d : String)
    (h : hasBoth portfolioHistory comparisonHistory d = true) :
    d ∈ compareDates dateValue portfolioHistory comparisonHistory := by
  rw [hasBoth_iff] at h
  obtain ⟨⟨p, hp, _⟩, _⟩ := h
  rw [mem_compareDates]
  exact Or.inl (mem_objKeys_of_objGet _ _ _ hp)

/-- The shape of a successful answer. -/
theorem comparePortfolio_success (dateValue : String → ℤ)
    (portfolioHistory : List (String × ℚ)) (comparisonHistory : List Bar)
    (data : List Entry)
    (hs : comparePortfolio dateValue portfolioHistory comparisonHistory =
      CompareResponse.success data) :
    ∃ a, firstDateWithBoth dateValue portfolioHistory comparisonHistory = some a ∧ a ≠ "" ∧
      data =
        ((compareDates dateValue portfolioHistory comparisonHistory).filterMap
          (normalizedEntry portfolioHistory comparisonHistory
            ((objGet portfolioHistory a).getD 0)
            ((comparisonValueAt comparisonHistory a).getD 0))).filter keepEntry := by
  unfold comparePortfolio at hs
  cases hf : firstDateWithBoth dateValue portfolioHistory comparisonHistory with
  | none => simp [hf] at hs
  | some a =>
    by_cases he : a = ""
    · simp [hf, he] at hs
    · simp only [hf, he, if_false] at hs
      exact ⟨a, rfl, he, (CompareResponse.success.inj hs).symm⟩

theorem comparePortfolio_noOverlap_iff (dateValue : String → ℤ)
    (portfolioHistory : List (String × ℚ)) (comparisonHistory : List Bar) :
    comparePortfolio dateValue portfolioHistory comparisonHistory = CompareResponse.noOverlap ↔
      firstDateWithBoth dateValue portfolioHistory comparisonHistory = none ∨
        firstDateWithBoth dateValue portfolioHistory comparisonHistory = some "" := by
  unfold comparePortfolio
  cases hf : firstDateWithBoth dateValue portfolioHistory comparisonHistory with
  | none => simp
  | some a =>
    by_cases he : a = ""
    · simp [he]
    · simp [he]

/-! ## The anchor date and the no-overlap failure (C7, C8) -/

/-- The anchor loop of the code: whenever a comparison succeeds, the anchor is the earliest
date, in ascending order of the dates, on which the portfolio value is truthy and the
benchmark series has a bar, whatever the close of that bar. -/
theorem firstDateWithBoth_earliest (dateValue : String → ℤ)
    (portfolioHistory : List (String × ℚ)) (comparisonHistory : List Bar)
    (data : List Entry)
    (hs : comparePortfolio dateValue portfolioHistory comparisonHistory =
      CompareResponse.success data) :
    ∃ a, firstDateWithBoth dateValue portfolioHistory comparisonHistory = some a ∧
      a ∈ compareDates dateValue portfolioHistory comparisonHistory ∧
      (∃ p, objGet portfolioHistory a = some p ∧ p ≠ 0) ∧
      (∃ b, findBar comparisonHistory a = some b) ∧
      ∀ d, (∃ p, objGet portfolioHistory d = some p ∧ p ≠ 0) →
        (∃ b, findBar comparisonHistory d = some b) → dateValue a ≤ dateValue d := by
  obtain ⟨a, ha, _, _⟩ :=
    comparePortfolio_success dateValue portfolioHistory comparisonHistory data hs
  have hboth : hasBoth portfolioHistory comparisonHistory a = true := by
    unfold firstDateWithBoth at ha
    exact List.find?_some ha
  refine ⟨a, ha, mem_compareDates_of_hasBoth dateValue _ _ a hboth,
    ((hasBoth_iff _ _ a).1 hboth).1, ((hasBoth_iff _ _ a).1 hboth).2, ?_⟩
  intro d hp hb
  have hd : hasBoth portfolioHistory comparisonHistory d = true :=
    (hasBoth_iff _ _ d).2 ⟨hp, hb⟩
  unfold firstDateWithBoth at ha
  exact find_sorted_le (fun a b => dateValue a ≤ dateValue b) (fun _ => le_refl _)
    (hasBoth portfolioHistory comparisonHistory) _
    (sorted_compareDates dateValue portfolioHistory comparisonHistory) a ha d
    (mem_compareDates_of_hasBoth dateValue _ _ d hd) hd

/-- When no benchmark bar has close `0`, the anchor of a successful comparison is the
earliest date, in ascending order of the dates, on which both series have a truthy value. -/
theorem firstDateWithBoth_earliest_of_nonzero_closes (dateValue : String → ℤ)
    (portfolioHistory : List (String × ℚ)) (comparisonHistory : List Bar)
    (data : List Entry)
    (hclose : ∀ b ∈ comparisonHistory, b.close ≠ 0)
    (hs : comparePortfolio dateValue portfolioHistory comparisonHistory =
      CompareResponse.success data) :
    ∃ a, firstDateWithBoth dateValue portfolioHistory comparisonHistory = some a ∧
      truthy (objGet portfolioHistory a) = true ∧
      truthy (comparisonValueAt comparisonHistory a) = true ∧
      ∀ d, truthy (objGet portfolioHistory d) = true →
        truthy (comparisonValueAt comparisonHistory d) = true →
        dateValue a ≤ dateValue d := by
  obtain ⟨a, ha, _, hpa, ⟨b, hb⟩, hmin⟩ :=
    firstDateWithBoth_earliest dateValue portfolioHistory comparisonHistory data hs
  refine ⟨a, ha, (truthy_iff _).2 hpa, ?_, ?_⟩
  · rw [truthy_iff]
    exact ⟨b.close, by simp [comparisonValueAt, hb], hclose b (findBar_mem _ _ _ hb)⟩
  · intro d hp hc
    apply hmin d ((truthy_iff _).1 hp)
    obtain ⟨c, hcv, _⟩ := (truthy_iff _).1 hc
    unfold comparisonValueAt at hcv
    cases hfb : findBar comparisonHistory d with
    | none => rw [hfb] at hcv; exact absurd hcv (by simp)
    | some b' => exact ⟨b', rfl⟩

/-- C7, evaluated where the code departs from it: the benchmark bar of `2020-01-01` has close
`0` (a missing close of the provider), which the emitting loop treats as no value, and the
earliest date on which both series have a value is `2020-01-02`; the anchor loop tests only
that a bar exists, so the comparison succeeds with the anchor `2020-01-01`, a date on which
the benchmark series has no value. -/
theorem anchor_on_date_without_benchmark_value :
    (∃ data, comparePortfolio dateOrdinal risingPortfolio zeroAnchorBenchmark =
        CompareResponse.success data) ∧
      firstDateWithBoth dateOrdinal risingPortfolio zeroAnchorBenchmark =
        some "2020-01-01" ∧
      truthy (objGet risingPortfolio "2020-01-01") = true ∧
      truthy (comparisonValueAt zeroAnchorBenchmark "2020-01-01") = false ∧
      (compareDates dateOrdinal risingPortfolio zeroAnchorBenchmark).find?
          (fun d => truthy (objGet risingPortfolio d) &&
            truthy (comparisonValueAt zeroAnchorBenchmark d)) =
        some "2020-01-02" ∧
      dateOrdinal "2020-01-01" < dateOrdinal "2020-01-02" := by
  refine ⟨⟨[⟨"2020-01-01", JsValue.num 100, JsValue.null⟩,
      ⟨"2020-01-02", JsValue.num 110, JsValue.nonFinite⟩], by decide!⟩,
    by decide!, by decide!, by decide!, by decide!, by decide!⟩

/-- The failure test of the code, for benchmark bars with non-empty date keys: the comparison
fails with the no-overlap error if and only if there is no date on which the portfolio value
is truthy and the benchmark series has a bar, whatever the close of that bar; two series with
disjoint date sets always fail, and a failure is never a successful result. -/
theorem comparePortfolio_noOverlap_iff_no_candidate (dateValue : String → ℤ)
    (portfolioHistory : List (String × ℚ)) (comparisonHistory : List Bar)
    (hdates : ∀ b ∈ comparisonHistory, b.date ≠ "") :
    (comparePortfolio dateValue portfolioHistory comparisonHistory =
        CompareResponse.noOverlap ↔
      ¬ ∃ d, (∃ p, objGet portfolioHistory d = some p ∧ p ≠ 0) ∧
        ∃ b, findBar comparisonHistory d = some b) ∧
    ((∀ d ∈ objKeys portfolioHistory, d ∉ comparisonHistory.map Bar.date) →
      comparePortfolio dateValue portfolioHistory comparisonHistory =
        CompareResponse.noOverlap) ∧
    (comparePortfolio dateValue portfolioHistory comparisonHistory =
        CompareResponse.noOverlap →
      ∀ data, comparePortfolio dateValue portfolioHistory comparisonHistory ≠
        CompareResponse.success data) := by
  have hiff : comparePortfolio dateValue portfolioHistory comparisonHistory =
        CompareResponse.noOverlap ↔
      ¬ ∃ d, (∃ p, objGet portfolioHistory d = some p ∧ p ≠ 0) ∧
        ∃ b, findBar comparisonHistory d = some b := by
    rw [comparePortfolio_noOverlap_iff]
    constructor
    · rintro (hnone | hempty) ⟨d, hd⟩
      · unfold firstDateWithBoth at hnone
        rw [List.find?_eq_none] at hnone
        have hb := (hasBoth_iff portfolioHistory comparisonHistory d).2 hd
        exact hnone d (mem_compareDates_of_hasBoth dateValue _ _ d hb) hb
      · unfold firstDateWithBoth at hempty
        have hb := List.find?_some hempty
        obtain ⟨_, b, hfb⟩ := (hasBoth_iff _ _ _).1 hb
        exact hdates b (findBar_mem _ _ _ hfb) (findBar_date _ _ _ hfb)
    · intro hno
      left
      unfold firstDateWithBoth
      rw [List.find?_eq_none]
      intro d _ hb
      exact hno ⟨d, (hasBoth_iff _ _ d).1 hb⟩
  refine ⟨hiff, ?_, ?_⟩
  · intro hdisj
    rw [hiff]
    rintro ⟨d, ⟨p, hp, _⟩, b, hb⟩
    apply hdisj d (mem_objKeys_of_objGet _ _ _ hp)
    rw [← findBar_isSome_iff, hb]
    rfl
  · intro hfail data hsucc
    rw [hfail] at hsucc
    exact CompareResponse.noConfusion hsucc

/-- The series over `2020-01-01..2020-01-05` against the bars of `2021-01-01..2021-01-05`:
the date sets are disjoint and the comparison fails with the no-overlap error. -/
theorem noOverlap_for_disjoint_years :
    (∀ b ∈ benchmark2021, b.date ≠ "") ∧
      comparePortfolio dateOrdinal portfolio2020 benchmark2021 = CompareResponse.noOverlap :=
  ⟨by decide!,
    (comparePortfolio_noOverlap_iff_no_candidate dateOrdinal portfolio2020 benchmark2021
      (by decide!)).2.1 (by decide!)⟩

/-- When no benchmark bar has close `0` (and the bars have non-empty date keys), the
comparison fails with the no-overlap error if and only if there is no date on which both
series have a truthy value. -/
theorem comparePortfolio_noOverlap_iff_of_nonzero_closes (dateValue : String → ℤ)
    (portfolioHistory : List (String × ℚ)) (comparisonHistory : List Bar)
    (hdates : ∀ b ∈ comparisonHistory, b.date ≠ "")
    (hclose : ∀ b ∈ comparisonHistory, b.close ≠ 0) :
    comparePortfolio dateValue portfolioHistory comparisonHistory =
        CompareResponse.noOverlap ↔
      ¬ ∃ d, truthy (objGet portfolioHistory d) = true ∧
        truthy (comparisonValueAt comparisonHistory d) = true := by
  rw [(comparePortfolio_noOverlap_iff_no_candidate dateValue portfolioHistory
    comparisonHistory hdates).1]
  apply not_congr
  constructor
  · rintro ⟨d, hp, b, hb⟩
    refine ⟨d, (truthy_iff _).2 hp, (truthy_iff _).2 ?_⟩
    exact ⟨b.close, by simp [comparisonValueAt, hb], hclose b (findBar_mem _ _ _ hb)⟩
  · rintro ⟨d, hp, hc⟩
    refine ⟨d, (truthy_iff _).1 hp, ?_⟩
    obtain ⟨c, hcv, _⟩ := (truthy_iff _).1 hc
    unfold comparisonValueAt at hcv
    cases hfb : findBar comparisonHistory d with
    | none => rw [hfb] at hcv; exact absurd hcv (by simp)
    | some b' => exact ⟨b', rfl⟩

/-- C8, evaluated where the code departs from it: the only benchmark bar, on `2020-01-01`,
has close `0` (a missing close of the provider), which the emitting loop treats as no value,
so there is no date on which both series have a value; the anchor loop tests only that a bar
exists, and the comparison succeeds with one entry whose comparison value is `null` instead
of failing with the no-overlap error. -/
theorem comparison_succeeds_without_common_value :
    comparePortfolio dateOrdinal singlePointHistory zeroCloseBenchmark =
        CompareResponse.success [⟨"2020-01-01", JsValue.num 100, JsValue.null⟩] ∧
      compareDates dateOrdinal singlePointHistory zeroCloseBenchmark = ["2020-01-01"] ∧
      truthy (comparisonValueAt zeroCloseBenchmark "2020-01-01") = false ∧
      (∀ d ∈ compareDates dateOrdinal singlePointHistory zeroCloseBenchmark,
        (truthy (objGet singlePointHistory d) &&
          truthy (comparisonValueAt zeroCloseBenchmark d)) = false) := by
  refine ⟨by decide!, by decide!, by decide!, by decide!⟩

/-! ## The rebased entries (C9, C10) -/

theorem filter_date_filterMap (f : String → Option Entry)
    (hf : ∀ x e, f x = some e → e.date = x) (l : List String) (hl : l.Nodup) (d : String) :
    (l.filterMap f).filter (fun e => decide (e.date = d)) =
      if d ∈ l then (f d).toList else [] := by
  induction l with
  | nil => simp
  | cons x rest ih =>
    rw [List.nodup_cons] at hl
    have ih' := ih hl.2
    by_cases hx : d = x
    · subst hx
      rw [if_neg hl.1] at ih'
      cases hfx : f d with
      | none => simp [List.filterMap_cons, hfx, ih']
      | some e =>
        have he := hf d e hfx
        simp [List.filterMap_cons, hfx, ih', he]
    · have hx' : ¬ x = d := fun e => hx e.symm
      cases hfx : f x with
      | none => simp [List.filterMap_cons, hfx, ih', hx]
      | some e =>
        have he := hf x e hfx
        simp [List.filterMap_cons, hfx, ih', hx, he, hx']

theorem rebase_ne_null (value first : ℚ) : rebase value first ≠ JsValue.null := by
  unfold rebase
  split <;> simp

theorem rebase_of_ne_zero (value first : ℚ) (h : first ≠ 0) :
    rebase value first = JsValue.num (value / first * 100) := by
  simp [rebase, h]

theorem normalizedEntry_date (portfolioHistory : List (String × ℚ))
    (comparisonHistory : List Bar) (pf cf : ℚ) (d : String) (e : Entry)
    (h : normalizedEntry portfolioHistory comparisonHistory pf cf d = some e) :
    e.date = d := by
  simp only [normalizedEntry] at h
  split at h
  · rw [← Option.some.inj h]
  · split at h
    · rw [← Option.some.inj h]
    · split at h
      · rw [← Option.some.inj h]
      · exact absurd h (by simp)

theorem normalizedEntry_keep (portfolioHistory : List (String × ℚ))
    (comparisonHistory : List Bar) (pf cf : ℚ) (d : String) (e : Entry)
    (h : normalizedEntry portfolioHistory comparisonHistory pf cf d = some e) :
    keepEntry e = true := by
  simp only [normalizedEntry] at h
  split at h
  · rw [← Option.some.inj h]
    simp [keepEntry, rebase_ne_null]
  · split at h
    · rw [← Option.some.inj h]
      simp [keepEntry, rebase_ne_null]
    · split at h
      · rw [← Option.some.inj h]
        simp [keepEntry, rebase_ne_null]
      · exact absurd h (by simp)

/-- The final filter removes nothing: every pushed entry has a non-null field. -/
theorem filter_keepEntry_normalized (portfolioHistory : List (String × ℚ))
    (comparisonHistory : List Bar) (pf cf : ℚ) (dates : List String) :
    (dates.filterMap (normalizedEntry portfolioHistory comparisonHistory pf cf)).filter
        keepEntry =
      dates.filterMap (normalizedEntry portfolioHistory comparisonHistory pf cf) := by
  rw [List.filter_eq_self]
  intro e he
  rw [List.mem_filterMap] at he
  obtain ⟨d, _, hd⟩ := he
  exact normalizedEntry_keep _ _ _ _ d e hd

/-- The entries of a successful answer that carry a given date of the union. -/
theorem entries_at_date (dateValue : String → ℤ) (portfolioHistory : List (String × ℚ))
    (comparisonHistory : List Bar) (data : List Entry)
    (hs : comparePortfolio dateValue portfolioHistory comparisonHistory =
      CompareResponse.success data) :
    ∃ a pa ca, firstDateWithBoth dateValue portfolioHistory comparisonHistory = some a ∧
      objGet portfolioHistory a = some pa ∧ pa ≠ 0 ∧
      comparisonValueAt comparisonHistory a = some ca ∧
      ∀ d ∈ compareDates dateValue portfolioHistory comparisonHistory,
        data.filter (fun e => decide (e.date = d)) =
          (normalizedEntry portfolioHistory comparisonHistory pa ca d).toList := by
  obtain ⟨a, ha, _, hdata⟩ :=
    comparePortfolio_success dateValue portfolioHistory comparisonHistory data hs
  have hboth : hasBoth portfolioHistory comparisonHistory a = true := by
    unfold firstDateWithBoth at ha
    exact List.find?_some ha
  obtain ⟨⟨pa, hpa, hpa0⟩, b, hb⟩ := (hasBoth_iff _ _ a).1 hboth
  have hca : comparisonValueAt comparisonHistory a = some b.close := by
    simp [comparisonValueAt, hb]
  refine ⟨a, pa, b.close, ha, hpa, hpa0, hca, ?_⟩
  intro d hd
  rw [hdata, filter_keepEntry_normalized, hpa, hca]
  simp only [Option.getD_some]
  rw [filter_date_filterMap _ (normalizedEntry_date _ _ _ _) _
    (nodup_compareDates dateValue portfolioHistory comparisonHistory) d, if_pos hd]

theorem comparisonValueAt_selfBenchmark (series : List (String × ℚ)) (d : String) :
    comparisonValueAt (selfBenchmark series) d = objGet series d := by
  induction series with
  | nil => simp [selfBenchmark, comparisonValueAt, findBar, objGet]
  | cons p rest ih =>
    obtain ⟨k, v⟩ := p
    by_cases hk : k = d
    · simp [selfBenchmark, comparisonValueAt, findBar, objGet, hk]
    · simp only [selfBenchmark, comparisonValueAt, findBar, List.map_cons, List.find?_cons,
        objGet, hk, decide_False, if_false] at ih ⊢
      exact ih

theorem comparePortfolio_of_anchor (dateValue : String → ℤ)
    (portfolioHistory : List (String × ℚ)) (comparisonHistory : List Bar) (a : String)
    (ha : firstDateWithBoth dateValue portfolioHistory comparisonHistory = some a)
    (hne : a ≠ "") :
    comparePortfolio dateValue portfolioHistory comparisonHistory =
      CompareResponse.success
        (((compareDates dateValue portfolioHistory comparisonHistory).filterMap
          (normalizedEntry portfolioHistory comparisonHistory
            ((objGet portfolioHistory a).getD 0)
            ((comparisonValueAt comparisonHistory a).getD 0))).filter keepEntry) := by
  simp only [comparePortfolio, ha, hne, if_false]

/-- C9, as stated, fails: on `2020-01-02` the portfolio series has the value `110` and the
benchmark series has the value `0`, so both have a value; the entry of that date carries
`null` as its comparison value, not the rebased value `0 / 50 * 100`. -/
theorem entry_null_for_zero_benchmark_value :
    comparePortfolio dateOrdinal risingPortfolio zeroSecondBenchmark =
        CompareResponse.success
          [⟨"2020-01-01", JsValue.num 100, JsValue.num 100⟩,
            ⟨"2020-01-02", JsValue.num 110, JsValue.null⟩] ∧
      firstDateWithBoth dateOrdinal risingPortfolio zeroSecondBenchmark = some "2020-01-01" ∧
      objGet risingPortfolio "2020-01-02" = some 110 ∧
      comparisonValueAt zeroSecondBenchmark "2020-01-02" = some 0 ∧
      comparisonValueAt zeroSecondBenchmark "2020-01-01" = some 50 := by
  refine ⟨by decide!, by decide!, by decide!, by decide!, by decide!⟩

/-- C9, amended. In a successful comparison with anchor values `pa` (portfolio) and `ca`
(benchmark), for every date `d` of the union of both date sets: if both series have a non-zero
value at `d` the output has exactly one entry for `d`, with the portfolio value
`p / pa * 100` and the comparison value `c / ca * 100` (a non-finite number when `ca` is `0`);
if only one series has a non-zero value at `d` the entry carries that series' rebased value
and `null` for the other; if neither has a non-zero value no entry for `d` is emitted. -/
theorem entries_rebased_by_nonzero_values (dateValue : String → ℤ)
    (portfolioHistory : List (String × ℚ)) (comparisonHistory : List Bar)
    (data : List Entry)
    (hs : comparePortfolio dateValue portfolioHistory comparisonHistory =
      CompareResponse.success data) :
    ∃ a pa ca, firstDateWithBoth dateValue portfolioHistory comparisonHistory = some a ∧
      objGet portfolioHistory a = some pa ∧ pa ≠ 0 ∧
      comparisonValueAt comparisonHistory a = some ca ∧
      (ca ≠ 0 → ∀ c, rebase c ca = JsValue.num (c / ca * 100)) ∧
      (ca = 0 → ∀ c, rebase c ca = JsValue.nonFinite) ∧
      ∀ d ∈ compareDates dateValue portfolioHistory comparisonHistory,
        (∀ p c, objGet portfolioHistory d = some p → p ≠ 0 →
          comparisonValueAt comparisonHistory d = some c → c ≠ 0 →
          data.filter (fun e => decide (e.date = d)) =
            [⟨d, JsValue.num (p / pa * 100), rebase c ca⟩]) ∧
        (∀ p, objGet portfolioHistory d = some p → p ≠ 0 →
          truthy (comparisonValueAt comparisonHistory d) = false →
          data.filter (fun e => decide (e.date = d)) =
            [⟨d, JsValue.num (p / pa * 100), JsValue.null⟩]) ∧
        (∀ c, truthy (objGet portfolioHistory d) = false →
          comparisonValueAt comparisonHistory d = some c → c ≠ 0 →
          data.filter (fun e => decide (e.date = d)) =
            [⟨d, JsValue.null, rebase c ca⟩]) ∧
        (truthy (objGet portfolioHistory d) = false →
          truthy (comparisonValueAt comparisonHistory d) = false →
          data.filter (fun e => decide (e.date = d)) = []) := by
  obtain ⟨a, pa, ca, ha, hpa, hpa0, hca, hent⟩ :=
    entries_at_date dateValue portfolioHistory comparisonHistory data hs
  refine ⟨a, pa, ca, ha, hpa, hpa0, hca, fun h c => rebase_of_ne_zero c ca h,
    fun h c => by simp [rebase, h], ?_⟩
  intro d hd
  rw [hent d hd]
  refine ⟨?_, ?_, ?_, ?_⟩
  · intro p c hp hp0 hc hc0
    have hpt : truthy (objGet portfolioHistory d) = true := (truthy_iff _).2 ⟨p, hp, hp0⟩
    have hct : truthy (comparisonValueAt comparisonHistory d) = true :=
      (truthy_iff _).2 ⟨c, hc, hc0⟩
    simp only [normalizedEntry, hpt, hct]
    simp [hp, hc, rebase_of_ne_zero _ _ hpa0]
  · intro p hp hp0 hct
    have hpt : truthy (objGet portfolioHistory d) = true := (truthy_iff _).2 ⟨p, hp, hp0⟩
    simp only [normalizedEntry, hpt, hct]
    simp [hp, rebase_of_ne_zero _ _ hpa0]
  · intro c hpt hc hc0
    have hct : truthy (comparisonValueAt comparisonHistory d) = true :=
      (truthy_iff _).2 ⟨c, hc, hc0⟩
    simp only [normalizedEntry, hpt, hct]
    simp [hc]
  · intro hpt hct
    simp only [normalizedEntry, hpt, hct]
    simp

theorem entries_rebased_by_nonzero_values_witness :
    comparePortfolio dateOrdinal risingPortfolio twoDayBenchmark =
        CompareResponse.success
          [⟨"2020-01-01", JsValue.num 100, JsValue.num 100⟩,
            ⟨"2020-01-02", JsValue.num 110, JsValue.num 100⟩] ∧
      ∃ a pa ca, firstDateWithBoth dateOrdinal risingPortfolio twoDayBenchmark = some a ∧
        objGet risingPortfolio a = some pa ∧ pa ≠ 0 ∧
        comparisonValueAt twoDayBenchmark a = some ca ∧
        (ca ≠ 0 → ∀ c, rebase c ca = JsValue.num (c / ca * 100)) ∧
        (ca = 0 → ∀ c, rebase c ca = JsValue.nonFinite) ∧
        ∀ d ∈ compareDates dateOrdinal risingPortfolio twoDayBenchmark,
          (∀ p c, objGet risingPortfolio d = some p → p ≠ 0 →
            comparisonValueAt twoDayBenchmark d = some c → c ≠ 0 →
            List.filter (fun e => decide (e.date = d))
                ([⟨"2020-01-01", JsValue.num 100, JsValue.num 100⟩,
                  ⟨"2020-01-02", JsValue.num 110, JsValue.num 100⟩] : List Entry) =
              [⟨d, JsValue.num (p / pa * 100), rebase c ca⟩]) ∧
          (∀ p, objGet risingPortfolio d = some p → p ≠ 0 →
            truthy (comparisonValueAt twoDayBenchmark d) = false →
            List.filter (fun e => decide (e.date = d))
                ([⟨"2020-01-01", JsValue.num 100, JsValue.num 100⟩,
                  ⟨"2020-01-02", JsValue.num 110, JsValue.num 100⟩] : List Entry) =
              [⟨d, JsValue.num (p / pa * 100), JsValue.null⟩]) ∧
          (∀ c, truthy (objGet risingPortfolio d) = false →
            comparisonValueAt twoDayBenchmark d = some c → c ≠ 0 →
            List.filter (fun e => decide (e.date = d))
                ([⟨"2020-01-01", JsValue.num 100, JsValue.num 100⟩,
                  ⟨"2020-01-02", JsValue.num 110, JsValue.num 100⟩] : List Entry) =
              [⟨d, JsValue.null, rebase c ca⟩]) ∧
          (truthy (objGet risingPortfolio d) = false →
            truthy (comparisonValueAt twoDayBenchmark d) = false →
            List.filter (fun e => decide (e.date = d))
                ([⟨"2020-01-01", JsValue.num 100, JsValue.num 100⟩,
                  ⟨"2020-01-02", JsValue.num 110, JsValue.num 100⟩] : List Entry) = []) :=
  ⟨by decide!,
    entries_rebased_by_nonzero_values dateOrdinal risingPortfolio twoDayBenchmark
      [⟨"2020-01-01", JsValue.num 100, JsValue.num 100⟩,
        ⟨"2020-01-02", JsValue.num 110, JsValue.num 100⟩]
      (by decide!)⟩

/-- A series with at least one non-zero value and non-empty date keys, compared against
itself: the comparison succeeds, emits at least one entry, and every emitted entry has its
portfolio value equal to its comparison value. -/
theorem self_comparison_of_nonzero_value (dateValue : String → ℤ) (series : List (String × ℚ))
    (hvalue : ∃ d v, objGet series d = some v ∧ v ≠ 0)
    (hdates : ∀ d ∈ objKeys series, d ≠ "") :
    ∃ data, comparePortfolio dateValue series (selfBenchmark series) =
        CompareResponse.success data ∧
      data ≠ [] ∧ ∀ e ∈ data, e.portfolioValue = e.comparisonValue := by
  obtain ⟨d, v, hd, hv⟩ := hvalue
  have hfb : ∃ b, findBar (selfBenchmark series) d = some b := by
    have h := comparisonValueAt_selfBenchmark series d
    rw [hd] at h
    unfold comparisonValueAt at h
    cases hb : findBar (selfBenchmark series) d with
    | none => rw [hb] at h; simp at h
    | some b => exact ⟨b, rfl⟩
  have hboth : hasBoth series (selfBenchmark series) d = true :=
    (hasBoth_iff _ _ d).2 ⟨⟨v, hd, hv⟩, hfb⟩
  have hmem := mem_compareDates_of_hasBoth dateValue series (selfBenchmark series) d hboth
  cases hf : firstDateWithBoth dateValue series (selfBenchmark series) with
  | none =>
    unfold firstDateWithBoth at hf
    rw [List.find?_eq_none] at hf
    exact absurd hboth (hf d hmem)
  | some a =>
    have ha : hasBoth series (selfBenchmark series) a = true := by
      unfold firstDateWithBoth at hf
      exact List.find?_some hf
    obtain ⟨⟨pa, hpa, hpa0⟩, _⟩ := (hasBoth_iff _ _ a).1 ha
    have hane : a ≠ "" := hdates a (mem_objKeys_of_objGet _ _ _ hpa)
    have hamem := mem_compareDates_of_hasBoth dateValue series (selfBenchmark series) a ha
    refine ⟨_, comparePortfolio_of_anchor dateValue _ _ a hf hane, ?_, ?_⟩
    · rw [filter_keepEntry_normalized]
      intro hnil
      have hnone := (List.filterMap_eq_nil_iff.1 hnil) a hamem
      simp [normalizedEntry, comparisonValueAt_selfBenchmark, hpa, truthy, truthyNum,
        hpa0] at hnone
    · intro e he
      rw [filter_keepEntry_normalized, List.mem_filterMap] at he
      obtain ⟨d', _, hd'⟩ := he
      simp only [normalizedEntry, comparisonValueAt_selfBenchmark, Bool.and_self] at hd'
      split at hd'
      · rw [← Option.some.inj hd']
      · exact absurd hd' (by simp)

/-! ## The totals stored by getHistoricalRecords are never zero -/

theorem toFixed2_nonneg (x : ℚ) (hx : 0 ≤ x) : 0 ≤ toFixed2 x := by
  unfold toFixed2
  rw [if_neg (not_lt.2 hx)]
  have hf : (0 : ℤ) ≤ ⌊x * 100 + 1 / 2⌋ := Int.floor_nonneg.2 (by positivity)
  have hq : (0 : ℚ) ≤ ((⌊x * 100 + 1 / 2⌋ : ℤ) : ℚ) := by exact_mod_cast hf
  exact div_nonneg hq (by norm_num)

/-- A rounded non-negative amount that is not zero is at least one hundredth. -/
theorem toFixed2_ge_of_ne_zero (x : ℚ) (hx : 0 ≤ x) (h0 : toFixed2 x ≠ 0) :
    1 / 100 ≤ toFixed2 x := by
  unfold toFixed2 at h0 ⊢
  rw [if_neg (not_lt.2 hx)] at h0 ⊢
  have hf : (0 : ℤ) ≤ ⌊x * 100 + 1 / 2⌋ := Int.floor_nonneg.2 (by positivity)
  have hne : ⌊x * 100 + 1 / 2⌋ ≠ 0 := by
    intro e
    apply h0
    rw [e]
    simp
  have h1 : (1 : ℤ) ≤ ⌊x * 100 + 1 / 2⌋ := by omega
  have hq : (1 : ℚ) ≤ ((⌊x * 100 + 1 / 2⌋ : ℤ) : ℚ) := by exact_mod_cast h1
  exact div_le_div_of_nonneg_right hq (by norm_num)

/-- Rounding an amount of at least one hundredth gives at least one hundredth. -/
theorem toFixed2_ge_hundredth (x : ℚ) (hx : 1 / 100 ≤ x) : 1 / 100 ≤ toFixed2 x := by
  have hx0 : 0 ≤ x := le_trans (by norm_num) hx
  unfold toFixed2
  rw [if_neg (not_lt.2 hx0)]
  have h1 : (1 : ℤ) ≤ ⌊x * 100 + 1 / 2⌋ := by
    apply Int.le_floor.2
    push_cast
    linarith
  have hq : (1 : ℚ) ≤ ((⌊x * 100 + 1 / 2⌋ : ℤ) : ℚ) := by exact_mod_cast h1
  exact div_le_div_of_nonneg_right hq (by norm_num)

theorem lastClose_mem (bars : List Bar) (d : String) (c : ℚ)
    (h : lastClose bars d = some c) : ∃ b ∈ bars, b.close = c := by
  induction bars with
  | nil => simp [lastClose] at h
  | cons b rest ih =>
    unfold lastClose at h
    cases hl : lastClose rest d with
    | some c' =>
      rw [hl] at h
      simp only [Option.some.injEq] at h
      obtain ⟨b', hb', hc'⟩ := ih (h ▸ hl)
      exact ⟨b', List.mem_cons_of_mem _ hb', hc'⟩
    | none =>
      rw [hl] at h
      simp only at h
      split at h
      · exact ⟨b, List.mem_cons_self _ _, Option.some.inj h⟩
      · exact absurd h (by simp)

/-- With non-negative quantities and non-negative closes, every position value is
non-negative, and at least one hundredth when it is not zero. -/
theorem positionValue_bounds (fetch : String → Option (List Bar)) (holdings : List Holding)
    (hq : ∀ h ∈ holdings, 0 ≤ h.quantity)
    (hc : ∀ h ∈ holdings, ∀ bars, fetch h.symbol = some bars → ∀ b ∈ bars, 0 ≤ b.close)
    (h : Holding) (hh : h ∈ holdings) (d : String) (v : ℚ)
    (hv : positionValue (fetchAll fetch holdings).result h d = some v) :
    0 ≤ v ∧ (v ≠ 0 → 1 / 100 ≤ v) := by
  obtain ⟨h', hmem, _, hget⟩ := objGet_result_fetchAll fetch holdings h hh
  unfold positionValue at hv
  rw [hget] at hv
  simp only at hv
  rw [objGet_seriesOf] at hv
  cases hp : priceAt fetch h' d with
  | none => rw [hp] at hv; exact absurd hv (by simp)
  | some p =>
    rw [hp] at hv
    simp only [Option.map_some', Option.some.injEq] at hv
    have hp0 : 0 ≤ p := by
      unfold priceAt at hp
      cases hf : fetch h'.symbol with
      | none => rw [hf] at hp; exact absurd hp (by simp)
      | some bars =>
        rw [hf] at hp
        obtain ⟨b, hb, hbc⟩ := lastClose_mem bars d p hp
        rw [← hbc]
        exact hc h' hmem bars hf b hb
    have hpq : 0 ≤ p * h'.quantity := mul_nonneg hp0 (hq h' hmem)
    rw [← hv]
    exact ⟨toFixed2_nonneg _ hpq, toFixed2_ge_of_ne_zero _ hpq⟩

/-- Every total stored under `PORTFOLIO_TOTAL` is at least one hundredth, hence never zero,
when the quantities of the holdings and the closes of the fetched bars are non-negative. -/
theorem portfolioValues_ge_hundredth (fetch : String → Option (List Bar))
    (holdings : List Holding)
    (hq : ∀ h ∈ holdings, 0 ≤ h.quantity)
    (hc : ∀ h ∈ holdings, ∀ bars, fetch h.symbol = some bars → ∀ b ∈ bars, 0 ≤ b.close)
    (d : String) (total : ℚ)
    (ht : objGet (portfolioValues fetch holdings) d = some total) :
    1 / 100 ≤ total := by
  rw [objGet_portfolioValues] at ht
  split at ht
  · rename_i hcond
    obtain ⟨hmem, hcov⟩ := hcond
    rw [← Option.some.inj ht]
    apply toFixed2_ge_hundredth
    rw [dateTotals_fst]
    rw [dateTotals_snd] at hcov
    obtain ⟨h0, hh0, _⟩ := (mem_sortedDates fetch holdings d).1 hmem
    have hlen : 1 ≤ holdings.length := List.length_pos_of_mem hh0
    have hthr : 1 ≤ coverageThreshold holdings := by
      unfold coverageThreshold
      omega
    have hpos : 0 < (holdings.filter
        (fun h => truthy (positionValue (fetchAll fetch holdings).result h d))).length := by
      omega
    obtain ⟨h, hhf⟩ := List.exists_mem_of_length_pos hpos
    rw [List.mem_filter] at hhf
    obtain ⟨hh, htr⟩ := hhf
    obtain ⟨v, hv, hv0⟩ := (truthy_iff _).1 htr
    have hvge := (positionValue_bounds fetch holdings hq hc h hh d v hv).2 hv0
    have hvmem : v ∈ holdings.filterMap
        (fun h => positionValue (fetchAll fetch holdings).result h d) :=
      List.mem_filterMap.2 ⟨h, hh, hv⟩
    have hall : ∀ x ∈ holdings.filterMap
        (fun h => positionValue (fetchAll fetch holdings).result h d), 0 ≤ x := by
      intro x hx
      obtain ⟨h1, hh1, hx1⟩ := List.mem_filterMap.1 hx
      exact (positionValue_bounds fetch holdings hq hc h1 hh1 d x hx1).1
    exact le_trans hvge (List.single_le_sum hall v hvmem)
  · exact absurd ht (by simp)

/-- The series stored under `PORTFOLIO_TOTAL` has only non-zero values and, when the fetched
bars have non-empty date keys, only non-empty date keys. -/
theorem portfolioValues_values_ne_zero (fetch : String → Option (List Bar))
    (holdings : List Holding)
    (hq : ∀ h ∈ holdings, 0 ≤ h.quantity)
    (hc : ∀ h ∈ holdings, ∀ bars, fetch h.symbol = some bars → ∀ b ∈ bars, 0 ≤ b.close)
    (hd : ∀ h ∈ holdings, ∀ bars, fetch h.symbol = some bars → ∀ b ∈ bars, b.date ≠ "") :
    (∀ d v, objGet (portfolioValues fetch holdings) d = some v → v ≠ 0) ∧
      ∀ d ∈ objKeys (portfolioValues fetch holdings), d ≠ "" := by
  refine ⟨?_, ?_⟩
  · intro d v hv h0
    have := portfolioValues_ge_hundredth fetch holdings hq hc d v hv
    rw [h0] at this
    norm_num at this
  · intro d hmem
    obtain ⟨hs, _⟩ := (mem_objKeys_portfolioValues fetch holdings d).1 hmem
    obtain ⟨h, hh, bars, hf, b, hb, hbd⟩ := (mem_sortedDates fetch holdings d).1 hs
    rw [← hbd]
    exact hd h hh bars hf b hb

/-- Comparing the series stored under `PORTFOLIO_TOTAL` against itself: when the series has
a value, the quantities and closes are non-negative and the bars have non-empty date keys,
the comparison succeeds and every emitted entry has equal values. -/
theorem self_comparison_of_portfolioValues (dateValue : String → ℤ)
    (fetch : String → Option (List Bar)) (holdings : List Holding)
    (hq : ∀ h ∈ holdings, 0 ≤ h.quantity)
    (hc : ∀ h ∈ holdings, ∀ bars, fetch h.symbol = some bars → ∀ b ∈ bars, 0 ≤ b.close)
    (hd : ∀ h ∈ holdings, ∀ bars, fetch h.symbol = some bars → ∀ b ∈ bars, b.date ≠ "")
    (hvalue : ∃ d v, objGet (portfolioValues fetch holdings) d = some v) :
    ∃ data, comparePortfolio dateValue (portfolioValues fetch holdings)
          (selfBenchmark (portfolioValues fetch holdings)) =
        CompareResponse.success data ∧
      data ≠ [] ∧ ∀ e ∈ data, e.portfolioValue = e.comparisonValue := by
  obtain ⟨d, v, hv⟩ := hvalue
  obtain ⟨hne, hkeys⟩ := portfolioValues_values_ne_zero fetch holdings hq hc hd
  exact self_comparison_of_nonzero_value dateValue _ ⟨d, v, hv, hne d v hv⟩ hkeys

/-- C10. Rebasing idempotence: for every series with at least one value, whose values are
non-zero and whose date keys are non-empty (as in every series that `getHistoricalRecords`
stores under `PORTFOLIO_TOTAL`), comparing the series against itself succeeds, emits at
least one entry, and every emitted entry has its portfolio value equal to its comparison
value. -/
theorem self_comparison_idempotent (dateValue : String → ℤ) (series : List (String × ℚ))
    (hvalue : ∃ d v, objGet series d = some v)
    (hnonzero : ∀ d v, objGet series d = some v → v ≠ 0)
    (hdates : ∀ d ∈ objKeys series, d ≠ "") :
    ∃ data, comparePortfolio dateValue series (selfBenchmark series) =
        CompareResponse.success data ∧
      data ≠ [] ∧ ∀ e ∈ data, e.portfolioValue = e.comparisonValue := by
  obtain ⟨d, v, hd⟩ := hvalue
  exact self_comparison_of_nonzero_value dateValue series ⟨d, v, hd, hnonzero d v hd⟩ hdates

theorem self_comparison_idempotent_witness :
    (∃ d v, objGet risingPortfolio d = some v) ∧
      (∀ d v, objGet risingPortfolio d = some v → v ≠ 0) ∧
      (∀ d ∈ objKeys risingPortfolio, d ≠ "") ∧
      comparePortfolio dateOrdinal risingPortfolio (selfBenchmark risingPortfolio) =
        CompareResponse.success
          [⟨"2020-01-01", JsValue.num 100, JsValue.num 100⟩,
            ⟨"2020-01-02", JsValue.num 110, JsValue.num 110⟩] ∧
      ∃ data, comparePortfolio dateOrdinal risingPortfolio (selfBenchmark risingPortfolio) =
          CompareResponse.success data ∧
        data ≠ [] ∧ ∀ e ∈ data, e.portfolioValue = e.comparisonValue :=
  have hnonzero : ∀ d v, objGet risingPortfolio d = some v → v ≠ 0 :=
    fun d v hv => (by decide! : ∀ p ∈ risingPortfolio, p.2 ≠ 0) (d, v)
      (mem_of_objGet risingPortfolio d v hv)
  ⟨⟨"2020-01-01", 100, by decide!⟩, hnonzero, by decide!, by decide!,
    self_comparison_idempotent dateOrdinal risingPortfolio
      ⟨"2020-01-01", 100, by decide!⟩ hnonzero (by decide!)⟩

/-! ## The anchor entry (C11) -/

/-- When the benchmark close on the anchor date is non-zero, the entry of the anchor date
carries `100` in both fields. -/
theorem anchor_entry_hundred (dateValue : String → ℤ)
    (portfolioHistory : List (String × ℚ)) (comparisonHistory : List Bar)
    (data : List Entry) (a : String) (ca : ℚ)
    (hs : comparePortfolio dateValue portfolioHistory comparisonHistory =
      CompareResponse.success data)
    (ha : firstDateWithBoth dateValue portfolioHistory comparisonHistory = some a)
    (hca : comparisonValueAt comparisonHistory a = some ca) (hca0 : ca ≠ 0) :
    data.filter (fun e => decide (e.date = a)) =
      [⟨a, JsValue.num 100, JsValue.num 100⟩] := by
  obtain ⟨a', pa, ca', ha', hpa, hpa0, hca', hent⟩ :=
    entries_at_date dateValue portfolioHistory comparisonHistory data hs
  rw [ha] at ha'
  have haa : a = a' := Option.some.inj ha'
  subst haa
  rw [hca] at hca'
  have hcc : ca = ca' := Option.some.inj hca'
  subst hcc
  have hboth : hasBoth portfolioHistory comparisonHistory a = true := by
    unfold firstDateWithBoth at ha
    exact List.find?_some ha
  rw [hent a (mem_compareDates_of_hasBoth dateValue _ _ a hboth)]
  have hpt : truthy (objGet portfolioHistory a) = true := (truthy_iff _).2 ⟨pa, hpa, hpa0⟩
  have hct : truthy (comparisonValueAt comparisonHistory a) = true :=
    (truthy_iff _).2 ⟨ca, hca, hca0⟩
  simp only [normalizedEntry, hpt, hct]
  simp [hpa, hca, rebase_of_ne_zero _ _ hpa0, rebase_of_ne_zero _ _ hca0, div_self hpa0,
    div_self hca0]

/-- C11, evaluated where the code departs from it: the benchmark bar of the first common
date `2020-01-01` has close `0`; the anchor loop accepts the date, so the entry of the anchor
date carries `null` instead of `100` as its comparison value and the later comparison value
is the non-finite `50 / 0 * 100`. -/
theorem anchor_entry_null_for_zero_anchor_close :
    firstDateWithBoth dateOrdinal risingPortfolio zeroAnchorBenchmark = some "2020-01-01" ∧
      comparisonValueAt zeroAnchorBenchmark "2020-01-01" = some 0 ∧
      comparePortfolio dateOrdinal risingPortfolio zeroAnchorBenchmark =
        CompareResponse.success
          [⟨"2020-01-01", JsValue.num 100, JsValue.null⟩,
            ⟨"2020-01-02", JsValue.num 110, JsValue.nonFinite⟩] := by
  refine ⟨by decide!, by decide!, by decide!⟩

/-! ## Daily returns (C12) -/

theorem dailyReturns_cons_cons {K : Type} [LinearOrderedField K] (a b : K) (rest : List K) :
    dailyReturns (a :: b :: rest) = jsDiv (b - a) a :: dailyReturns (b :: rest) := rfl

theorem dailyReturns_singleton {K : Type} [LinearOrderedField K] (a : K) :
    dailyReturns [a] = [] := rfl

theorem length_dailyReturns_cons {K : Type} [LinearOrderedField K] (rest : List K) (a : K) :
    (dailyReturns (a :: rest)).length = rest.length := by
  induction rest generalizing a with
  | nil => rfl
  | cons b rest ih => rw [dailyReturns_cons_cons, List.length_cons, ih b, List.length_cons]

theorem length_dailyReturns {K : Type} [LinearOrderedField K] (values : List K) :
    (dailyReturns values).length = values.length - 1 := by
  cases values with
  | nil => rfl
  | cons a rest => rw [length_dailyReturns_cons]; simp

theorem getElem?_dailyReturns_cons {K : Type} [LinearOrderedField K] (rest : List K)
    (a : K) (j : ℕ) (x y : K) (hx : (a :: rest)[j]? = some x)
    (hy : (a :: rest)[j + 1]? = some y) :
    (dailyReturns (a :: rest))[j]? = some (jsDiv (y - x) x) := by
  induction rest generalizing a j with
  | nil => simp at hy
  | cons b rest ih =>
    rw [dailyReturns_cons_cons]
    cases j with
    | zero =>
      simp at hx hy
      subst hx hy
      simp
    | succ j =>
      rw [List.getElem?_cons_succ] at hx hy ⊢
      exact ih b j hx hy

/-- C12. For a valuation series `v_0 .. v_{n-1}` with `n ≥ 1` the returns list has exactly
`n - 1` elements and its element `i - 1` is `(v_i - v_{i-1}) / v_{i-1}` for every `i` in
`1 .. n - 1`; ten valuations give nine returns. -/
theorem dailyReturns_spec {K : Type} [LinearOrderedField K] (values : List K)
    (hn : 1 ≤ values.length) :
    (dailyReturns values).length = values.length - 1 ∧
      (∀ i, 1 ≤ i → i < values.length →
        ∃ prev cur, values[i - 1]? = some prev ∧ values[i]? = some cur ∧
          (dailyReturns values)[i - 1]? = some (jsDiv (cur - prev) prev) ∧
          (prev ≠ 0 →
            (dailyReturns values)[i - 1]? = some (JsNum.num ((cur - prev) / prev)))) ∧
      (values.length = 10 → (dailyReturns values).length = 9) := by
  refine ⟨length_dailyReturns values, ?_, ?_⟩
  · intro i hi hlt
    obtain ⟨j, rfl⟩ : ∃ j, i = j + 1 := ⟨i - 1, by omega⟩
    cases values with
    | nil => simp at hn
    | cons a rest =>
      have hj : j < (a :: rest).length := by omega
      refine ⟨(a :: rest)[j], (a :: rest)[j + 1], ?_, ?_, ?_, ?_⟩
      · simp [List.getElem?_eq_getElem hj]
      · exact List.getElem?_eq_getElem hlt
      · exact getElem?_dailyReturns_cons rest a j _ _ (List.getElem?_eq_getElem hj)
          (List.getElem?_eq_getElem hlt)
      · intro hne
        have h := getElem?_dailyReturns_cons rest a j _ _ (List.getElem?_eq_getElem hj)
          (List.getElem?_eq_getElem hlt)
        simpa [jsDiv, hne] using h
  · intro h10
    rw [length_dailyReturns, h10]

theorem dailyReturns_spec_witness :
    1 ≤ sampleValues.length ∧
      dailyReturns sampleValues = [JsNum.num (1 / 10), JsNum.num (-1 / 10)] ∧
      ((dailyReturns sampleValues).length = sampleValues.length - 1 ∧
        (∀ i, 1 ≤ i → i < sampleValues.length →
          ∃ prev cur, sampleValues[i - 1]? = some prev ∧ sampleValues[i]? = some cur ∧
            (dailyReturns sampleValues)[i - 1]? = some (jsDiv (cur - prev) prev) ∧
            (prev ≠ 0 →
              (dailyReturns sampleValues)[i - 1]? =
                some (JsNum.num ((cur - prev) / prev)))) ∧
        (sampleValues.length = 10 → (dailyReturns sampleValues).length = 9)) :=
  ⟨by decide!, by decide!, dailyReturns_spec sampleValues (by decide!)⟩

/-! ## Short series and beta (C13, C14) -/

/-- C13, as stated, fails: for a `PORTFOLIO_TOTAL` object with a single valuation the
response carries `null` for beta, standard deviation, Sharpe ratio and value at risk, but the
number `0` for the maximum drawdown. -/
theorem maxDrawdown_reported_zero_for_single_point :
    (riskValues singlePointHistory).length = 1 ∧
      reportMetrics (calculateRiskMetrics Rat.sqrt singlePointHistory) =
        { beta := none, standardDeviation := none, sharpeRatio := none, valueAtRisk := none,
          maxDrawdown := some 0 } := by
  refine ⟨by decide!, by decide!⟩

/-- C13, amended. For every valuation series with fewer than 2 points the response carries
`null` for beta, standardDeviation, sharpeRatio and valueAtRisk, and the number `0` for
maxDrawdown; no error is raised. -/
theorem short_series_metrics {K : Type} [LinearOrderedField K] (sqrt : K → K)
    (values : List K) (hshort : values.length < 2) :
    reportMetrics (riskMetrics sqrt values) =
      { beta := none, standardDeviation := none, sharpeRatio := none, valueAtRisk := none,
        maxDrawdown := some 0 } := by
  have hret : dailyReturns values = [] := by
    cases values with
    | nil => rfl
    | cons a rest =>
      cases rest with
      | nil => rfl
      | cons b rest => exact absurd hshort (by simp)
  have hmax : maxDrawdown values = JsNum.num 0 := by
    cases values with
    | nil => rfl
    | cons a rest =>
      cases rest with
      | nil => rfl
      | cons b rest => exact absurd hshort (by simp)
  simp [reportMetrics, riskMetrics, hret, hmax, portfolioBeta, standardDeviation, variance,
    meanReturn, finiteReturns, jsDiv, jsSqrt, sharpeRatio, valueAtRisk, jsScale, jsonNumber]

theorem short_series_metrics_witness :
    ([] : List ℚ).length < 2 ∧
      reportMetrics (riskMetrics Rat.sqrt ([] : List ℚ)) =
        { beta := none, standardDeviation := none, sharpeRatio := none, valueAtRisk := none,
          maxDrawdown := some 0 } :=
  ⟨by decide!, short_series_metrics Rat.sqrt [] (by decide!)⟩

theorem standardDeviation_num {K : Type} [LinearOrderedField K] (sqrt : K → K)
    (returns : List (JsNum K)) (s : K)
    (hstd : standardDeviation sqrt returns = JsNum.num s) :
    ∃ rs m, finiteReturns returns = some rs ∧ rs ≠ [] ∧ meanReturn returns = JsNum.num m := by
  unfold standardDeviation variance at hstd
  cases hf : finiteReturns returns with
  | none => simp [hf, jsSqrt] at hstd
  | some rs =>
    cases hm : meanReturn returns with
    | nonFinite => simp [hf, hm, jsSqrt] at hstd
    | num m =>
      refine ⟨rs, m, rfl, ?_, rfl⟩
      intro hnil
      subst hnil
      simp [meanReturn, hf, jsDiv] at hm

theorem length_finiteReturns {K : Type} (returns : List (JsNum K)) (rs : List K)
    (h : finiteReturns returns = some rs) : rs.length = returns.length := by
  induction returns generalizing rs with
  | nil =>
    simp [finiteReturns] at h
    subst h
    rfl
  | cons r rest ih =>
    cases r with
    | nonFinite => simp [finiteReturns] at h
    | num x =>
      cases hr : finiteReturns rest with
      | none => simp [finiteReturns, hr] at h
      | some xs =>
        simp [finiteReturns, hr] at h
        subst h
        simp [ih xs hr]

/-- C14, as stated, fails: no benchmark return series enters the computation, and for the
valuations `100, 110, 99` the reported beta is `0.08`, the reported standard deviation `0.1`
times `0.8`, not `null`. -/
theorem beta_reported_from_own_volatility :
    (reportMetrics (calculateRiskMetrics Rat.sqrt sampleHistory)).standardDeviation =
        some (1 / 10) ∧
      (reportMetrics (calculateRiskMetrics Rat.sqrt sampleHistory)).beta =
        some (1 / 10 * (8 / 10)) := by
  refine ⟨by decide!, by decide!⟩

/-- C14, amended. The portfolio-level beta uses no benchmark return series: whenever the
standard deviation is a finite number `s` (which requires at least one return) beta is
reported as `s * 0.8`, and beta is `null` exactly when there are no returns. -/
theorem beta_is_scaled_deviation {K : Type} [LinearOrderedField K] (sqrt : K → K)
    (values : List K) (s : K)
    (hstd : (riskMetrics sqrt values).standardDeviation = JsNum.num s) :
    (riskMetrics sqrt values).beta = some (JsNum.num (s * (8 / 10))) ∧
      (reportMetrics (riskMetrics sqrt values)).beta = some (s * (8 / 10)) ∧
      ∀ values' : List K,
        ((riskMetrics sqrt values').beta = none ↔ dailyReturns values' = []) := by
  have hstd' : standardDeviation sqrt (dailyReturns values) = JsNum.num s := hstd
  obtain ⟨rs, m, hf, hne, _⟩ := standardDeviation_num sqrt _ s hstd'
  have hlen : 0 < (dailyReturns values).length := by
    rw [← length_finiteReturns _ rs hf]
    exact List.length_pos.2 hne
  have hbeta : (riskMetrics sqrt values).beta = some (JsNum.num (s * (8 / 10))) := by
    simp only [riskMetrics, portfolioBeta, hlen, if_true, hstd', jsScale]
  refine ⟨hbeta, ?_, ?_⟩
  · simp only [reportMetrics, hbeta, Option.bind, jsonNumber]
  · intro values'
    simp only [riskMetrics, portfolioBeta]
    constructor
    · intro h
      by_cases hl : 0 < (dailyReturns values').length
      · simp [hl] at h
      · exact List.length_eq_zero.1 (by omega)
    · intro h
      simp [h]

theorem beta_is_scaled_deviation_witness :
    (riskMetrics Rat.sqrt sampleValues).standardDeviation = JsNum.num (1 / 10) ∧
      ((riskMetrics Rat.sqrt sampleValues).beta = some (JsNum.num (1 / 10 * (8 / 10))) ∧
        (reportMetrics (riskMetrics Rat.sqrt sampleValues)).beta = some (1 / 10 * (8 / 10)) ∧
        ∀ values' : List ℚ,
          ((riskMetrics Rat.sqrt values').beta = none ↔ dailyReturns values' = [])) :=
  ⟨by decide!, beta_is_scaled_deviation Rat.sqrt sampleValues (1 / 10) (by decide!)⟩

/-! ## Mean, variance, standard deviation and Sharpe ratio (C15, C16) -/

theorem finiteReturns_map_num {K : Type} (rs : List K) :
    finiteReturns (rs.map JsNum.num) = some rs := by
  induction rs with
  | nil => rfl
  | cons r rest ih => simp [finiteReturns, ih]

theorem sum_sq_nonneg {K : Type} [LinearOrderedField K] (rs : List K) (m : K) :
    0 ≤ (rs.map (fun r => (r - m) ^ 2)).sum := by
  apply List.sum_nonneg
  intro x hx
  rw [List.mem_map] at hx
  obtain ⟨r, _, rfl⟩ := hx
  exact sq_nonneg _

/-- C15. For every non-empty list of returns the mean is the sum of the returns divided by
their count, the variance is the sum of the squared deviations from that mean divided by the
count (not the count minus one), and the standard deviation is the square root of that
variance; the variance is non-negative, and the square of the standard deviation is the
variance when `sqrt` is a square root on the non-negative numbers. -/
theorem population_statistics {K : Type} [LinearOrderedField K] (sqrt : K → K)
    (rs : List K) (hne : rs ≠ []) :
    meanReturn (rs.map JsNum.num) = JsNum.num (rs.sum / (rs.length : K)) ∧
      variance (rs.map JsNum.num) =
        JsNum.num
          ((rs.map (fun r => (r - rs.sum / (rs.length : K)) ^ 2)).sum / (rs.length : K)) ∧
      standardDeviation sqrt (rs.map JsNum.num) =
        JsNum.num
          (sqrt
            ((rs.map (fun r => (r - rs.sum / (rs.length : K)) ^ 2)).sum / (rs.length : K))) ∧
      0 ≤ (rs.map (fun r => (r - rs.sum / (rs.length : K)) ^ 2)).sum / (rs.length : K) ∧
      ((∀ x : K, 0 ≤ x → sqrt x * sqrt x = x) →
        ∀ s, standardDeviation sqrt (rs.map JsNum.num) = JsNum.num s →
          s ^ 2 =
            (rs.map (fun r => (r - rs.sum / (rs.length : K)) ^ 2)).sum / (rs.length : K)) := by
  have hlen : (rs.length : K) ≠ 0 := by
    have : 0 < rs.length := List.length_pos.2 hne
    exact_mod_cast this.ne'
  have hmean : meanReturn (rs.map JsNum.num) = JsNum.num (rs.sum / (rs.length : K)) := by
    simp [meanReturn, finiteReturns_map_num, jsDiv, hlen]
  have hvar : variance (rs.map JsNum.num) =
      JsNum.num
        ((rs.map (fun r => (r - rs.sum / (rs.length : K)) ^ 2)).sum / (rs.length : K)) := by
    simp only [variance, finiteReturns_map_num, hmean, jsDiv, hlen, if_false]
  have hnonneg :
      0 ≤ (rs.map (fun r => (r - rs.sum / (rs.length : K)) ^ 2)).sum / (rs.length : K) :=
    div_nonneg (sum_sq_nonneg rs _) (by exact_mod_cast Nat.zero_le _)
  have hstd : standardDeviation sqrt (rs.map JsNum.num) =
      JsNum.num
        (sqrt
          ((rs.map (fun r => (r - rs.sum / (rs.length : K)) ^ 2)).sum / (rs.length : K))) := by
    simp only [standardDeviation, hvar, jsSqrt, not_lt.2 hnonneg, if_false]
  refine ⟨hmean, hvar, hstd, hnonneg, ?_⟩
  intro hsqrt s hs
  rw [hstd] at hs
  rw [← JsNum.num.inj hs, sq]
  exact hsqrt _ hnonneg

theorem population_statistics_witness :
    ([1, 3] : List ℝ) ≠ [] ∧
      meanReturn (([1, 3] : List ℝ).map JsNum.num) = JsNum.num 2 ∧
      variance (([1, 3] : List ℝ).map JsNum.num) = JsNum.num 1 ∧
      ∀ s, standardDeviation Real.sqrt (([1, 3] : List ℝ).map JsNum.num) = JsNum.num s →
        s ^ 2 = 1 := by
  have h := population_statistics Real.sqrt ([1, 3] : List ℝ) (by simp)
  obtain ⟨h1, h2, _, _, h5⟩ := h
  refine ⟨by simp, ?_, ?_, ?_⟩
  · rw [h1]; norm_num
  · rw [h2]; norm_num
  · intro s hs
    rw [h5 (fun x hx => Real.mul_self_sqrt hx) s hs]
    norm_num

/-- C16. With a finite standard deviation `s`: when `s` is non-zero the Sharpe ratio is
`(meanReturn - 0.05 / 252) / s` and is reported as that number; when `s` is `0` the quotient
is not a finite number and the response carries `null`. -/
theorem sharpeRatio_reported {K : Type} [LinearOrderedField K] (sqrt : K → K)
    (values : List K) (s : K)
    (hstd : (riskMetrics sqrt values).standardDeviation = JsNum.num s) :
    ∃ mean, meanReturn (dailyReturns values) = JsNum.num mean ∧
      (s ≠ 0 →
        (riskMetrics sqrt values).sharpeRatio = JsNum.num ((mean - 5 / 100 / 252) / s) ∧
          (reportMetrics (riskMetrics sqrt values)).sharpeRatio =
            some ((mean - 5 / 100 / 252) / s)) ∧
      (s = 0 →
        (riskMetrics sqrt values).sharpeRatio = JsNum.nonFinite ∧
          (reportMetrics (riskMetrics sqrt values)).sharpeRatio = none) := by
  have hstd' : standardDeviation sqrt (dailyReturns values) = JsNum.num s := hstd
  obtain ⟨rs, m, _, _, hm⟩ := standardDeviation_num sqrt _ s hstd'
  refine ⟨m, hm, ?_, ?_⟩
  · intro hs
    have h1 : (riskMetrics sqrt values).sharpeRatio =
        JsNum.num ((m - 5 / 100 / 252) / s) := by
      simp only [riskMetrics, sharpeRatio, hm, hstd', jsDiv, hs, if_false, riskFreeRate]
    exact ⟨h1, by simp only [reportMetrics, h1, jsonNumber]⟩
  · intro hs
    have h1 : (riskMetrics sqrt values).sharpeRatio = JsNum.nonFinite := by
      simp only [riskMetrics, sharpeRatio, hm, hstd', jsDiv, hs, if_true]
    exact ⟨h1, by simp only [reportMetrics, h1, jsonNumber]⟩

theorem sharpeRatio_reported_witness :
    (riskMetrics Rat.sqrt constantReturnValues).standardDeviation = JsNum.num 0 ∧
      (reportMetrics (riskMetrics Rat.sqrt constantReturnValues)).sharpeRatio = none ∧
      (riskMetrics Rat.sqrt sampleValues).standardDeviation = JsNum.num (1 / 10) ∧
      (reportMetrics (riskMetrics Rat.sqrt sampleValues)).sharpeRatio =
        some ((0 - 5 / 100 / 252) / (1 / 10)) ∧
      ∃ mean, meanReturn (dailyReturns constantReturnValues) = JsNum.num mean ∧
        ((0 : ℚ) ≠ 0 →
          (riskMetrics Rat.sqrt constantReturnValues).sharpeRatio =
              JsNum.num ((mean - 5 / 100 / 252) / 0) ∧
            (reportMetrics (riskMetrics Rat.sqrt constantReturnValues)).sharpeRatio =
              some ((mean - 5 / 100 / 252) / 0)) ∧
        ((0 : ℚ) = 0 →
          (riskMetrics Rat.sqrt constantReturnValues).sharpeRatio = JsNum.nonFinite ∧
            (reportMetrics (riskMetrics Rat.sqrt constantReturnValues)).sharpeRatio = none) :=
  ⟨by decide!, by decide!, by decide!, by decide!,
    sharpeRatio_reported Rat.sqrt constantReturnValues 0 (by decide!)⟩

/-! ## Maximum drawdown (C17, C18) -/

theorem le_foldl_max {K : Type} [LinearOrderedField K] (l : List K) (a : K) :
    a ≤ l.foldl max a := by
  induction l generalizing a with
  | nil => exact le_refl a
  | cons x rest ih => exact le_trans (le_max_left a x) (ih (max a x))

/-- One turn of the drawdown loop when the peak stays positive. -/
theorem drawdownStep_of_pos {K : Type} [LinearOrderedField K] (m p v : K) (hp : 0 < p) :
    drawdownStep { maxDrawdown := JsNum.num m, peak := p } v =
      { maxDrawdown := JsNum.num (max m ((max p v - v) / max p v)), peak := max p v } := by
  have hpeak : (if v > p then v else p) = max p v := by
    rcases lt_or_le p v with h | h
    · rw [if_pos h, max_eq_right h.le]
    · rw [if_neg (not_lt.2 h), max_eq_left h]
  have hpos : max p v ≠ 0 := (lt_of_lt_of_le hp (le_max_left p v)).ne'
  have hmax : ∀ d : K, (if d > m then JsNum.num d else JsNum.num m) = JsNum.num (max m d) := by
    intro d
    rcases lt_or_le m d with h | h
    · rw [if_pos h, max_eq_right h.le]
    · rw [if_neg (not_lt.2 h), max_eq_left h]
  simp only [drawdownStep, hpeak, jsDiv, hpos, if_false, hmax]

theorem peakAt_cons {K : Type} [LinearOrderedField K] (v0 : K) (rest : List K) (i : ℕ) :
    peakAt (v0 :: rest) i = (rest.take i).foldl max v0 := by
  simp [peakAt]

theorem drawdownAt_append_of_lt {K : Type} [LinearOrderedField K] (v0 v : K)
    (init : List K) (i : ℕ) (hi : i < init.length + 1) :
    drawdownAt (v0 :: (init ++ [v])) i = drawdownAt (v0 :: init) i := by
  have htake : (init ++ [v]).take i = init.take i :=
    List.take_append_of_le_length (by omega)
  have hget : (v0 :: (init ++ [v])).getD i 0 = (v0 :: init).getD i 0 := by
    cases i with
    | zero => rfl
    | succ j =>
      have hj : j < init.length := by omega
      simp [List.getD_cons_succ, List.getD_eq_getElem?_getD, List.getElem?_append_left hj]
  unfold drawdownAt
  rw [peakAt_cons, peakAt_cons, htake, hget]

theorem drawdownAt_append_last {K : Type} [LinearOrderedField K] (v0 v : K)
    (init : List K) :
    drawdownAt (v0 :: (init ++ [v])) (init.length + 1) =
      (max (init.foldl max v0) v - v) / max (init.foldl max v0) v := by
  have htake : (init ++ [v]).take (init.length + 1) = init ++ [v] :=
    List.take_of_length_le (by simp)
  have hget : (v0 :: (init ++ [v])).getD (init.length + 1) 0 = v := by
    simp [List.getD_cons_succ, List.getD_eq_getElem?_getD]
  unfold drawdownAt
  rw [peakAt_cons, htake, hget, List.foldl_append]
  rfl

/-- The state of the drawdown loop after all valuations: the peak is the largest valuation
and `maxDrawdown` is the largest of the drawdowns `(peak_i - v_i) / peak_i`. -/
theorem drawdown_fold_spec {K : Type} [LinearOrderedField K] (v0 : K) (h0 : 0 < v0)
    (rest : List K) :
    ∃ m, rest.foldl drawdownStep { maxDrawdown := JsNum.num 0, peak := v0 } =
        { maxDrawdown := JsNum.num m, peak := rest.foldl max v0 } ∧
      (∀ i, i < rest.length + 1 → drawdownAt (v0 :: rest) i ≤ m) ∧
      ∃ i, i < rest.length + 1 ∧ drawdownAt (v0 :: rest) i = m := by
  induction rest using List.reverseRecOn with
  | nil =>
    refine ⟨0, rfl, ?_, 0, by simp, ?_⟩
    · intro i hi
      have : i = 0 := by simpa using hi
      subst this
      simp [drawdownAt, peakAt]
    · simp [drawdownAt, peakAt]
  | append_singleton init v ih =>
    obtain ⟨m, hfold, hle, j, hj, hjm⟩ := ih
    have hp : 0 < init.foldl max v0 := lt_of_lt_of_le h0 (le_foldl_max init v0)
    refine ⟨max m ((max (init.foldl max v0) v - v) / max (init.foldl max v0) v), ?_, ?_, ?_⟩
    · rw [List.foldl_append, hfold, List.foldl_append]
      exact drawdownStep_of_pos m _ v hp
    · intro i hi
      rw [List.length_append, List.length_singleton] at hi
      by_cases hlt : i < init.length + 1
      · rw [drawdownAt_append_of_lt v0 v init i hlt]
        exact le_trans (hle i hlt) (le_max_left _ _)
      · have hi' : i = init.length + 1 := by omega
        rw [hi', drawdownAt_append_last]
        exact le_max_right _ _
    · rcases le_total ((max (init.foldl max v0) v - v) / max (init.foldl max v0) v) m with
        h | h
      · refine ⟨j, by rw [List.length_append, List.length_singleton]; omega, ?_⟩
        rw [drawdownAt_append_of_lt v0 v init j hj, hjm, max_eq_left h]
      · refine ⟨init.length + 1, by rw [List.length_append, List.length_singleton]; omega, ?_⟩
        rw [drawdownAt_append_last, max_eq_right h]

/-- C17. For a valuation series `v_0 .. v_{n-1}` with `n ≥ 1` and `v_0 > 0`, `maxDrawdown`
is the maximum over `i` in `0 .. n - 1` of `(peak_i - v_i) / peak_i` with
`peak_i = max(v_0 .. v_i)`; for `[100, 120, 90, 110]` the running peaks are
`[100, 120, 120, 120]` and `maxDrawdown` is `0.25`. -/
theorem maxDrawdown_is_max_drawdown {K : Type} [LinearOrderedField K] (values : List K)
    (v0 : K) (hhead : values.head? = some v0) (hpos : 0 < v0) :
    (∃ m, maxDrawdown values = JsNum.num m ∧
        (∀ i, i < values.length → drawdownAt values i ≤ m) ∧
        ∃ i, i < values.length ∧ drawdownAt values i = m) ∧
      (List.range 4).map (peakAt drawdownValues) = [100, 120, 120, 120] ∧
      maxDrawdown drawdownValues = JsNum.num (25 / 100) := by
  refine ⟨?_, by decide!, by decide!⟩
  cases values with
  | nil => simp at hhead
  | cons a rest =>
    have ha : a = v0 := by simpa using hhead
    subst ha
    obtain ⟨m, hfold, hle, hex⟩ := drawdown_fold_spec a hpos rest
    refine ⟨m, ?_, hle, hex⟩
    simp only [maxDrawdown, hfold]

theorem maxDrawdown_is_max_drawdown_witness :
    drawdownValues.head? = some 100 ∧ (0 : ℚ) < 100 ∧
      ((∃ m, maxDrawdown drawdownValues = JsNum.num m ∧
          (∀ i, i < drawdownValues.length → drawdownAt drawdownValues i ≤ m) ∧
          ∃ i, i < drawdownValues.length ∧ drawdownAt drawdownValues i = m) ∧
        (List.range 4).map (peakAt drawdownValues) = [100, 120, 120, 120] ∧
        maxDrawdown drawdownValues = JsNum.num (25 / 100)) :=
  ⟨by decide!, by decide!, maxDrawdown_is_max_drawdown drawdownValues 100 (by decide!)
    (by decide!)⟩

theorem drawdown_fold_bounds {K : Type} [LinearOrderedField K] (rest : List K)
    (m p : K) (hp : 0 < p) (hm0 : 0 ≤ m) (hm1 : m ≤ 1) (hall : ∀ v ∈ rest, 0 ≤ v) :
    ∃ m', (rest.foldl drawdownStep { maxDrawdown := JsNum.num m, peak := p }).maxDrawdown =
        JsNum.num m' ∧ 0 ≤ m' ∧ m' ≤ 1 := by
  induction rest generalizing m p with
  | nil => exact ⟨m, rfl, hm0, hm1⟩
  | cons v rest ih =>
    rw [List.foldl_cons, drawdownStep_of_pos m p v hp]
    have hv : 0 ≤ v := hall v (List.mem_cons_self _ _)
    have hpos : 0 < max p v := lt_of_lt_of_le hp (le_max_left p v)
    have hd0 : 0 ≤ (max p v - v) / max p v :=
      div_nonneg (sub_nonneg.2 (le_max_right p v)) hpos.le
    have hd1 : (max p v - v) / max p v ≤ 1 := by
      rw [div_le_one hpos]
      linarith
    exact ih _ _ hpos (le_trans hm0 (le_max_left _ _)) (max_le hm1 hd1)
      (fun x hx => hall x (List.mem_cons_of_mem _ hx))

/-- C18. For every non-empty valuation series whose values are all non-negative with a
positive first value, `maxDrawdown` is a number of the closed interval `[0, 1]`. -/
theorem maxDrawdown_in_unit_interval {K : Type} [LinearOrderedField K] (values : List K)
    (v0 : K) (hhead : values.head? = some v0) (hpos : 0 < v0)
    (hall : ∀ v ∈ values, 0 ≤ v) :
    ∃ m, maxDrawdown values = JsNum.num m ∧ 0 ≤ m ∧ m ≤ 1 := by
  cases values with
  | nil => simp at hhead
  | cons a rest =>
    have ha : a = v0 := by simpa using hhead
    subst ha
    exact drawdown_fold_bounds rest 0 a hpos (le_refl 0) zero_le_one
      (fun x hx => hall x (List.mem_cons_of_mem _ hx))

theorem maxDrawdown_in_unit_interval_witness :
    sampleValues.head? = some 100 ∧ (0 : ℚ) < 100 ∧ (∀ v ∈ sampleValues, (0 : ℚ) ≤ v) ∧
      maxDrawdown sampleValues = JsNum.num (1 / 10) ∧
      ∃ m, maxDrawdown sampleValues = JsNum.num m ∧ 0 ≤ m ∧ m ≤ 1 :=
  ⟨by decide!, by decide!, by decide!, by decide!,
    maxDrawdown_in_unit_interval sampleValues 100 (by decide!) (by decide!) (by decide!)⟩

/-! ## Rolling volatility (C19, C20) -/

/-- Every window of the rolling-volatility loop holds 29 returns. -/
theorem length_rolling_window {α : Type} (returns : List α) (i : ℕ) (h29 : 29 ≤ i)
    (hi : i < returns.length) : (slice returns (i - 29) i).length = 29 := by
  unfold slice
  rw [List.length_take, List.length_drop]
  omega

/-- C19, evaluated where the code departs from it: thirty-one valuations, `100` on thirty
days and `200` on the last, give thirty returns, twenty-nine `0` and a last return `1`. The
only window of 30 consecutive returns has the population variance `29 / 900`, but the window
of the loop, `returns.slice(0, 29)`, holds only the twenty-nine returns `0`, summed and divided
by 30, and the single point carries the volatility `0`. -/
theorem rolling_window_misses_a_return :
    riskValues jumpHistory = jumpValues ∧
      finiteReturns (dailyReturns jumpValues) = some (List.replicate 29 0 ++ [1]) ∧
      populationVariance (List.replicate 29 (0 : ℚ) ++ [1]) = 29 / 900 ∧
      slice (dailyReturns jumpValues) (29 - 29) 29 = List.replicate 29 (JsNum.num 0) ∧
      rollingVolatility Rat.sqrt (riskDates jumpHistory) (dailyReturns (riskValues jumpHistory)) =
        [⟨some "2020-01-31", JsNum.num 0⟩] := by
  refine ⟨by decide!, by decide!, by decide!, by decide!, by decide!⟩

theorem map_getElem?_drop_range (l : List String) (n : ℕ) (hn : n = l.length - 1) :
    ((List.range n).drop 29).map (fun i => l[i + 1]?) = (l.drop 30).map some := by
  apply List.ext_getElem?
  intro j
  rw [List.getElem?_map, List.getElem?_map, List.getElem?_drop, List.getElem?_drop]
  by_cases hj : 29 + j < n
  · have h30 : 30 + j < l.length := by omega
    rw [List.getElem?_range hj, List.getElem?_eq_getElem h30]
    simp only [Option.map_some']
    have he : 29 + j + 1 = 30 + j := by omega
    rw [he, List.getElem?_eq_getElem h30]
  · have h30 : l.length ≤ 30 + j := by omega
    rw [List.getElem?_eq_none (by simpa using Nat.le_of_not_lt hj),
      List.getElem?_eq_none h30]
    rfl

theorem length_riskValues {K : Type} [LinearOrderedField K]
    (portfolioHistory : List (String × K)) :
    (riskValues portfolioHistory).length = (riskDates portfolioHistory).length := by
  simp [riskValues]

theorem sorted_riskDates {K : Type} (portfolioHistory : List (String × K))
    (hkeys : (objKeys portfolioHistory).Nodup) :
    (riskDates portfolioHistory).Sorted (· < ·) := by
  have hs : (riskDates portfolioHistory).Sorted (· ≤ ·) := by
    unfold riskDates
    exact List.sorted_insertionSort (· ≤ ·) _
  apply hs.lt_of_le
  unfold riskDates
  rw [(List.perm_insertionSort _ _).nodup_iff]
  exact hkeys

/-- C20. The rolling volatility is empty when there are fewer than 30 returns; otherwise it
has `numReturns - 29` points, keyed in order to the dates `dates[30], dates[31], ...` of the
valuation series, which are strictly ascending. -/
theorem rollingVolatility_points {K : Type} [LinearOrderedField K] (sqrt : K → K)
    (portfolioHistory : List (String × K))
    (hkeys : (objKeys portfolioHistory).Nodup) :
    ((dailyReturns (riskValues portfolioHistory)).length < 30 →
        rollingVolatility sqrt (riskDates portfolioHistory)
          (dailyReturns (riskValues portfolioHistory)) = []) ∧
      (rollingVolatility sqrt (riskDates portfolioHistory)
          (dailyReturns (riskValues portfolioHistory))).length =
        (dailyReturns (riskValues portfolioHistory)).length - 29 ∧
      (rollingVolatility sqrt (riskDates portfolioHistory)
          (dailyReturns (riskValues portfolioHistory))).map (fun p => p.date) =
        ((riskDates portfolioHistory).drop 30).map some ∧
      (∀ d ∈ (riskDates portfolioHistory).drop 30, d ∈ objKeys portfolioHistory) ∧
      ((riskDates portfolioHistory).drop 30).Sorted (· < ·) := by
  have hlen : (rollingVolatility sqrt (riskDates portfolioHistory)
      (dailyReturns (riskValues portfolioHistory))).length =
        (dailyReturns (riskValues portfolioHistory)).length - 29 := by
    simp [rollingVolatility]
  refine ⟨?_, hlen, ?_, ?_, ?_⟩
  · intro hlt
    apply List.eq_nil_of_length_eq_zero
    rw [hlen]
    omega
  · simp only [rollingVolatility, List.map_map]
    exact map_getElem?_drop_range (riskDates portfolioHistory) _
      (by rw [length_dailyReturns, length_riskValues])
  · intro d hd
    have hmem : d ∈ riskDates portfolioHistory := List.mem_of_mem_drop hd
    unfold riskDates at hmem
    exact (List.perm_insertionSort _ _).mem_iff.1 hmem
  · exact (sorted_riskDates portfolioHistory hkeys).sublist (List.drop_sublist _ _)

theorem rollingVolatility_points_witness :
    (objKeys jumpHistory).Nodup ∧
      (rollingVolatility Rat.sqrt (riskDates jumpHistory)
          (dailyReturns (riskValues jumpHistory))).map (fun p => p.date) =
        [some "2020-01-31"] ∧
      (((dailyReturns (riskValues jumpHistory)).length < 30 →
          rollingVolatility Rat.sqrt (riskDates jumpHistory)
            (dailyReturns (riskValues jumpHistory)) = []) ∧
        (rollingVolatility Rat.sqrt (riskDates jumpHistory)
            (dailyReturns (riskValues jumpHistory))).length =
          (dailyReturns (riskValues jumpHistory)).length - 29 ∧
        (rollingVolatility Rat.sqrt (riskDates jumpHistory)
            (dailyReturns (riskValues jumpHistory))).map (fun p => p.date) =
          ((riskDates jumpHistory).drop 30).map some ∧
        (∀ d ∈ (riskDates jumpHistory).drop 30, d ∈ objKeys jumpHistory) ∧
        ((riskDates jumpHistory).drop 30).Sorted (· < ·)) :=
  ⟨by decide!, by decide!, rollingVolatility_points Rat.sqrt jumpHistory (by decide!)⟩

/-! ## Scaling the valuation series -/

theorem jsDiv_scale {K : Type} [LinearOrderedField K] (a b c : K) (hc : c ≠ 0) :
    jsDiv (c * b - c * a) (c * a) = jsDiv (b - a) a := by
  unfold jsDiv
  by_cases ha : a = 0
  · simp [ha]
  · have hca : c * a ≠ 0 := mul_ne_zero hc ha
    simp only [ha, hca, if_false]
    congr 1
    field_simp
    ring

theorem dailyReturns_scale {K : Type} [LinearOrderedField K] (values : List K) (c : K)
    (hc : c ≠ 0) : dailyReturns (values.map (fun v => c * v)) = dailyReturns values := by
  cases values with
  | nil => rfl
  | cons a rest =>
    induction rest generalizing a with
    | nil => rfl
    | cons b rest ih =>
      have h := ih b
      simp only [List.map_cons] at h ⊢
      rw [dailyReturns_cons_cons, dailyReturns_cons_cons, h, jsDiv_scale a b c hc]

/-! ## Return distribution and value at risk (C21, C22) -/

/-- No return is counted in two buckets of the histogram: a return that passes the test of
one bucket fails the test of every later bucket. -/
theorem inBucket_disjoint {K : Type} [LinearOrderedField K] (val next val' : K)
    (nextVal' : Option K) (r : JsNum K) (hle : next ≤ val')
    (h : inBucket val (some next) r = true) : inBucket val' nextVal' r = false := by
  cases r with
  | nonFinite => rfl
  | num x =>
    simp only [inBucket, Bool.and_eq_true, decide_eq_true_eq] at h
    have hx : ¬ val' ≤ x := not_le.2 (lt_of_lt_of_le h.2 hle)
    simp [inBucket, hx]

/-- A return below `-0.2` and a non-finite return pass the test of no bucket whose lower
bound is at least `-0.2`. -/
theorem inBucket_below {K : Type} [LinearOrderedField K] (val : K) (nextVal : Option K)
    (x : K) (hx : x < -(20 / 100)) (hval : -(20 / 100) ≤ val) :
    inBucket val nextVal (JsNum.num x) = false := by
  have h : ¬ val ≤ x := not_le.2 (lt_of_lt_of_le hx hval)
  simp [inBucket, h]

/-- C21, as stated, fails: the valuations `100, 70, 77` give the returns `-0.3` and `0.1`. The return `-0.3` lies below the lowest bound `-0.2` and is counted
in none of the 9 buckets, so the bucket counts sum to `1`, not to the number `2` of returns,
and the unrounded frequencies sum to `50`, not to `100`. -/
theorem histogram_drops_return_below_lowest_bound :
    dailyReturns crashValues = [JsNum.num (-(3 / 10)), JsNum.num (1 / 10)] ∧
      (returnDistribution (dailyReturns crashValues)).map (fun b => b.lower) =
        [-(20 / 100), -(15 / 100), -(10 / 100), -(5 / 100), 0, 5 / 100, 10 / 100, 15 / 100,
          20 / 100] ∧
      (returnDistribution (dailyReturns crashValues)).map (fun b => b.count) =
        [0, 0, 0, 0, 0, 0, 1, 0, 0] ∧
      ((returnDistribution (dailyReturns crashValues)).map (fun b => b.count)).sum = 1 ∧
      (returnDistribution (dailyReturns crashValues)).map (fun b => b.frequency) =
        [JsNum.num 0, JsNum.num 0, JsNum.num 0, JsNum.num 0, JsNum.num 0, JsNum.num 0,
          JsNum.num 50, JsNum.num 0, JsNum.num 0] := by
  refine ⟨by decide!, by decide!, by decide!, by decide!, by decide!⟩

/-- C22. The value at risk is the standard deviation times `1.645`: for a finite standard
deviation `s` it is reported as `s * 1.645`, for a non-finite one it is non-finite as well
(`null` in the response); it is computed from the returns alone, so multiplying every
valuation by a non-zero factor leaves it unchanged; for the standard deviation `0.02` it is
`0.0329`. -/
theorem valueAtRisk_is_scaled_deviation {K : Type} [LinearOrderedField K] (sqrt : K → K)
    (values : List K) :
    (∀ s, (riskMetrics sqrt values).standardDeviation = JsNum.num s →
        (riskMetrics sqrt values).valueAtRisk = JsNum.num (s * (1645 / 1000)) ∧
          (reportMetrics (riskMetrics sqrt values)).valueAtRisk = some (s * (1645 / 1000))) ∧
      ((riskMetrics sqrt values).standardDeviation = JsNum.nonFinite →
        (riskMetrics sqrt values).valueAtRisk = JsNum.nonFinite ∧
          (reportMetrics (riskMetrics sqrt values)).valueAtRisk = none) ∧
      (∀ c : K, c ≠ 0 →
        (riskMetrics sqrt (values.map (fun v => c * v))).valueAtRisk =
          (riskMetrics sqrt values).valueAtRisk) ∧
      jsScale (JsNum.num (2 / 100 : K)) (1645 / 1000) = JsNum.num (329 / 10000) := by
  refine ⟨?_, ?_, ?_, ?_⟩
  · intro s hs
    have hs' : standardDeviation sqrt (dailyReturns values) = JsNum.num s := hs
    have h1 : (riskMetrics sqrt values).valueAtRisk = JsNum.num (s * (1645 / 1000)) := by
      simp only [riskMetrics, valueAtRisk, hs', jsScale]
    exact ⟨h1, by simp only [reportMetrics, h1, jsonNumber]⟩
  · intro hs
    have hs' : standardDeviation sqrt (dailyReturns values) = JsNum.nonFinite := hs
    have h1 : (riskMetrics sqrt values).valueAtRisk = JsNum.nonFinite := by
      simp only [riskMetrics, valueAtRisk, hs', jsScale]
    exact ⟨h1, by simp only [reportMetrics, h1, jsonNumber]⟩
  · intro c hc
    simp only [riskMetrics, dailyReturns_scale values c hc]
  · simp only [jsScale]
    norm_num

theorem valueAtRisk_is_scaled_deviation_witness :
    (riskMetrics Rat.sqrt sampleValues).standardDeviation = JsNum.num (1 / 10) ∧
      (reportMetrics (riskMetrics Rat.sqrt sampleValues)).valueAtRisk =
        some (1 / 10 * (1645 / 1000)) :=
  ⟨by decide!,
    ((valueAtRisk_is_scaled_deviation Rat.sqrt sampleValues).1 (1 / 10) (by decide!)).2⟩

/-! ## The drawdown chart (C28) -/

theorem peak_update_eq_max {K : Type} [LinearOrderedField K] (p v : K) :
    (if v > p then v else p) = max p v := by
  rcases lt_or_le p v with h | h
  · rw [if_pos h, max_eq_right h.le]
  · rw [if_neg (not_lt.2 h), max_eq_left h]

/-- The points pushed from index `pre.length` on, when the valuations `pre` have been read
and the running peak is their maximum. -/
theorem drawdownChartFrom_eq {K : Type} [LinearOrderedField K] (dates : List String)
    (v0 : K) (h0 : 0 < v0) (suf pre : List K) :
    drawdownChartFrom dates (pre.foldl max v0) pre.length suf =
      (List.range suf.length).map
        (fun j =>
          { date := dates[pre.length + j]?
            drawdown :=
              JsNum.num
                (((((pre ++ suf).take (pre.length + j + 1)).foldl max v0 -
                    (pre ++ suf).getD (pre.length + j) 0) /
                  ((pre ++ suf).take (pre.length + j + 1)).foldl max v0) * 100) }) := by
  induction suf generalizing pre with
  | nil => rfl
  | cons v rest ih =>
    have hp : 0 < max (pre.foldl max v0) v :=
      lt_of_lt_of_le (lt_of_lt_of_le h0 (le_foldl_max pre v0)) (le_max_left _ _)
    have hfold : (pre ++ [v]).foldl max v0 = max (pre.foldl max v0) v := by
      rw [List.foldl_append]
      rfl
    have ih' := ih (pre ++ [v])
    rw [hfold, List.length_append, List.length_singleton, List.append_assoc,
      List.singleton_append] at ih'
    rw [drawdownChartFrom, peak_update_eq_max, ih', List.length_cons, List.range_succ_eq_map,
      List.map_cons, List.map_map]
    congr 1
    · have htake : (pre ++ v :: rest).take (pre.length + 0 + 1) = pre ++ [v] := by
        rw [Nat.add_zero, List.take_append_eq_append_take]
        simp
      have hget : (pre ++ v :: rest).getD (pre.length + 0) 0 = v := by
        rw [Nat.add_zero, List.getD_eq_getElem?_getD,
          List.getElem?_append_right (le_refl _)]
        simp
      rw [htake, hget, hfold]
      simp only [jsDiv, hp.ne', if_false, jsScale, Nat.add_zero]
    · apply List.map_congr_left
      intro j _
      simp only [Function.comp, Nat.succ_eq_add_one]
      have e1 : pre.length + 1 + j = pre.length + (j + 1) := by omega
      rw [e1]

/-- With a positive first valuation the point of index `i` carries the date `dates[i]` and
the drawdown `(peak_i - v_i) / peak_i * 100`. -/
theorem drawdownChart_eq {K : Type} [LinearOrderedField K] (dates : List String)
    (v0 : K) (h0 : 0 < v0) (rest : List K) :
    drawdownChart dates (v0 :: rest) =
      (List.range (rest.length + 1)).map
        (fun i =>
          { date := dates[i]?
            drawdown := JsNum.num (drawdownAt (v0 :: rest) i * 100) }) := by
  have h := drawdownChartFrom_eq dates v0 h0 (v0 :: rest) []
  simp only [List.foldl_nil, List.length_nil, List.nil_append, Nat.zero_add,
    List.length_cons] at h
  simp only [drawdownChart]
  rw [h]
  rfl

theorem map_getElem?_range (l : List String) (n : ℕ) (hn : l.length = n) :
    (List.range n).map (fun i => l[i]?) = l.map some := by
  apply List.ext_getElem?
  intro j
  rw [List.getElem?_map, List.getElem?_map]
  by_cases hj : j < n
  · rw [List.getElem?_range hj, List.getElem?_eq_getElem (hn ▸ hj)]
    simp [List.getElem?_eq_getElem (hn ▸ hj)]
  · rw [List.getElem?_eq_none (by simpa using Nat.le_of_not_lt hj),
      List.getElem?_eq_none (by omega)]
    rfl

/-- C28. For every non-empty valuation series with a positive first value the two drawdown
computations agree: the chart has one point per valuation date, in date order, its first
drawdown is `0`, every drawdown of the chart is at most `maxDrawdown * 100`, and one of them
is equal to it. -/
theorem drawdown_computations_agree {K : Type} [LinearOrderedField K]
    (dates : List String) (values : List K) (v0 : K)
    (hhead : values.head? = some v0) (hpos : 0 < v0)
    (hlen : dates.length = values.length) :
    (drawdownChart dates values).length = values.length ∧
      (drawdownChart dates values).map (fun p => p.date) = dates.map some ∧
      (∃ p, (drawdownChart dates values)[0]? = some p ∧ p.drawdown = JsNum.num 0) ∧
      ∃ m, maxDrawdown values = JsNum.num m ∧
        (∀ p ∈ drawdownChart dates values, ∃ d, p.drawdown = JsNum.num d ∧ d ≤ m * 100) ∧
        ∃ p ∈ drawdownChart dates values, p.drawdown = JsNum.num (m * 100) := by
  cases values with
  | nil => simp at hhead
  | cons a rest =>
    have ha : a = v0 := by simpa using hhead
    subst ha
    rw [drawdownChart_eq dates a hpos rest]
    obtain ⟨m, hfold, hle, i, hi, him⟩ := drawdown_fold_spec a hpos rest
    refine ⟨by simp, ?_, ?_, m, ?_, ?_, ?_⟩
    · rw [List.map_map]
      exact map_getElem?_range dates _ (by simpa using hlen)
    · refine ⟨{ date := dates[0]?, drawdown := JsNum.num (drawdownAt (a :: rest) 0 * 100) },
        by simp [List.range_succ_eq_map], ?_⟩
      simp [drawdownAt, peakAt]
    · simp only [maxDrawdown, hfold]
    · intro p hp
      rw [List.mem_map] at hp
      obtain ⟨j, hj, rfl⟩ := hp
      rw [List.mem_range] at hj
      exact ⟨_, rfl, mul_le_mul_of_nonneg_right (hle j hj) (by norm_num)⟩
    · refine ⟨{ date := dates[i]?, drawdown := JsNum.num (drawdownAt (a :: rest) i * 100) },
        ?_, ?_⟩
      · rw [List.mem_map]
        exact ⟨i, List.mem_range.2 hi, rfl⟩
      · rw [him]

theorem drawdown_computations_agree_witness :
    drawdownValues.head? = some 100 ∧ (0 : ℚ) < 100 ∧
      (riskDates sampleHistory).length = (riskValues sampleHistory).length ∧
      drawdownChart ["2020-01-01", "2020-01-02", "2020-01-03", "2020-01-04"] drawdownValues =
        [⟨some "2020-01-01", JsNum.num 0⟩, ⟨some "2020-01-02", JsNum.num 0⟩,
          ⟨some "2020-01-03", JsNum.num 25⟩, ⟨some "2020-01-04", JsNum.num (100 / 12)⟩] ∧
      maxDrawdown drawdownValues = JsNum.num (25 / 100) ∧
      ((drawdownChart ["2020-01-01", "2020-01-02", "2020-01-03", "2020-01-04"]
            drawdownValues).length = drawdownValues.length ∧
        (drawdownChart ["2020-01-01", "2020-01-02", "2020-01-03", "2020-01-04"]
            drawdownValues).map (fun p => p.date) =
          ["2020-01-01", "2020-01-02", "2020-01-03", "2020-01-04"].map some ∧
        (∃ p, (drawdownChart ["2020-01-01", "2020-01-02", "2020-01-03", "2020-01-04"]
            drawdownValues)[0]? = some p ∧ p.drawdown = JsNum.num 0) ∧
        ∃ m, maxDrawdown drawdownValues = JsNum.num m ∧
          (∀ p ∈ drawdownChart ["2020-01-01", "2020-01-02", "2020-01-03", "2020-01-04"]
              drawdownValues, ∃ d, p.drawdown = JsNum.num d ∧ d ≤ m * 100) ∧
          ∃ p ∈ drawdownChart ["2020-01-01", "2020-01-02", "2020-01-03", "2020-01-04"]
              drawdownValues, p.drawdown = JsNum.num (m * 100)) :=
  ⟨by decide!, by decide!, by decide!, by decide!, by decide!,
    drawdown_computations_agree ["2020-01-01", "2020-01-02", "2020-01-03", "2020-01-04"]
      drawdownValues 100 (by decide!) (by decide!) (by decide!)⟩

/-! ## The risk/return plot (C29) -/

theorem mem_objKeys_result_foldl (fetch : String → Option (List Bar))
    (holdings : List Holding) (st : FetchState) (k : String) :
    k ∈ objKeys (holdings.foldl (processHolding fetch) st).result ↔
      k ∈ objKeys st.result ∨ ∃ h ∈ holdings, h.symbol = k := by
  induction holdings generalizing st with
  | nil => simp
  | cons h rest ih =>
    rw [List.foldl_cons, ih, processHolding_result, mem_objKeys_objSet]
    simp only [List.mem_cons, exists_eq_or_imp]
    constructor
    · rintro ((h1 | h1) | h1)
      · exact Or.inr (Or.inl h1.symm)
      · exact Or.inl h1
      · exact Or.inr (Or.inr h1)
    · rintro (h1 | h1 | h1)
      · exact Or.inl (Or.inr h1)
      · exact Or.inl (Or.inl h1.symm)
      · exact Or.inr h1

theorem mem_objKeys_getHistoricalRecords (fetch : String → Option (List Bar))
    (holdings : List Holding) (k : String) :
    k ∈ objKeys (getHistoricalRecords fetch holdings) ↔
      k = "PORTFOLIO_TOTAL" ∨ ∃ h ∈ holdings, h.symbol = k := by
  unfold getHistoricalRecords fetchAll
  rw [mem_objKeys_objSet, mem_objKeys_result_foldl]
  simp [objKeys]

/-- C29. The keys of the `data` object of a valuation response are the holding symbols,
stored without lower-case letters, and `PORTFOLIO_TOTAL`; it has no key `holdings`, so
`calculateRiskMetrics` never enters the branch that fills `riskReturnPlot` and returns it
empty. -/
theorem riskReturnPlot_empty (fetch : String → Option (List Bar))
    (holdings : List Holding) (hupper : ∀ h ∈ holdings, noLowerCase h.symbol = true) :
    (∀ k ∈ objKeys (getHistoricalRecords fetch holdings),
        k = "PORTFOLIO_TOTAL" ∨ ∃ h ∈ holdings, h.symbol = k) ∧
      objGet (getHistoricalRecords fetch holdings) "holdings" = none ∧
      riskReturnPlot (getHistoricalRecords fetch holdings) = some [] := by
  have hkey : "holdings" ∉ objKeys (getHistoricalRecords fetch holdings) := by
    rw [mem_objKeys_getHistoricalRecords]
    rintro (h1 | ⟨h, hh, hs⟩)
    · exact absurd h1 (by decide)
    · have := hupper h hh
      rw [hs] at this
      exact absurd this (by decide!)
  have hnone : objGet (getHistoricalRecords fetch holdings) "holdings" = none := by
    cases hg : objGet (getHistoricalRecords fetch holdings) "holdings" with
    | none => rfl
    | some v => exact absurd (mem_objKeys_of_objGet _ _ _ hg) hkey
  refine ⟨fun k hk => (mem_objKeys_getHistoricalRecords fetch holdings k).1 hk, hnone, ?_⟩
  simp only [riskReturnPlot, hnone]

theorem riskReturnPlot_empty_witness :
    (∀ h ∈ sampleHoldings, noLowerCase h.symbol = true) ∧
      riskReturnPlot (getHistoricalRecords sampleFetch sampleHoldings) = some [] :=
  ⟨by decide!, (riskReturnPlot_empty sampleFetch sampleHoldings (by decide!)).2.2⟩

/-! ## Exchange rates (C23, C24) -/

theorem orOne_none : orOne none = 1 := by
  simp [orOne, truthy]

theorem orOne_some (r : ℚ) (hr : r ≠ 0) : orOne (some r) = r := by
  simp [orOne, truthy, truthyNum, hr]

/-- C23, as stated, fails: the result of `getExchangeRate` is a bare number and carries no
flag. With the provider down the unsupported currency `XYZ` gets the rate `1`, the same value
as the rate of `INR` and as the rate of a working provider that quotes `XYZ` at `1`, so the
caller cannot detect the degraded mode. -/
theorem fallback_rate_carries_no_flag :
    objGet fallbackRates "XYZ" = none ∧
      getExchangeRate none "XYZ" = 1 ∧
      getExchangeRate none "INR" = 1 ∧
      getExchangeRate (some [("XYZ", 1)]) "XYZ" = 1 := by
  refine ⟨by decide!, by decide!, by decide!, by decide!⟩

/-- C23, amended. `getExchangeRate` never fails: when the rate provider is down and the
currency is not in the static fallback table it returns the default rate `1` (as a bare
number, without a fallback flag). -/
theorem default_rate_when_provider_down (fromCurrency : String)
    (hcur : fromCurrency ≠ "INR") (htable : objGet fallbackRates fromCurrency = none) :
    getExchangeRate none fromCurrency = 1 ∧
      ∀ provider, getExchangeRate provider "INR" = getExchangeRate none fromCurrency := by
  have hrate : getExchangeRate none fromCurrency = 1 := by
    simp only [getExchangeRate, hcur, if_false, htable, orOne_none]
  refine ⟨hrate, ?_⟩
  intro provider
  rw [hrate]
  rfl

theorem default_rate_when_provider_down_witness :
    "XYZ" ≠ "INR" ∧ objGet fallbackRates "XYZ" = none ∧ getExchangeRate none "XYZ" = 1 :=
  ⟨by decide, by decide!,
    (default_rate_when_provider_down "XYZ" (by decide) (by decide!)).1⟩

/-- C24, as stated, fails: when the provider answers without a rate for `USD` the rate is
`1`; the table rate `83.5` is used only when the request to the provider fails. -/
theorem missing_rate_defaults_to_one :
    objGet emptyRates "USD" = none ∧
      getExchangeRate (some emptyRates) "USD" = 1 ∧
      objGet fallbackRates "USD" = some (835 / 10) ∧
      getExchangeRate none "USD" = 835 / 10 := by
  refine ⟨by decide!, by decide!, by decide!, by decide!⟩

/-- C24, amended. For a currency other than INR: when the provider answers without a rate
for the currency the rate is `1` and the static table is not consulted; when the request to
the provider fails the rate is the one of the static table (for example `83.5` for USD), and
`1` only if the currency is absent from the table. -/
theorem rate_without_provider_rate (fromCurrency : String) (hcur : fromCurrency ≠ "INR") :
    (∀ rates, objGet rates fromCurrency = none →
        getExchangeRate (some rates) fromCurrency = 1) ∧
      (∀ r, objGet fallbackRates fromCurrency = some r →
        getExchangeRate none fromCurrency = r) ∧
      (objGet fallbackRates fromCurrency = none → getExchangeRate none fromCurrency = 1) ∧
      objGet fallbackRates "USD" = some (835 / 10) := by
  refine ⟨?_, ?_, ?_, by decide!⟩
  · intro rates hr
    simp only [getExchangeRate, hcur, if_false, hr, orOne_none]
    norm_num
  · intro r hr
    have hmem := mem_of_objGet _ _ _ hr
    have hall : ∀ p ∈ fallbackRates, p.2 ≠ 0 := by decide!
    simp only [getExchangeRate, hcur, if_false, hr, orOne_some r (hall _ hmem)]
  · intro hr
    simp only [getExchangeRate, hcur, if_false, hr, orOne_none]

theorem rate_without_provider_rate_witness :
    "USD" ≠ "INR" ∧ getExchangeRate (some emptyRates) "USD" = 1 ∧
      getExchangeRate none "USD" = 835 / 10 :=
  ⟨by decide,
    (rate_without_provider_rate "USD" (by decide)).1 emptyRates (by decide!),
    (rate_without_provider_rate "USD" (by decide)).2.1 (835 / 10) (by decide!)⟩

/-! ## The fetched bars (C25) -/

/-- C25. A fetch that succeeds uses one exchange rate, `getExchangeRate` of the chart's
currency: the output has one bar per timestamp, in the same order, and the close of every bar
is the raw close times that rate (a missing close becomes `0`); for a chart quoted in INR the
rate is `1` and every close is returned unchanged. -/
theorem fetched_bars_use_one_rate (isoDate : ℤ → String)
    (rateProvider : Option (List (String × ℚ))) (result : ChartResult) :
    ∃ bars, fetchStockHistoricalData isoDate rateProvider (some result) = some bars ∧
      bars.length = result.timestamp.length ∧
      bars.map (fun b => b.date) = result.timestamp.map isoDate ∧
      (∀ i, i < result.timestamp.length →
        ∃ bar, bars[i]? = some bar ∧
          bar.close =
            convertToINR (getExchangeRate rateProvider (currencyOrUSD result.currency))
              result.close[i]? ∧
          (∀ raw, result.close[i]? = some (some raw) →
            bar.close =
              JsNum.num
                (raw * getExchangeRate rateProvider (currencyOrUSD result.currency))) ∧
          (result.close[i]? = some none → bar.close = JsNum.num 0)) ∧
      (result.currency = some "INR" →
        getExchangeRate rateProvider (currencyOrUSD result.currency) = 1 ∧
          ∀ i raw, i < result.timestamp.length → result.close[i]? = some (some raw) →
            ∃ bar, bars[i]? = some bar ∧ bar.close = JsNum.num raw) := by
  refine ⟨_, rfl, by simp, ?_, ?_, ?_⟩
  · rw [List.map_map]
    have h : ((fun b : FetchedBar => b.date) ∘ fun p : ℕ × ℤ =>
        ({ date := isoDate p.2
           close :=
             convertToINR (getExchangeRate rateProvider (currencyOrUSD result.currency))
               result.close[p.1]?
           adjClose :=
             convertToINR (getExchangeRate rateProvider (currencyOrUSD result.currency))
               (result.adjclose.getD result.close)[p.1]? } : FetchedBar)) =
        isoDate ∘ Prod.snd := rfl
    rw [h, ← List.map_map, List.enum_map_snd]
  · intro i hi
    refine ⟨{ date := isoDate result.timestamp[i]
              close :=
                convertToINR (getExchangeRate rateProvider (currencyOrUSD result.currency))
                  result.close[i]?
              adjClose :=
                convertToINR (getExchangeRate rateProvider (currencyOrUSD result.currency))
                  (result.adjclose.getD result.close)[i]? }, ?_, rfl, ?_, ?_⟩
    · rw [List.getElem?_map, List.getElem?_enum, List.getElem?_eq_getElem hi]
      rfl
    · intro raw hraw
      simp only [hraw, convertToINR]
    · intro hnull
      simp only [hnull, convertToINR]
  · intro hinr
    have hrate : getExchangeRate rateProvider (currencyOrUSD result.currency) = 1 := by
      rw [hinr]
      rfl
    refine ⟨hrate, ?_⟩
    intro i raw hi hraw
    refine ⟨{ date := isoDate result.timestamp[i]
              close :=
                convertToINR (getExchangeRate rateProvider (currencyOrUSD result.currency))
                  result.close[i]?
              adjClose :=
                convertToINR (getExchangeRate rateProvider (currencyOrUSD result.currency))
                  (result.adjclose.getD result.close)[i]? }, ?_, ?_⟩
    · rw [List.getElem?_map, List.getElem?_enum, List.getElem?_eq_getElem hi]
      rfl
    · simp only [hraw, convertToINR, hrate, mul_one]

theorem fetched_bars_use_one_rate_witness :
    fetchStockHistoricalData sampleIsoDate none (some dollarChart) =
        some [⟨"2020-01-02", JsNum.num 835, JsNum.num 835⟩,
          ⟨"2020-01-03", JsNum.num 0, JsNum.num 0⟩] ∧
      fetchStockHistoricalData sampleIsoDate none (some rupeeChart) =
        some [⟨"2020-01-02", JsNum.num 10, JsNum.num 9⟩,
          ⟨"2020-01-03", JsNum.num 11, JsNum.num 11⟩] ∧
      ∃ bars, fetchStockHistoricalData sampleIsoDate none (some rupeeChart) = some bars ∧
        bars.length = rupeeChart.timestamp.length := by
  refine ⟨by decide!, by decide!, ?_⟩
  obtain ⟨bars, h1, h2, _⟩ := fetched_bars_use_one_rate sampleIsoDate none rupeeChart
  exact ⟨bars, h1, h2⟩

/-! ## Failed fetches and empty portfolios (C26, C27) -/

theorem stockData_nil (holding : Holding) : stockData holding [] = [] := rfl

theorem processHolding_emptyOnFailure (fetch : String → Option (List Bar)) (st : FetchState)
    (holding : Holding) :
    processHolding (emptyOnFailure fetch) st holding = processHolding fetch st holding := by
  unfold processHolding emptyOnFailure
  cases fetch holding.symbol with
  | none => rfl
  | some bars => rfl

theorem fetchAll_emptyOnFailure (fetch : String → Option (List Bar))
    (holdings : List Holding) :
    fetchAll (emptyOnFailure fetch) holdings = fetchAll fetch holdings := by
  unfold fetchAll
  have h : processHolding (emptyOnFailure fetch) = processHolding fetch := by
    funext st holding
    exact processHolding_emptyOnFailure fetch st holding
  rw [h]

/-- C26. A failed fetch does not abort the valuation: the response is the one obtained when
every failed fetch is replaced by a successful fetch without bars, the holding whose fetch
failed has the empty series, and a date is in the portfolio total exactly when it is in the
aligned union and the number of holdings with non-zero data reaches
`ceil(holdingCount / 2)`, where `holdingCount` counts all holdings, failed ones included. -/
theorem failed_fetch_is_empty_series (fetch : String → Option (List Bar))
    (holdings : List Holding) :
    getHistoricalRecordsResponse fetch (some holdings) =
        HistoricalResponse.success (getHistoricalRecords (emptyOnFailure fetch) holdings) ∧
      (∀ h ∈ holdings, fetch h.symbol = none →
        objGet (fetchAll fetch holdings).result h.symbol = some []) ∧
      (∀ date, date ∈ objKeys (portfolioValues fetch holdings) ↔
        date ∈ sortedDates fetch holdings ∧
          ⌈(holdings.length : ℚ) / 2⌉ ≤
            (((holdings.filter
              (fun h => truthy (positionValue (fetchAll fetch holdings).result h date))).length :
                ℕ) : ℤ)) := by
  refine ⟨?_, ?_, ?_⟩
  · simp only [getHistoricalRecordsResponse, getHistoricalRecords, portfolioValues,
      sortedDates, fetchAll_emptyOnFailure]
  · intro h hh hfail
    obtain ⟨h', _, hsym, hget⟩ := objGet_result_fetchAll fetch holdings h hh
    rw [hget]
    simp only [seriesOf, hsym, hfail]
  · intro date
    rw [mem_objKeys_portfolioValues, dateTotals_snd, ← coverageThreshold_eq_ceil]
    constructor
    · rintro ⟨h1, h2⟩
      exact ⟨h1, by exact_mod_cast h2⟩
    · rintro ⟨h1, h2⟩
      exact ⟨h1, by exact_mod_cast h2⟩

theorem failed_fetch_is_empty_series_witness :
    sampleFetch "CCC" = none ∧
      getHistoricalRecordsResponse sampleFetch (some sampleHoldings) =
        HistoricalResponse.success
          [("AAA", [("2020-01-02", 20), ("2020-01-01", 10)]), ("BBB", [("2020-01-02", 7)]),
            ("CCC", []), ("PORTFOLIO_TOTAL", [("2020-01-02", 27)])] ∧
      getHistoricalRecordsResponse sampleFetch (some sampleHoldings) =
        HistoricalResponse.success
          (getHistoricalRecords (emptyOnFailure sampleFetch) sampleHoldings) :=
  ⟨by decide!, by decide!, (failed_fetch_is_empty_series sampleFetch sampleHoldings).1⟩

/-- C27, as stated, fails: a valuation request for a portfolio without holdings is answered
with status 200 and a `data` object that holds only the empty `PORTFOLIO_TOTAL` series. -/
theorem empty_portfolio_is_success :
    getHistoricalRecordsResponse sampleFetch (some []) =
      HistoricalResponse.success [("PORTFOLIO_TOTAL", [])] := by
  decide!

/-- C27, amended. A valuation request for a portfolio with zero holdings is answered as a
success whose data is the empty portfolio-total series; no error is raised, whatever the
market-data provider would answer. -/
theorem empty_portfolio_response (fetch : String → Option (List Bar)) :
    getHistoricalRecordsResponse fetch (some []) =
        HistoricalResponse.success [("PORTFOLIO_TOTAL", [])] ∧
      getHistoricalRecordsResponse fetch (some []) ≠ HistoricalResponse.notFound := by
  have h : getHistoricalRecordsResponse fetch (some []) =
      HistoricalResponse.success [("PORTFOLIO_TOTAL", [])] := rfl
  refine ⟨h, ?_⟩
  rw [h]
  exact fun e => HistoricalResponse.noConfusion e

/-! ## Selling shares (C30) -/

/-- C30, as stated, fails: selling `0.9999994` of one share leaves `old - sold = 0.0000006`,
which is below `0.000001`; the stored quantity is the six-decimal rounding `0.000001`, so the
holding is kept with a quantity different from `old - sold`. The portfolio cost is the
two-decimal rounding `5` of the sum `4.9995` of the holdings' costs, not the sum. -/
theorem sale_keeps_rounded_quantity :
    sellHolding sampleStore ⟨"p1", "AAA", 9999994 / 10000000⟩ =
        SellResponse.success
          { holdings :=
              [⟨"AAA", 1 / 1000000, 10, 0⟩, ⟨"BBB", 3 / 2, 3333 / 1000, 49995 / 10000⟩]
            totalPortfolioCost := 5 } ∧
      (1 : ℚ) - 9999994 / 10000000 = 6 / 10000000 ∧
      (6 : ℚ) / 10000000 < 1 / 1000000 ∧
      ((0 : ℚ) + 49995 / 10000 ≠ 5) := by
  refine ⟨by decide!, by norm_num, by norm_num, by norm_num⟩

theorem toFixed6_nonneg (x : ℚ) (hx : 0 ≤ x) : 0 ≤ toFixed6 x := by
  unfold toFixed6
  rw [if_neg (not_lt.2 hx)]
  apply div_nonneg _ (by norm_num)
  have h : (0 : ℤ) ≤ ⌊x * 1000000 + 1 / 2⌋ := Int.floor_nonneg.2 (by positivity)
  exact_mod_cast h

/-- C30, amended. For a valid request that finds its holding: a request to sell more shares
than the holding has is rejected with 'Not enough shares to sell' and the stored portfolio is
unchanged; an accepted sale stores the quantity `round6(old - sold)`, which is never
negative, removes the holding when that quantity is below `0.000001` and keeps it in its
place otherwise, and sets `totalPortfolioCost` to the two-decimal rounding of the sum of the
remaining holdings' `totalCost`. -/
theorem sellHolding_quantity (findById : String → Option Portfolio) (req : SellRequest)
    (portfolio : Portfolio) (holdingIndex : ℕ) (holding : PortfolioHolding)
    (hid : req.portfolioId ≠ "") (hsym : req.symbol ≠ "") (hqty : 0 < req.quantity)
    (hfind : findById req.portfolioId = some portfolio)
    (hholding : findHolding portfolio.holdings req.symbol = some (holdingIndex, holding)) :
    (holding.quantity < req.quantity →
        sellHolding findById req = SellResponse.notEnoughShares ∧
          storedAfterSale findById req = some portfolio) ∧
      (req.quantity ≤ holding.quantity →
        ∃ saved, sellHolding findById req = SellResponse.success saved ∧
          storedAfterSale findById req = some saved ∧
          0 ≤ toFixed6 (holding.quantity - req.quantity) ∧
          (toFixed6 (holding.quantity - req.quantity) < 1 / 1000000 →
            saved.holdings = portfolio.holdings.eraseIdx holdingIndex) ∧
          (1 / 1000000 ≤ toFixed6 (holding.quantity - req.quantity) →
            saved.holdings =
              portfolio.holdings.set holdingIndex
                { holding with
                  quantity := toFixed6 (holding.quantity - req.quantity)
                  totalCost :=
                    toFixed2
                      (toFixed6 (holding.quantity - req.quantity) * holding.avgBuyPrice) }) ∧
          saved.totalPortfolioCost =
            toFixed2 (saved.holdings.map (fun h => h.totalCost)).sum) := by
  have hvalid : ¬ (req.portfolioId = "" ∨ req.symbol = "" ∨ req.quantity ≤ 0) := by
    rintro (h | h | h)
    · exact hid h
    · exact hsym h
    · exact absurd hqty (not_lt.2 h)
  constructor
  · intro hlt
    have hresp : sellHolding findById req = SellResponse.notEnoughShares := by
      simp only [sellHolding, hvalid, if_false, hfind, hholding, hlt, if_true]
    exact ⟨hresp, by simp only [storedAfterSale, hresp, hfind]⟩
  · intro hle
    have hresp : sellHolding findById req =
        SellResponse.success
          { holdings :=
              holdingsAfterSale portfolio.holdings holdingIndex holding req.quantity
            totalPortfolioCost :=
              toFixed2
                ((holdingsAfterSale portfolio.holdings holdingIndex holding
                  req.quantity).map (fun h => h.totalCost)).sum } := by
      simp only [sellHolding, hvalid, if_false, hfind, hholding, not_lt.2 hle]
    refine ⟨_, hresp, by simp only [storedAfterSale, hresp],
      toFixed6_nonneg _ (sub_nonneg.2 hle), ?_, ?_, rfl⟩
    · intro hsmall
      simp only [holdingsAfterSale, soldHolding, hsmall, if_true]
    · intro hbig
      simp only [holdingsAfterSale, soldHolding, not_lt.2 hbig, if_false]

theorem sellHolding_quantity_witness :
    sellHolding sampleStore ⟨"p1", "AAA", 2⟩ = SellResponse.notEnoughShares ∧
      storedAfterSale sampleStore ⟨"p1", "AAA", 2⟩ = some storedPortfolio ∧
      sellHolding sampleStore ⟨"p1", "AAA", 1⟩ =
        SellResponse.success
          { holdings := [⟨"BBB", 3 / 2, 3333 / 1000, 49995 / 10000⟩]
            totalPortfolioCost := 5 } ∧
      sellHolding sampleStore ⟨"p1", "BBB", 1 / 2⟩ =
        SellResponse.success
          { holdings := [⟨"AAA", 1, 10, 10⟩, ⟨"BBB", 1, 3333 / 1000, 333 / 100⟩]
            totalPortfolioCost := 1333 / 100 } :=
  ⟨((sellHolding_quantity sampleStore ⟨"p1", "AAA", 2⟩ storedPortfolio 0 ⟨"AAA", 1, 10, 10⟩
      (by decide) (by decide) (by decide!) (by decide!) (by decide!)).1 (by decide!)).1,
    ((sellHolding_quantity sampleStore ⟨"p1", "AAA", 2⟩ storedPortfolio 0 ⟨"AAA", 1, 10, 10⟩
      (by decide) (by decide) (by decide!) (by decide!) (by decide!)).1 (by decide!)).2,
    by decide!, by decide!⟩

/-! ## The histogram above its lowest bound -/

theorem length_filter_inBucket_split {K : Type} [LinearOrderedField K] (a b : K)
    (hab : a ≤ b) (returns : List (JsNum K)) :
    (returns.filter (inBucket a none)).length =
      (returns.filter (inBucket a (some b))).length +
        (returns.filter (inBucket b none)).length := by
  induction returns with
  | nil => rfl
  | cons r rest ih =>
    cases r with
    | nonFinite => simpa [inBucket, List.filter_cons] using ih
    | num x =>
      rcases lt_or_le x a with h1 | h1
      · have h2 : ¬ a ≤ x := not_le.2 h1
        have h3 : ¬ b ≤ x := not_le.2 (lt_of_lt_of_le h1 hab)
        simpa [inBucket, List.filter_cons, h2, h3] using ih
      · rcases lt_or_le x b with h2 | h2
        · have h3 : ¬ b ≤ x := not_le.2 h2
          simp [inBucket, List.filter_cons, h1, h2, h3, ih]
          omega
        · have h3 : ¬ x < b := not_lt.2 h2
          simp [inBucket, List.filter_cons, h1, h2, h3, ih]
          omega

theorem returnDistribution_counts {K : Type} [LinearOrderedField K]
    (returns : List (JsNum K)) :
    (returnDistribution returns).map (fun b => b.count) =
      [(returns.filter (inBucket (-(20 / 100)) (some (-(15 / 100))))).length,
        (returns.filter (inBucket (-(15 / 100)) (some (-(10 / 100))))).length,
        (returns.filter (inBucket (-(10 / 100)) (some (-(5 / 100))))).length,
        (returns.filter (inBucket (-(5 / 100)) (some 0))).length,
        (returns.filter (inBucket 0 (some (5 / 100)))).length,
        (returns.filter (inBucket (5 / 100) (some (10 / 100)))).length,
        (returns.filter (inBucket (10 / 100) (some (15 / 100)))).length,
        (returns.filter (inBucket (15 / 100) (some (20 / 100)))).length,
        (returns.filter (inBucket (20 / 100) none)).length] := rfl

/-- The bucket counts of the histogram sum to the number of finite returns that are at
least `-0.2`. -/
theorem histogram_counts_sum {K : Type} [LinearOrderedField K] (returns : List (JsNum K)) :
    ((returnDistribution returns).map (fun b => b.count)).sum =
      (returns.filter (inBucket (-(20 / 100)) none)).length := by
  rw [returnDistribution_counts,
    length_filter_inBucket_split (-(20 / 100)) (-(15 / 100)) (by norm_num) returns,
    length_filter_inBucket_split (-(15 / 100)) (-(10 / 100)) (by norm_num) returns,
    length_filter_inBucket_split (-(10 / 100)) (-(5 / 100)) (by norm_num) returns,
    length_filter_inBucket_split (-(5 / 100)) 0 (by norm_num) returns,
    length_filter_inBucket_split 0 (5 / 100) (by norm_num) returns,
    length_filter_inBucket_split (5 / 100) (10 / 100) (by norm_num) returns,
    length_filter_inBucket_split (10 / 100) (15 / 100) (by norm_num) returns,
    length_filter_inBucket_split (15 / 100) (20 / 100) (by norm_num) returns]
  simp only [List.sum_cons, List.sum_nil]
  omega

/-- When every return is a finite number that is at least `-0.2`, the bucket counts sum to
the number of returns. -/
theorem histogram_counts_sum_of_bounded {K : Type} [LinearOrderedField K]
    (rs : List K) (hall : ∀ r ∈ rs, -(20 / 100) ≤ r) :
    ((returnDistribution (rs.map JsNum.num)).map (fun b => b.count)).sum = rs.length := by
  rw [histogram_counts_sum, List.filter_eq_self.2, List.length_map]
  intro r hr
  rw [List.mem_map] at hr
  obtain ⟨x, hx, rfl⟩ := hr
  simp [inBucket, hall x hx]

theorem returnDistribution_frequencies {K : Type} [LinearOrderedField K]
    (returns : List (JsNum K)) :
    (returnDistribution returns).map (fun b => b.frequency) =
      ((returnDistribution returns).map (fun b => b.count)).map
        (fun c => jsScale (jsDiv ((c : ℕ) : K) (returns.length : K)) 100) := rfl

theorem sum_map_frequency {K : Type} [LinearOrderedField K] (counts : List ℕ) (n : K) :
    (counts.map (fun c => ((c : ℕ) : K) / n * 100)).sum = ((counts.sum : ℕ) : K) / n * 100 := by
  induction counts with
  | nil => simp
  | cons c rest ih =>
    rw [List.map_cons, List.sum_cons, ih, List.sum_cons]
    push_cast
    ring

/-- C21, amended. For every non-empty list of finite returns that are all at least `-20%`
the histogram has 9 buckets, each return is counted in exactly one of them, the bucket counts
sum to the number of returns and the unrounded frequencies sum to `100`. -/
theorem histogram_partitions_bounded_returns {K : Type} [LinearOrderedField K]
    (rs : List K) (hne : rs ≠ []) (hall : ∀ r ∈ rs, -(20 / 100) ≤ r) :
    (returnDistribution (rs.map JsNum.num)).length = 9 ∧
      (∀ r ∈ rs,
        ((returnDistribution [JsNum.num r]).map (fun b => b.count)).sum = 1) ∧
      ((returnDistribution (rs.map JsNum.num)).map (fun b => b.count)).sum = rs.length ∧
      ∃ fs : List K,
        (returnDistribution (rs.map JsNum.num)).map (fun b => b.frequency) =
            fs.map JsNum.num ∧
          fs.sum = 100 := by
  have hlen : (rs.length : K) ≠ 0 := by
    have : 0 < rs.length := List.length_pos.2 hne
    exact_mod_cast this.ne'
  have hsum := histogram_counts_sum_of_bounded rs hall
  refine ⟨rfl, ?_, hsum, ?_⟩
  · intro r hr
    have h := histogram_counts_sum_of_bounded [r] (by simpa using hall r hr)
    simpa using h
  · refine ⟨((returnDistribution (rs.map JsNum.num)).map (fun b => b.count)).map
        (fun c => ((c : ℕ) : K) / (rs.length : K) * 100), ?_, ?_⟩
    · rw [returnDistribution_frequencies, List.length_map, List.map_map JsNum.num]
      apply List.map_congr_left
      intro c _
      simp only [Function.comp, jsDiv, hlen, if_false, jsScale]
    · rw [sum_map_frequency, hsum]
      field_simp

theorem histogram_partitions_bounded_returns_witness :
    ([1 / 10, -(1 / 10)] : List ℚ) ≠ [] ∧
      (∀ r ∈ ([1 / 10, -(1 / 10)] : List ℚ), -(20 / 100) ≤ r) ∧
      (returnDistribution (([1 / 10, -(1 / 10)] : List ℚ).map JsNum.num)).map
          (fun b => b.count) = [0, 0, 1, 0, 0, 0, 1, 0, 0] ∧
      ((returnDistribution (([1 / 10, -(1 / 10)] : List ℚ).map JsNum.num)).map
          (fun b => b.count)).sum = ([1 / 10, -(1 / 10)] : List ℚ).length :=
  ⟨by decide!, by decide!, by decide!,
    (histogram_partitions_bounded_returns ([1 / 10, -(1 / 10)] : List ℚ) (by decide!)
      (by decide!)).2.2.1⟩

end Axion
